import Mathlib

/-!
basilisp: type lattice, meta values and the two-stage evaluator

A shallow embedding of the core of the interpreter (`type.cpp`, `meta.cpp`,
`env.cpp`, `ast.cpp`, `parse.cpp`, `builtin.cpp`, `errors.cpp`, `main.cpp`).

Types are hash-consed in the source: every `const Type*` handed around is the
unique interned object for its mangle, and handles are compared by address.
The embedding represents a handle by the structure of the object it points to,
so that address equality becomes structural equality.  Member sets of sum and
intersection types are lists in the iteration order of the set.
-/

set_option autoImplicit false

namespace Basil

/-- The nine kinds of `enum class Kind`. -/
inductive Kind where
  | TYPE | NUMBER | FUNCTION | MACRO | ARRAY | SUM | INTERSECT | NAMED | RUNTIME
  deriving DecidableEq, Repr

/-- An interned type object: `Type`, `NumberType`, `FunctionType`, `MacroType`,
`ArrayType`, `SumType`, `IntersectType`, `NamedType`, `RuntimeType`. -/

inductive Ty where
  | base (size : Nat)
  | number (size : Nat) (floating : Bool)
  | function (args : List Ty) (ret : Ty)
  | macroTy (args : List Ty) (ret : Ty)
  | array (element : Ty) (count : Int)
  | sum (members : List Ty)
  | intersect (members : List Ty)
  | named (child : Ty) (name : String)
  | runtime (child : Ty)

namespace Ty

mutual
def beq : Ty → Ty → Bool
  | base s, base s2 => s == s2
  | number s f, number s2 f2 => s == s2 && f == f2
  | function a r, function a2 r2 => beqList a a2 && beq r r2
  | macroTy a r, macroTy a2 r2 => beqList a a2 && beq r r2
  | array e c, array e2 c2 => beq e e2 && c == c2
  | sum m, sum m2 => beqList m m2
  | intersect m, intersect m2 => beqList m m2
  | named c n, named c2 n2 => beq c c2 && n == n2
  | runtime c, runtime c2 => beq c c2
  | _, _ => false
def beqList : List Ty → List Ty → Bool
  | [], [] => true
  | a :: as, b :: bs => beq a b && beqList as bs
  | _, _ => false
end

mutual
theorem beq_eq : ∀ (a b : Ty), beq a b = true → a = b
  | base s, b => by cases b <;> simp [beq]
  | number s f, b => by cases b <;> simp [beq]
  | function a r, b => by
      cases b <;> simp [beq]
      intro h1 h2; exact ⟨beqList_eq _ _ h1, beq_eq _ _ h2⟩
  | macroTy a r, b => by
      cases b <;> simp [beq]
      intro h1 h2; exact ⟨beqList_eq _ _ h1, beq_eq _ _ h2⟩
  | array e c, b => by
      cases b <;> simp [beq]
      intro h1 h2; exact ⟨beq_eq _ _ h1, h2⟩
  | sum m, b => by
      cases b <;> simp [beq]
      intro h1; exact beqList_eq _ _ h1
  | intersect m, b => by
      cases b <;> simp [beq]
      intro h1; exact beqList_eq _ _ h1
  | named c n, b => by
      cases b <;> simp [beq]
      intro h1 h2; exact ⟨beq_eq _ _ h1, h2⟩
  | runtime c, b => by
      cases b <;> simp [beq]
      intro h1; exact beq_eq _ _ h1
theorem beqList_eq : ∀ (a b : List Ty), beqList a b = true → a = b
  | [], b => by cases b <;> simp [beqList]
  | a :: as, b => by
      cases b <;> simp [beqList]
      intro h1 h2; exact ⟨beq_eq _ _ h1, beqList_eq _ _ h2⟩
end

mutual
theorem beq_refl : ∀ (a : Ty), beq a a = true
  | base s => by simp [beq]
  | number s f => by simp [beq]
  | function a r => by simp [beq, beqList_refl a, beq_refl r]
  | macroTy a r => by simp [beq, beqList_refl a, beq_refl r]
  | array e c => by simp [beq, beq_refl e]
  | sum m => by simp [beq, beqList_refl m]
  | intersect m => by simp [beq, beqList_refl m]
  | named c n => by simp [beq, beq_refl c]
  | runtime c => by simp [beq, beq_refl c]
theorem beqList_refl : ∀ (a : List Ty), beqList a a = true
  | [] => by simp [beqList]
  | a :: as => by simp [beqList, beq_refl a, beqList_refl as]
end

instance : DecidableEq Ty := fun a b =>
  if h : beq a b = true then isTrue (beq_eq a b h)
  else isFalse (fun e => h (e ▸ beq_refl a))


/-- Virtual `kind()`. -/
def kind : Ty → Kind
  | base _ => Kind.TYPE
  | number _ _ => Kind.NUMBER
  | function _ _ => Kind.FUNCTION
  | macroTy _ _ => Kind.MACRO
  | array _ _ => Kind.ARRAY
  | sum _ => Kind.SUM
  | intersect _ => Kind.INTERSECT
  | named _ _ => Kind.NAMED
  | runtime _ => Kind.RUNTIME

end Ty

open Ty

/-- `INT = find<NumberType>(8, false)`. -/
def INT : Ty := number 8 false
/-- `FLOAT = find<NumberType>(8, true)`. -/
def FLOAT : Ty := number 8 true
/-- `STRING = find<NamedType>(find<Type>(8), "string")`. -/
def STRING : Ty := named (base 8) "string"
/-- `CHAR = find<NamedType>(find<Type>(4), "char")`. -/
def CHAR : Ty := named (base 4) "char"
/-- `SYMBOL = find<NamedType>(find<Type>(4), "symbol")`. -/
def SYMBOL : Ty := named (base 4) "symbol"
/-- `ANY = find<NamedType>(find<Type>(0), "any")`. -/
def ANY : Ty := named (base 0) "any"
/-- `VOID = find<NamedType>(find<Type>(0), "void")`. -/
def VOID : Ty := named (base 0) "void"
/-- `TYPE = find<NamedType>(find<Type>(4), "type")`. -/
def TYPE : Ty := named (base 4) "type"
/-- `BOOL = find<NamedType>(find<Type>(1), "bool")`. -/
def BOOL : Ty := named (base 1) "bool"
/-- `UNDEFINED = find<NamedType>(find<Type>(0), "undefined")`. -/
def UNDEFINED : Ty := named (base 0) "undefined"

namespace Ty

/-- `Type::implicitly`, the base-class rule every override falls back to:
identity, `ANY`, the runtime wrapper of this very type, or a sum that has this
type among its members. -/
def baseImplicitly (self other : Ty) : Bool :=
  decide (other = self) || decide (other = ANY) ||
  (match other with
   | runtime c => decide (c = self)
   | _ => false) ||
  (match other with
   | sum ms => decide (self ∈ ms)
   | _ => false)

/-- Virtual `implicitly(other)`, dispatched on the receiver. -/
def implicitly : Ty → Ty → Bool
  | base s, o => baseImplicitly (base s) o
  | number s f, o =>
      if baseImplicitly (number s f) o then true
      else if kind o ≠ Kind.NUMBER then false
      else (match o with
            | number _ f2 => f2 == f
            | _ => false)
  | function a r, o => baseImplicitly (function a r) o
  | macroTy a r, o => baseImplicitly (macroTy a r) o
  | array e c, o =>
      baseImplicitly (array e c) o ||
      (match o with
       | array _ c2 => c2 == -1
       | _ => false)
  | sum ms, o => baseImplicitly (sum ms) o
  | intersect ms, o => baseImplicitly (intersect ms) o || decide (o ∈ ms)
  | named c n, o => baseImplicitly (named c n) o
  | runtime c, o => implicitly c o

/-- Virtual `explicitly(other)`, dispatched on the receiver. -/
def explicitly : Ty → Ty → Bool
  | base s, o => implicitly (base s) o
  | number _ _, o => decide (kind o = Kind.NUMBER)
  | function a r, o => implicitly (function a r) o
  | macroTy a r, o => implicitly (macroTy a r) o
  | array e c, o => implicitly (array e c) o
  | sum ms, o => implicitly (sum ms) o || decide (o ∈ ms)
  | intersect ms, o => implicitly (intersect ms) o
  | named c n, o => implicitly (named c n) o || explicitly c o
  | runtime c, o => explicitly c o

end Ty

/-- The free function `join`; `none` is the null pointer. -/
def join (a b : Ty) : Option Ty :=
  if a = UNDEFINED ∨ b = UNDEFINED then some UNDEFINED
  else if a = b then some a
  else if kind b = Kind.RUNTIME ∧ a.implicitly b = true then some b
  else if kind a = Kind.RUNTIME ∧ b.implicitly a = true then some a
  else if a.implicitly b = true then some b
  else if b.implicitly a = true then some a
  else if a.explicitly b = true then some b
  else if b.explicitly a = true then some a
  else none



/-! ## Sizes and mangling -/

/-- Reduction of a natural number to the range of `u32`. -/
def wrapU32 (n : Nat) : Nat := n % 4294967296

/-- Decimal rendering of a `u32` written to a buffer. -/
def writeU32 (n : Nat) : String := toString (wrapU32 n)

namespace Ty

mutual
/-- `Type::size()`: the `_size` every constructor passes to the base class.
An array of count −1 is the one built by the one-argument constructor. -/
def size : Ty → Nat
  | base s => s
  | number s _ => s
  | function _ _ => 8
  | macroTy _ _ => 0
  | array e c => if c = -1 then 8 else wrapU32 (size e * c.toNat)
  | sum ms => totalsize ms
  | intersect ms => maxsize ms
  | named c _ => size c
  | runtime c => size c
/-- The template `totalsize`. -/
def totalsize : List Ty → Nat
  | [] => 0
  | t :: ts => wrapU32 (size t + totalsize ts)
/-- The template `maxsize`. -/
def maxsize : List Ty → Nat
  | [] => 0
  | t :: ts => if maxsize ts < size t then size t else maxsize ts
end

mutual
/-- Virtual `mangle()`. -/
def mangle : Ty → String
  | base s => "@" ++ writeU32 (s * 8)
  | number s f => (if f then "F" else "I") ++ writeU32 (s * 8)
  | function a r => "L" ++ mangle r ++ "(" ++ mangleArgs a a ++ ")"
  | macroTy a r => "M" ++ mangle r ++ "(" ++ mangleArgs a a ++ ")"
  | array e c => "A" ++ mangle e ++ "[" ++ (if c > -1 then toString c else "") ++ "]"
  | sum ms => "|(" ++ mangleMembers ms ++ ")"
  | intersect ms => "&(" ++ mangleMembers ms ++ ")"
  | named c n => "N" ++ n ++ mangle c
  | runtime c => "?" ++ mangle c
/-- The loop `for (const Type* t : _args)` of the function and macro mangles:
a comma follows every argument whose handle differs from `_args.back()`. -/
def mangleArgs (whole : List Ty) : List Ty → String
  | [] => ""
  | t :: ts => mangle t ++ (if some t ≠ whole.getLast? then "," else "") ++ mangleArgs whole ts
/-- The loop `for (const Type* t : _members)` of the sum and intersection
mangles: a comma follows every member. -/
def mangleMembers : List Ty → String
  | [] => ""
  | t :: ts => mangle t ++ "," ++ mangleMembers ts
end

end Ty

/-! ## Maps of the absent container library, as association lists -/

/-- `map::find(key)`; `none` is `end()`. -/
def mapFind {κ ν : Type} [DecidableEq κ] : List (κ × ν) → κ → Option ν
  | [], _ => none
  | (k2, v2) :: rest, k => if k2 = k then some v2 else mapFind rest k

/-- `map[key] = v` and `map.put(key, v)`: overwrite the binding of `key` if
there is one, otherwise add one. -/
def mapAssign {κ ν : Type} [DecidableEq κ] : List (κ × ν) → κ → ν → List (κ × ν)
  | [], k, v => [(k, v)]
  | (k2, v2) :: rest, k, v =>
      if k2 = k then (k2, v) :: rest else (k2, v2) :: mapAssign rest k v

/-! ## The intern table -/

/-- The global `map<ustring, const Type*> TYPEMAP` together with the type
objects its handles point to.  A `const Type*` is the address of a type object:
`objects` holds the objects that are alive, by address, `next` is the address
the next `new` returns, and `typemap` maps a mangle to the interned handle. -/
structure TypeMap where
  objects : List (Nat × Ty)
  next : Nat
  typemap : List (String × Nat)
  deriving DecidableEq

/-- `TYPEMAP` at program start: no object, no binding. -/
def TypeMap.empty : TypeMap := { objects := [], next := 0, typemap := [] }

/-- Dereference of a `const Type*`; `none` when no live object has the address. -/
def TypeMap.object (tm : TypeMap) (handle : Nat) : Option Ty := mapFind tm.objects handle

/-- The template `find<T>(args...)`: `t` is the value of the object that
`new T(args...)` builds at the address `tm.next`.  When the mangle is bound the
new object is deleted, which frees its address again, and the bound handle is
returned; otherwise the address of the new object is bound and returned. -/
def find (t : Ty) (tm : TypeMap) : Nat × TypeMap :=
  match mapFind tm.typemap t.mangle with
  | some handle => (handle, tm)
  | none =>
      (tm.next,
        { objects := tm.objects ++ [(tm.next, t)], next := tm.next + 1,
          typemap := mapAssign tm.typemap t.mangle tm.next })

/-- States of `TYPEMAP` reachable from `tm` by calls of `find`. -/
inductive FindSteps : TypeMap → TypeMap → Prop where
  | refl (tm : TypeMap) : FindSteps tm tm
  | step (tm tm2 : TypeMap) (t : Ty) : FindSteps tm tm2 → FindSteps tm (find t tm2).2

/-- States of `TYPEMAP` reachable from the empty table of program start. -/
def ReachableTypeMap (tm : TypeMap) : Prop := FindSteps TypeMap.empty tm

/-- Keys are pairwise distinct, and so are the handles; the live objects are
the objects of the bound handles, in the order of the bindings, each stored
under its own mangle; every address in use lies below `next`. -/
def WellFormedTypeMap (tm : TypeMap) : Prop :=
  (tm.typemap.map Prod.fst).Nodup ∧ (tm.typemap.map Prod.snd).Nodup ∧
  tm.objects.map Prod.fst = tm.typemap.map Prod.snd ∧
  tm.objects.map (fun o => o.2.mangle) = tm.typemap.map Prod.fst ∧
  ∀ b ∈ tm.typemap, b.2 < tm.next

/-! ## The symbol table -/

/-- The globals `symbolnames`, `symbolids` and `next` of `meta.cpp`. -/
structure SymbolTable where
  symbolnames : List (Int × String)
  symbolids : List (String × Int)
  next : Int
  deriving DecidableEq, Repr

/-- `i64 findSymbol(const ustring& name)`. -/
def findSymbol (name : String) (t : SymbolTable) : Int × SymbolTable :=
  match mapFind t.symbolids name with
  | none =>
      let id := t.next
      (id, { symbolnames := mapAssign t.symbolnames id name
             symbolids := mapAssign t.symbolids name id
             next := t.next + 1 })
  | some id => (id, t)

/-- `const ustring& findSymbol(i64 id)`; `NO_SYMBOL` is the empty string. -/
def findSymbolName (id : Int) (t : SymbolTable) : String :=
  match mapFind t.symbolnames id with
  | none => ""
  | some name => name

/-! ## Terms, metas and nodes -/

/-- The function pointers a `MetaFunction` can carry as its `_builtin`. -/
inductive Builtin where
  | define | lambda | add | subtract | multiply | divide | quote | doBlock
  deriving DecidableEq, Repr

/-- The surface tree: `IntTerm`, `FloatTerm`, `CharTerm`, `StringTerm`,
`VariableTerm`, `BlockTerm`, each with its line and column. -/
inductive Term where
  | int (value : Int) (line column : Nat)
  | float (value : Float) (line column : Nat)
  | char (value : Nat) (line column : Nat)
  | string (value : String) (line column : Nat)
  | variable (name : String) (line column : Nat)
  | block (terms : List Term) (line column : Nat)

namespace Term

/-- `Term::line()`. -/
def line : Term → Nat
  | int _ l _ => l
  | float _ l _ => l
  | char _ l _ => l
  | string _ l _ => l
  | Term.variable _ l _ => l
  | block _ l _ => l

/-- `Term::column()`. -/
def column : Term → Nat
  | int _ _ c => c
  | float _ _ c => c
  | char _ _ c => c
  | string _ _ c => c
  | Term.variable _ _ c => c
  | block _ _ c => c

end Term

mutual
/-- `class Meta`: the `_type` handle (`none` is the null pointer of the absent
meta) and the `value` union. -/
inductive Meta where
  | mk (type : Option Ty) (value : Value)
/-- The `value` union of a `Meta`, by the member written last.  `none` is the
union no member of which was ever written (as `Meta()` and `Meta(type)` leave
it) and `zero` the union after `value.s = nullptr` with nothing written since.
`i` serves integers and symbol ids; reference-counted payloads are held by
value, a `MetaFunction` as its fields `fn`, `_builtin`, `_args` and the address
of `_local`; `rt` is a `Node*` with `Node.null` for the null pointer. -/
inductive Value where
  | none
  | zero
  | i (i : Int)
  | d (d : Float)
  | c (c : Nat)
  | t (t : Ty)
  | b (b : Bool)
  | s (s : String)
  | a (vals : List Meta)
  | un (real : Meta)
  | in_ (vals : List Meta)
  | f (fn : Node) (builtin : Option Builtin) (args : List Nat) (envAddr : Option Nat)
  | rt (rt : Node)
/-- The typed tree: a `Node*`, with `null` for the null pointer.  A `Lambda`
carries the key under which the store keeps its mutable `_local`. -/
inductive Node where
  | null
  | int (value : Int) (line column : Nat)
  | float (value : Float) (line column : Nat)
  | string (value : String) (line column : Nat)
  | char (value : Nat) (line column : Nat)
  | variable (name : String) (line column : Nat)
  | constant (value : Meta) (line column : Nat)
  | quote (term : Term) (line column : Nat)
  | define (type : Node) (names : List String) (init : Node) (line column : Nat)
  | doNode (body : List Node) (line column : Nat)
  | lambda (key : Nat) (type : Node) (args : List Node) (body : Node) (line column : Nat)
  | call (func : Node) (args : List Node) (line column : Nat)
  | add (params : List Node) (line column : Nat)
  | subtract (params : List Node) (line column : Nat)
  | multiply (params : List Node) (line column : Nat)
  | divide (params : List Node) (line column : Nat)
end

namespace Node

/-- `Node::line()`; `none` on the null pointer. -/
def line : Node → Option Nat
  | null => none
  | int _ l _ => some l
  | float _ l _ => some l
  | string _ l _ => some l
  | char _ l _ => some l
  | Node.variable _ l _ => some l
  | constant _ l _ => some l
  | quote _ l _ => some l
  | define _ _ _ l _ => some l
  | doNode _ l _ => some l
  | lambda _ _ _ _ l _ => some l
  | call _ _ l _ => some l
  | add _ l _ => some l
  | subtract _ l _ => some l
  | multiply _ l _ => some l
  | divide _ l _ => some l

/-- `Node::column()`; `none` on the null pointer. -/
def column : Node → Option Nat
  | null => none
  | int _ _ c => some c
  | float _ _ c => some c
  | string _ _ c => some c
  | char _ _ c => some c
  | Node.variable _ _ c => some c
  | constant _ _ c => some c
  | quote _ _ c => some c
  | define _ _ _ _ c => some c
  | doNode _ _ c => some c
  | lambda _ _ _ _ _ c => some c
  | call _ _ _ c => some c
  | add _ _ c => some c
  | subtract _ _ c => some c
  | multiply _ _ c => some c
  | divide _ _ c => some c

/-- Test `n == nullptr`. -/
def isNull : Node → Bool
  | null => true
  | _ => false

end Node

namespace Meta

/-- `Meta()`: the absent meta. -/
def absent : Meta := Meta.mk Option.none Value.none

/-- `Meta::type()`. -/
def type : Meta → Option Ty
  | mk t _ => t

/-- The `value` union. -/
def value : Meta → Value
  | mk _ v => v

/-- `operator bool`. -/
def present (m : Meta) : Bool := m.type.isSome

/-- `Meta::isVoid`. -/
def isVoid (m : Meta) : Bool := decide (m.type = some VOID)

/-- `Meta::isInt`. -/
def isInt (m : Meta) : Bool :=
  match m.type with
  | some (Ty.number _ fl) => !fl
  | _ => false

/-- `Meta::isFloat`. -/
def isFloat (m : Meta) : Bool :=
  match m.type with
  | some (Ty.number _ fl) => fl
  | _ => false

/-- `Meta::isChar`. -/
def isChar (m : Meta) : Bool := decide (m.type = some CHAR)
/-- `Meta::isType`. -/
def isType (m : Meta) : Bool := decide (m.type = some TYPE)
/-- `Meta::isBool`. -/
def isBool (m : Meta) : Bool := decide (m.type = some BOOL)
/-- `Meta::isSymbol`. -/
def isSymbol (m : Meta) : Bool := decide (m.type = some SYMBOL)
/-- `Meta::isString`. -/
def isString (m : Meta) : Bool := decide (m.type = some STRING)

/-- `Meta::isArray`. -/
def isArray (m : Meta) : Bool :=
  match m.type with
  | some t => decide (Ty.kind t = Kind.ARRAY)
  | Option.none => false

/-- `Meta::isFunction`. -/
def isFunction (m : Meta) : Bool :=
  match m.type with
  | some t => decide (Ty.kind t = Kind.FUNCTION)
  | Option.none => false

/-- `Meta::isRuntime`. -/
def isRuntime (m : Meta) : Bool :=
  match m.type with
  | some t => decide (Ty.kind t = Kind.RUNTIME)
  | Option.none => false

/-- `Meta::asInt` and `Meta::asSymbol`: the member `i`. -/
def asInt (m : Meta) : Int :=
  match m.value with
  | Value.i n => n
  | _ => 0

/-- `Meta::asFloat`: the member `d`. -/
def asFloat (m : Meta) : Float :=
  match m.value with
  | Value.d x => x
  | _ => 0

/-- `Meta::asType`: the member `t`; `none` when another member is active. -/
def asType (m : Meta) : Option Ty :=
  match m.value with
  | Value.t x => some x
  | _ => Option.none

/-- `Meta::asString`: the string of the `MetaString` payload. -/
def asString (m : Meta) : String :=
  match m.value with
  | Value.s x => x
  | _ => ""

/-- `Meta::asRuntime`: the member `rt`. -/
def asRuntime (m : Meta) : Node :=
  match m.value with
  | Value.rt n => n
  | _ => Node.null

/-- `Meta::isUnion`. -/
def isUnion (m : Meta) : Bool :=
  match m.type with
  | some t => decide (Ty.kind t = Kind.SUM)
  | Option.none => false

/-- `Meta::isIntersect`. -/
def isIntersect (m : Meta) : Bool :=
  match m.type with
  | some t => decide (Ty.kind t = Kind.INTERSECT)
  | Option.none => false

/-- `Meta::copy(other)` on an object whose union holds `prev`.  Each of the
members `i`, `d`, `t`, `s`, `a`, `un`, `in`, `f` and `rt` is as wide as the
union, so that copying the member gives the union of `other` (for `b`, the byte
a `BOOL` meta reads); payloads are held by value, so that `inc()` changes
nothing.  No branch serves a `CHAR` meta, whose union stays as it was. -/
def copyOnto (prev : Value) (other : Meta) : Meta :=
  if !other.present || other.isVoid then Meta.mk other.type prev
  else if other.isInt then Meta.mk other.type other.value
  else if other.isFloat then Meta.mk other.type other.value
  else if other.isType then Meta.mk other.type other.value
  else if other.isBool then Meta.mk other.type other.value
  else if other.isSymbol then Meta.mk other.type other.value
  else if other.isString then Meta.mk other.type other.value
  else if other.isArray then Meta.mk other.type other.value
  else if other.isUnion then Meta.mk other.type other.value
  else if other.isIntersect then Meta.mk other.type other.value
  else if other.isFunction then Meta.mk other.type other.value
  else if other.isRuntime then Meta.mk other.type other.value
  else Meta.mk other.type prev

/-- The copy constructor `Meta(const Meta& other)`: `copy` on an object whose
union was never written. -/
def copy (other : Meta) : Meta := copyOnto Value.none other

end Meta

/-- Whether `prev.s ? prev.s->dec() : void()` of `Meta::assign` (and the same
with `a`, `un`, `in`, `f`) is defined for the old union `prev`: it is when the
union is all zero (nothing happens) or holds the address of a reference-counted
payload (which is released).  A union never written, or written through `c` or
`b` only, has bytes that were never written; an integer other than 0, a double
other than `+0.0`, a type handle and a non-null `Node*` are read as the address
of a payload that is none. -/
def Value.releasable : Value → Bool
  | Value.none => false
  | Value.zero => true
  | Value.i n => decide (n = 0)
  | Value.d x => x == 0 && 1 / x > 0
  | Value.c _ => false
  | Value.t _ => false
  | Value.b _ => false
  | Value.s _ => true
  | Value.a _ => true
  | Value.un _ => true
  | Value.in_ _ => true
  | Value.f _ _ _ _ => true
  | Value.rt n => n.isNull

/-- Whether the payload of a meta is reference counted: the metas for which
`Meta::copy` calls `inc()` and `Meta::assign` calls `dec()` through the old
union. -/
def Meta.counted (m : Meta) : Bool :=
  m.isString || m.isArray || m.isUnion || m.isIntersect || m.isFunction

/-- Whether `Meta::copy` and `Meta::assign` have a branch that writes the
union for a meta like `m`: every present meta that is an integer, a double, a
type, a boolean, a symbol, a runtime value or reference counted; not the
absent meta, a `VOID` meta or a `CHAR` meta. -/
def Meta.carried (m : Meta) : Bool :=
  m.present && !m.isVoid &&
    (m.isInt || m.isFloat || m.isType || m.isBool || m.isSymbol || m.counted || m.isRuntime)

/-- `Meta::assign(other)` on the object `self`, the body of `operator=`;
`none` is undefined behaviour, the `dec()` through old bits that are no
payload.  After `value.s = nullptr` the union is all zero, and it stays so
where no branch writes a member, as for a `CHAR` meta. -/
def Meta.assign (self other : Meta) : Option Meta :=
  if !self.present then some (Meta.copyOnto self.value other)
  else if !other.present || other.isVoid then some (Meta.mk other.type Value.zero)
  else if other.isInt then some (Meta.mk other.type other.value)
  else if other.isFloat then some (Meta.mk other.type other.value)
  else if other.isType then some (Meta.mk other.type other.value)
  else if other.isBool then some (Meta.mk other.type other.value)
  else if other.isSymbol then some (Meta.mk other.type other.value)
  else if other.isString || other.isArray || other.isUnion || other.isIntersect
      || other.isFunction then
    if self.value.releasable then some (Meta.mk other.type other.value) else none
  else if other.isRuntime then some (Meta.mk other.type other.value)
  else some (Meta.mk other.type Value.zero)

/-! ## Meta operations (`meta.cpp`) -/

/-- Free function `isNumber(const Type*)`. -/
def isNumber (t : Ty) : Bool := decide (Ty.kind t = Kind.NUMBER)

/-- Free function `isFloat(const Type*)`. -/
def isFloat (t : Ty) : Bool :=
  match t with
  | Ty.number _ fl => fl
  | _ => false

/-- Free function `isRuntime(const Type*)`. -/
def isRuntime (t : Ty) : Bool := decide (Ty.kind t = Kind.RUNTIME)

/-- Free function `null(const Meta&)`: the unbound placeholder test. -/
def null (m : Meta) : Bool := m.isRuntime && m.asRuntime.isNull

/-- Two's-complement reinterpretation of an integer as a signed value of
`bits` bits: the conversions `i8(n)`, `i16(n)`, `i32(n)` and the wrap-around of
64-bit arithmetic. -/
def wrapSigned (bits : Nat) (n : Int) : Int :=
  (n + 2 ^ (bits - 1)) % 2 ^ bits - 2 ^ (bits - 1)

/-- `i64 trunc(i64 n, const Type* dest)`. -/
def trunc (n : Int) (dest : Ty) : Int :=
  match dest.size with
  | 1 => wrapSigned 8 n
  | 2 => wrapSigned 16 n
  | 4 => wrapSigned 32 n
  | _ => n

/-- The conversion `i64(double)`: truncation toward zero; `none` where the
conversion is undefined, that is for a NaN, an infinity and every value whose
truncation is no `i64` (both comparisons fail on a NaN). -/
def doubleToI64 (x : Float) : Option Int :=
  if -9223372036854775808.0 ≤ x ∧ x < 9223372036854775808.0 then
    some (if x < 0 then -((Float.toUInt64 (-x)).toNat : Int) else ((Float.toUInt64 x).toNat : Int))
  else none

/-- `double toFloat(const Meta&)`. -/
def toFloat (m : Meta) : Float :=
  if m.isFloat then m.asFloat
  else if m.isInt then Float.ofInt m.asInt
  else 0

/-- `i64 toInt(const Meta&)`; `none` where the conversion of the double is
undefined. -/
def toInt (m : Meta) : Option Int :=
  if m.isInt then some m.asInt
  else if m.isFloat then doubleToI64 m.asFloat
  else some 0

/-- The integer branch shared by `add`, `sub` and `mul`:
`Meta(dst, trunc(toInt(lhs) op toInt(rhs), dst))`, the operation wrapping at 64
bits. -/
def intOp (op : Int → Int → Int) (lhs rhs : Meta) (dst : Ty) : Option Meta :=
  match toInt lhs, toInt rhs with
  | some a, some b => some (Meta.mk (some dst) (Value.i (trunc (wrapSigned 64 (op a b)) dst)))
  | _, _ => none

/-- `Meta add(const Meta& lhs, const Meta& rhs)`; `none` is undefined
behaviour of a conversion to `i64`. -/
def add (lhs rhs : Meta) : Option Meta :=
  if !lhs.present || !rhs.present then some Meta.absent
  else match lhs.type, rhs.type with
    | some lt, some rt =>
      match join lt rt with
      | none => some Meta.absent
      | some dst =>
        if isRuntime dst && (null lhs || null rhs) then
          some (Meta.mk (some dst) (Value.rt Node.null))
        else if isFloat dst then some (Meta.mk (some dst) (Value.d (toFloat lhs + toFloat rhs)))
        else if isNumber dst then intOp (fun a b => a + b) lhs rhs dst
        else if dst = STRING then
          some (Meta.mk (some dst) (Value.s (lhs.asString ++ rhs.asString)))
        else some Meta.absent
    | _, _ => some Meta.absent

/-- `Meta sub(const Meta& lhs, const Meta& rhs)`; `none` is undefined
behaviour of a conversion to `i64`. -/
def sub (lhs rhs : Meta) : Option Meta :=
  if !lhs.present || !rhs.present then some Meta.absent
  else match lhs.type, rhs.type with
    | some lt, some rt =>
      match join lt rt with
      | none => some Meta.absent
      | some dst =>
        if isFloat dst then some (Meta.mk (some dst) (Value.d (toFloat lhs - toFloat rhs)))
        else if isNumber dst then intOp (fun a b => a - b) lhs rhs dst
        else some Meta.absent
    | _, _ => some Meta.absent

/-- `Meta mul(const Meta& lhs, const Meta& rhs)`; `none` is undefined
behaviour of a conversion to `i64`. -/
def mul (lhs rhs : Meta) : Option Meta :=
  if !lhs.present || !rhs.present then some Meta.absent
  else match lhs.type, rhs.type with
    | some lt, some rt =>
      match join lt rt with
      | none => some Meta.absent
      | some dst =>
        if isFloat dst then some (Meta.mk (some dst) (Value.d (toFloat lhs * toFloat rhs)))
        else if isNumber dst then intOp (fun a b => a * b) lhs rhs dst
        else some Meta.absent
    | _, _ => some Meta.absent


/-- The quotient of `/` on `i64`, truncated toward zero; `none` where the
source has undefined behaviour (a zero divisor, or overflow). -/
def divI64 (l r : Int) : Option Int :=
  if r = 0 then none
  else if l = -9223372036854775808 ∧ r = -1 then none
  else some (Int.tdiv l r)

/-- The remainder of `%` on `i64`, with the sign of the dividend; `none` where
the source has undefined behaviour. -/
def modI64 (l r : Int) : Option Int :=
  if r = 0 then none
  else if l = -9223372036854775808 ∧ r = -1 then none
  else some (Int.tmod l r)

/-- `double fmod(double l, double r)` of `meta.cpp`; `none` where the
conversion of the quotient to `i64` is undefined or the subtraction of 1 from
it overflows. -/
def fmod (l r : Float) : Option Float :=
  (doubleToI64 (l / r)).bind (fun q =>
    if l / r < 0 ∧ q = -9223372036854775808 then none
    else
      let denom : Int := if l / r < 0 then q - 1 else q
      some (l - r * Float.ofInt denom))

/-- `Meta div(const Meta& lhs, const Meta& rhs)`; `none` is undefined behaviour
of the integer division or of a conversion to `i64`. -/
def div (lhs rhs : Meta) : Option Meta :=
  if !lhs.present || !rhs.present then some Meta.absent
  else match lhs.type, rhs.type with
    | some lt, some rt =>
      match join lt rt with
      | none => some Meta.absent
      | some dst =>
        if isFloat dst then some (Meta.mk (some dst) (Value.d (toFloat lhs / toFloat rhs)))
        else if isNumber dst then
          match toInt lhs, toInt rhs with
          | some a, some b =>
              (divI64 a b).map (fun q => Meta.mk (some dst) (Value.i (trunc q dst)))
          | _, _ => none
        else some Meta.absent
    | _, _ => some Meta.absent

/-- `Meta mod(const Meta& lhs, const Meta& rhs)`; `none` is undefined behaviour
of the integer remainder or of a conversion to `i64`. -/
def mod (lhs rhs : Meta) : Option Meta :=
  if !lhs.present || !rhs.present then some Meta.absent
  else match lhs.type, rhs.type with
    | some lt, some rt =>
      match join lt rt with
      | none => some Meta.absent
      | some dst =>
        if isFloat dst then
          (fmod (toFloat lhs) (toFloat rhs)).map (fun x => Meta.mk (some dst) (Value.d x))
        else if isNumber dst then
          match toInt lhs, toInt rhs with
          | some a, some b =>
              (modI64 a b).map (fun q => Meta.mk (some dst) (Value.i (trunc q dst)))
          | _, _ => none
        else some Meta.absent
    | _, _ => some Meta.absent

/-- `Meta cast(const Meta& lhs, const Type* dst)`; `dst = none` is the null
pointer, and the result `none` is undefined behaviour of the conversion to
`i64`. -/
def cast (lhs : Meta) (dst : Option Ty) : Option Meta :=
  match lhs.type, dst with
  | some lt, some d =>
      if !lt.explicitly d then some Meta.absent
      else if isFloat d then some (Meta.mk (some d) (Value.d (toFloat lhs)))
      else if isNumber d then (toInt lhs).map (fun n => Meta.mk (some d) (Value.i n))
      else some Meta.absent
  | _, _ => some Meta.absent

/-! ## Type pretty-printing (`format`) -/

namespace Ty

mutual
/-- Virtual `format(stream&)`, as the text it writes. -/
def format : Ty → String
  | base s => "@" ++ writeU32 (s * 8)
  | number s f => (if f then "f" else "i") ++ writeU32 (s * 8)
  | function a r => "(function " ++ formatArgs a ++ " -> " ++ format r ++ ")"
  | macroTy a r => "(macro " ++ formatArgs a ++ " -> " ++ format r ++ ")"
  | array e c => "(" ++ format e ++ " [" ++ (if c > -1 then toString c else "") ++ "])"
  | sum ms => "(union" ++ formatMembers ms ++ ")"
  | intersect ms => "(intersect" ++ formatMembers ms ++ ")"
  | named _ n => n
  | runtime c => "(runtime " ++ format c ++ ")"
/-- The argument loop of the function and macro formats: a blank follows every
argument but the one stored last. -/
def formatArgs : List Ty → String
  | [] => ""
  | [t] => format t
  | t :: ts => format t ++ " " ++ formatArgs ts
/-- The member loop of the sum and intersection formats. -/
def formatMembers : List Ty → String
  | [] => ""
  | t :: ts => " " ++ format t ++ formatMembers ts
end

end Ty

/-- `write(stream&, const Type*)`; `none` where the handle is null and the
virtual call has no receiver. -/
def writeType (t : Option Ty) : Option String := t.map Ty.format


/-! ## Environments, diagnostics and the store -/

/-- `class Env`: the map `_entries` (an `Entry` is the meta it wraps), the
insertion order `_entryOrder` (each pointer into the map kept as its key) and
the address of `_parent`. -/
structure Env where
  entries : List (String × Meta)
  entryOrder : List String
  parent : Option Nat

/-- `struct Error`: position and rendered message. -/
structure Error where
  line : Nat
  column : Nat
  message : String
  deriving DecidableEq, Repr

/-- The compilation phases of `err`. -/
inductive Phase where
  | PHASE_LEX | PHASE_PARSE | PHASE_TYPE
  deriving DecidableEq, Repr

/-- The mutable state the evaluator works on: the heap of environments
(an `Env*` is an index into `envs`), the `_local` field of every `Lambda`
node by key, the number of `Lambda` nodes built, the symbol table, and the
diagnostic buffers of `errors.cpp` (`errorFrames` and `frameMessages` have
their `back()` at the head). -/
structure State where
  envs : List Env
  locals : List (Nat × Nat)
  nextKey : Nat
  symbols : SymbolTable
  errors : List Error
  messages : List String
  errorFrames : List (List Error)
  frameMessages : List (List String)

/-- `prefixPhase`. -/
def prefixPhase : Phase → String
  | Phase.PHASE_LEX => "[TOKEN ERROR]"
  | Phase.PHASE_PARSE => "[PARSE ERROR]"
  | Phase.PHASE_TYPE => "[TYPE ERROR]"

namespace State

/-- `catchErrors`. -/
def catchErrors (st : State) : State :=
  { st with errorFrames := [] :: st.errorFrames, frameMessages := [] :: st.frameMessages }

/-- `discardErrors`. -/
def discardErrors (st : State) : State :=
  { st with errorFrames := st.errorFrames.tail, frameMessages := st.frameMessages.tail }

/-- `reportError`: the message set is that of the innermost message frame (or
the root set) and the error list that of the innermost error frame (or the root
list); unless a message with the same text is in the set already, the message
joins the set and the error joins the list. -/
def reportError (e : Error) (st : State) : State :=
  match st.frameMessages with
  | ms :: fms =>
      if e.message ∈ ms then st
      else
        match st.errorFrames with
        | es :: frames =>
            { st with errorFrames := (es ++ [e]) :: frames,
                      frameMessages := (ms ++ [e.message]) :: fms }
        | [] =>
            { st with errors := st.errors ++ [e], frameMessages := (ms ++ [e.message]) :: fms }
  | [] =>
      if e.message ∈ st.messages then st
      else
        match st.errorFrames with
        | es :: frames =>
            { st with errorFrames := (es ++ [e]) :: frames,
                      messages := st.messages ++ [e.message] }
        | [] => { st with errors := st.errors ++ [e], messages := st.messages ++ [e.message] }

/-- `countErrors`. -/
def countErrors (st : State) : Nat :=
  match st.errorFrames with
  | es :: _ => es.length
  | [] => st.errors.length

/-- `lastError`, when there is one. -/
def lastError (st : State) : Option Error :=
  match st.errorFrames with
  | es :: _ => es.getLast?
  | [] => st.errors.getLast?

/-- Modelled from the spec: `err(phase, line, column, parts...)` of the absent
`errors.h`, which renders `[<PHASE> ERROR] <message>` and hands the error to
`reportError`. -/
def err (phase : Phase) (line column : Nat) (text : String) (st : State) : State :=
  st.reportError { line := line, column := column, message := prefixPhase phase ++ " " ++ text }

/-- Dereference of an `Env*`. -/
def env (st : State) (addr : Nat) : Option Env := st.envs[addr]?

/-- `new Env()`: the address of the fresh environment and the store with it. -/
def newEnv (st : State) : Nat × State :=
  (st.envs.length, { st with envs := st.envs ++ [{ entries := [], entryOrder := [], parent := none }] })

/-- `Env::setParent`. -/
def setParent (st : State) (addr : Nat) (parent : Option Nat) : State :=
  match st.env addr with
  | some e => { st with envs := st.envs.set addr { e with parent := parent } }
  | none => st

/-- `Env::lookup`, walking at most `depth` environments up the parent chain. -/
def lookupFrom (st : State) : Nat → Nat → String → Option Meta
  | 0, _, _ => none
  | depth + 1, addr, name =>
      match st.env addr with
      | none => none
      | some e =>
          match mapFind e.entries name with
          | some m => some m
          | none =>
              match e.parent with
              | some p => lookupFrom st depth p name
              | none => none

/-- `Env::lookup`: every environment of the store may be visited once. -/
def lookup (st : State) (addr : Nat) (name : String) : Option Meta :=
  st.lookupFrom st.envs.length addr name

end State

namespace Env

/-- `Env::enter` on the environment itself: `it->second.meta = meta` assigns
to the entry of `name` when there is one, and `_entries.put(name, { meta })`
copy-constructs a new entry otherwise; `none` where the assignment is
undefined. -/
def enter (e : Env) (name : String) (m : Meta) : Option Env :=
  match mapFind e.entries name with
  | some old => (old.assign m).map (fun stored => { e with entries := mapAssign e.entries name stored })
  | none =>
      some { e with entries := mapAssign e.entries name m.copy, entryOrder := e.entryOrder ++ [name] }

/-- `Env::entry(i)`: the meta of the `i`-th entry in insertion order. -/
def entry (e : Env) (i : Nat) : Option Meta :=
  match e.entryOrder[i]? with
  | some name => mapFind e.entries name
  | none => none

/-- The assignment `entry(i)->meta = m`; `none` where there is no such entry
or the assignment is undefined. -/
def setEntry (e : Env) (i : Nat) (m : Meta) : Option Env :=
  match e.entryOrder[i]? with
  | some name =>
      match mapFind e.entries name with
      | some old =>
          (old.assign m).map (fun stored => { e with entries := mapAssign e.entries name stored })
      | none => none
  | none => none

/-- The loop of `Env::fork`, which puts a copy of every entry of `src` into
the new environment, in insertion order. -/
def forkInto (src : Env) : List String → Env → Env
  | [], acc => acc
  | name :: rest, acc =>
      match mapFind src.entries name with
      | some m =>
          forkInto src rest
            { acc with entries := mapAssign acc.entries name m.copy,
                       entryOrder := acc.entryOrder ++ [name] }
      | none => forkInto src rest acc

/-- `Env::fork`, as the environment it allocates. -/
def fork (e : Env) : Env :=
  forkInto e e.entryOrder { entries := [], entryOrder := [], parent := e.parent }

end Env

namespace State

/-- `env->enter(name, meta)` through an `Env*`; `none` where the pointer leads
outside the store or the call is undefined. -/
def enter (st : State) (addr : Nat) (name : String) (m : Meta) : Option State :=
  match st.env addr with
  | some e => (e.enter name m).map (fun e2 => { st with envs := st.envs.set addr e2 })
  | none => none

/-- The loop `for (const ustring& name : _names) env->enter(name, initval)`. -/
def enterAll (st : State) (addr : Nat) : List String → Meta → Option State
  | [], _ => some st
  | name :: rest, m =>
      match st.enter addr name m with
      | some st2 => enterAll st2 addr rest m
      | none => none

/-- `env->fork()` through an `Env*`: the address of the copy and the store. -/
def fork (st : State) (addr : Nat) : Option (Nat × State) :=
  match st.env addr with
  | some e => some (st.envs.length, { st with envs := st.envs ++ [e.fork] })
  | none => none

end State

/-! ## Quoting terms -/

/-- `set<const Type*>::insert`, the members kept in order of first insertion. -/
def setInsert (xs : List Ty) (t : Ty) : List Ty := if t ∈ xs then xs else xs ++ [t]

/-- The set of the types of a list of metas, as `BlockTerm::quote` collects it
(an absent meta contributes the null handle, which no quoted term produces). -/
def typesOf : List Meta → List Ty → List Ty
  | [], acc => acc
  | m :: ms, acc =>
      match m.type with
      | some t => typesOf ms (setInsert acc t)
      | none => typesOf ms acc

namespace Term

mutual
/-- Virtual `quote()`.  A variable interns its name; a block becomes an array
whose element type is the single member type, or the sum of the member types. -/
def quote : Term → SymbolTable → Meta × SymbolTable
  | int v _ _, s => (Meta.mk (some INT) (Value.i v), s)
  | float v _ _, s => (Meta.mk (some FLOAT) (Value.d v), s)
  | char v _ _, s => (Meta.mk (some CHAR) (Value.c v), s)
  | string v _ _, s => (Meta.mk (some STRING) (Value.s v), s)
  | Term.variable name _ _, s => (Meta.mk (some SYMBOL) (Value.i (findSymbol name s).1), (findSymbol name s).2)
  | block ts _ _, s =>
      let r := quoteAll ts s
      let types := typesOf r.1 []
      let type := match types with
        | [t] => t
        | _ => Ty.sum types
      (Meta.mk (some (Ty.array type r.1.length)) (Value.a r.1), r.2)
/-- The loop of `BlockTerm::quote` over the children. -/
def quoteAll : List Term → SymbolTable → List Meta × SymbolTable
  | [], s => ([], s)
  | t :: ts, s =>
      let r := quote t s
      let rs := quoteAll ts r.2
      (r.1 :: rs.1, rs.2)
end

end Term

/-! ## Evaluating nodes (`ast.cpp`) -/

/-- Outcome of running a piece of the interpreter: a value and the store
afterwards; `crash`, where the source dereferences a null pointer, indexes a
vector out of range, divides an integer by zero, converts a double that is no
`i64`, or releases a union that holds no payload; or `timeout`, when the fuel of
the embedding is used up. -/
inductive Result (α : Type) where
  | ok (val : α) (st : State)
  | crash
  | timeout

namespace Result

/-- Sequencing of two steps. -/
def bind {α β : Type} (r : Result α) (k : α → State → Result β) : Result β :=
  match r with
  | ok v st => k v st
  | crash => crash
  | timeout => timeout

/-- The store after a step that returned. -/
def state? {α : Type} : Result α → Option State
  | ok _ st => some st
  | _ => none

/-- The value of a step that returned. -/
def val? {α : Type} : Result α → Option α
  | ok v _ => some v
  | _ => none

/-- Whether a step ended in undefined behaviour of the source. -/
def crashed {α : Type} : Result α → Bool
  | crash => true
  | _ => false

end Result

/-- The unbound placeholder `Meta(type, (Node*)nullptr)`. -/
def unbound (t : Ty) : Meta := Meta.mk (some t) (Value.rt Node.null)

/-- The loop `for (Node* n : _args) n->eval(_local)` of `Lambda::eval`. -/
def evalEach (ev : Node → Nat → State → Result Meta) : List Node → Nat → State → Result Unit
  | [], _, st => Result.ok () st
  | n :: rest, env, st => (ev n env st).bind (fun _ st2 => evalEach ev rest env st2)

/-- The loop of `Do::eval`: every node is evaluated in turn and the value of
the one stored last is returned. -/
def evalBody (ev : Node → Nat → State → Result Meta) : List Node → Nat → State → Result Meta
  | [], _, st => Result.ok Meta.absent st
  | [n], env, st => ev n env st
  | n :: rest, env, st => (ev n env st).bind (fun _ st2 => evalBody ev rest env st2)

/-- The loop `for (u32 i = 1; ...) m = op(m, _params[i]->eval(env))` shared by
the arithmetic nodes; `op` returns `none` on undefined behaviour. -/
def foldParams (ev : Node → Nat → State → Result Meta) (op : Meta → Meta → Option Meta) :
    List Node → Meta → Nat → State → Result Meta
  | [], m, _, st => Result.ok m st
  | n :: rest, m, env, st =>
      (ev n env st).bind (fun v st2 =>
        match op m v with
        | some m2 => foldParams ev op rest m2 env st2
        | none => Result.crash)

/-- The first loop of `Lambda::eval`: the argument types are the children of
the runtime types of all unbound entries of the local map. -/
def lambdaArgTypes : List (String × Meta) → Option (List Ty)
  | [] => some []
  | (_, m) :: rest =>
      match m.type with
      | none => none
      | some t =>
          match lambdaArgTypes rest with
          | none => none
          | some ts =>
              match t with
              | Ty.runtime c => if m.asRuntime.isNull then some (c :: ts) else some ts
              | _ => some ts

/-- The second loop of `Lambda::eval`: the indices of the leading entries of
the forked environment that are unbound placeholders. -/
def lambdaArgSlots (e : Env) : Nat → Nat → Option (List Nat)
  | 0, _ => some []
  | n + 1, i =>
      match e.entry i with
      | none => none
      | some m =>
          match m.type with
          | none => none
          | some t =>
              if Ty.kind t ≠ Kind.RUNTIME ∨ m.asRuntime.isNull = false then some []
              else (lambdaArgSlots e n (i + 1)).map (fun rest => i :: rest)

/-- The argument loop of `Call::eval`: evaluate, check against the declared
type, store into the slot of the callee. `none` as value signals the early
`return Meta()`. -/
def callArgs (ev : Node → Nat → State → Result Meta) (slots : List Nat) (localEnv : Option Nat) :
    List Ty → List Node → Nat → Nat → State → Result (Option Unit)
  | [], _, _, _, st => Result.ok (some ()) st
  | _ :: _, [], _, _, _ => Result.crash
  | t :: ts, n :: ns, i, env, st =>
      (ev n env st).bind (fun m st2 =>
        match m.type with
        | none => Result.crash
        | some mt =>
            if mt.implicitly t = false then
              match n.line, n.column with
              | some l, some c =>
                  Result.ok none (st2.err Phase.PHASE_TYPE l c
                    ("Incorrect argument type: expected '" ++ t.format ++ "', but found '" ++
                      mt.format ++ "'."))
              | _, _ => Result.crash
            else
              match localEnv, slots[i]? with
              | some addr, some slot =>
                  match st2.env addr with
                  | none => Result.crash
                  | some e =>
                      match e.setEntry slot m with
                      | none => Result.crash
                      | some e2 =>
                          callArgs ev slots localEnv ts ns (i + 1) env
                            { st2 with envs := st2.envs.set addr e2 }
              | _, _ => Result.crash)

namespace Node

/-- Virtual `eval(Env* env)`; `env` is the address of the environment.  Every
nested evaluation spends one unit of fuel.  `Variable::eval` and
`Constant::eval` return a member by value, which the copy constructor copies;
a local returned by value (`initval`, `m`, `result`) is constructed in the
place of the result. -/
def eval : Nat → Node → Nat → State → Result Meta
  | 0, _, _, _ => Result.timeout
  | fuel + 1, n, env, st =>
    match n with
    | null => Result.crash
    | int v _ _ => Result.ok (Meta.mk (some INT) (Value.i v)) st
    | float v _ _ => Result.ok (Meta.mk (some FLOAT) (Value.d v)) st
    | string v _ _ => Result.ok (Meta.mk (some STRING) (Value.s v)) st
    | char v _ _ => Result.ok (Meta.mk (some CHAR) (Value.c v)) st
    | Node.variable name l c =>
        match st.lookup env name with
        | some m => Result.ok m.copy st
        | none =>
            Result.ok Meta.absent
              (st.err Phase.PHASE_TYPE l c ("Undefined variable '" ++ name ++ "'."))
    | constant v _ _ => Result.ok v.copy st
    | quote t _ _ =>
        Result.ok (t.quote st.symbols).1 { st with symbols := (t.quote st.symbols).2 }
    | define type names init l c =>
        (if init.isNull then Result.ok Meta.absent st else eval fuel init env st).bind
          (fun initval st1 =>
            (if type.isNull then
                if initval.present then Result.ok (some initval.type) st1
                else Result.ok none
                  (st1.err Phase.PHASE_TYPE l c
                    "Neither an explicit type nor initializer were provided in definition.")
             else
                (eval fuel type env st1).bind (fun typeval st2 =>
                  if typeval.isType then Result.ok (some typeval.asType) st2
                  else
                    match typeval.type, type.line, type.column with
                    | some tt, some tl, some tc =>
                        Result.ok none
                          (st2.err Phase.PHASE_TYPE tl tc
                            ("Could not resolve definition type - expected '" ++ TYPE.format ++
                              "' " ++ "but found '" ++ tt.format ++ "'."))
                    | _, _, _ => Result.crash)).bind
              (fun resolved st3 =>
                match resolved with
                | none => Result.ok Meta.absent st3
                | some none => Result.crash
                | some (some ty) =>
                    match initval.type with
                    | some it =>
                        if it.implicitly ty = false then
                          match init.line, init.column with
                          | some il, some ic =>
                              Result.ok Meta.absent
                                (st3.err Phase.PHASE_TYPE il ic
                                  ("Could not convert initial value of type '" ++ it.format ++
                                    "' to definition type '" ++ ty.format ++ "'."))
                          | _, _ => Result.crash
                        else
                          match st3.enterAll env names initval with
                          | some st4 => Result.ok initval st4
                          | none => Result.crash
                    | none =>
                        match st3.enterAll env names (unbound (Ty.runtime ty)) with
                        | some st4 => Result.ok (unbound (Ty.runtime ty)) st4
                        | none => Result.crash))
    | doNode body _ _ => evalBody (eval fuel) body env st
    | lambda key type args body _ _ =>
        (match mapFind st.locals key with
         | some loc => Result.ok loc st
         | none =>
             let st1 := (st.newEnv.2.setParent st.newEnv.1 (some env))
             let st2 := { st1 with locals := mapAssign st1.locals key st.newEnv.1 }
             (evalEach (eval fuel) args st.newEnv.1 st2).bind (fun _ st3 =>
               Result.ok st.newEnv.1 st3)).bind
          (fun loc st1 =>
            match (st1.env loc).bind (fun e => lambdaArgTypes e.entries) with
            | none => Result.crash
            | some argTypes =>
                (if type.isNull then
                    (eval fuel body loc st1).bind (fun m st2 =>
                      match m.type, body.line, body.column with
                      | some t, _, _ => Result.ok (some t) st2
                      | none, some bl, some bc =>
                          Result.ok none
                            (st2.err Phase.PHASE_TYPE bl bc
                              "Could not infer return type from function body.")
                      | none, _, _ => Result.crash)
                 else
                    (eval fuel type env st1).bind (fun typeval st2 =>
                      if typeval.isType then
                        match typeval.asType with
                        | some t => Result.ok (some t) st2
                        | none => Result.crash
                      else
                        match typeval.type, type.line, type.column with
                        | some tt, some tl, some tc =>
                            Result.ok none
                              (st2.err Phase.PHASE_TYPE tl tc
                                ("Could not resolve return type - expected '" ++ TYPE.format ++
                                  "' " ++ "but found '" ++ tt.format ++ "'."))
                        | _, _, _ => Result.crash)).bind
                  (fun ret st2 =>
                    match ret with
                    | none => Result.ok Meta.absent st2
                    | some rettype0 =>
                        let rettype := match rettype0 with
                          | Ty.runtime c => c
                          | t => t
                        match st2.fork loc with
                        | none => Result.crash
                        | some (valenv, st3) =>
                            let st4 := st3.setParent valenv (some env)
                            match (st4.env valenv).bind
                                (fun e => lambdaArgSlots e e.entries.length 0) with
                            | none => Result.crash
                            | some valargs =>
                                Result.ok
                                  (Meta.mk (some (Ty.function argTypes rettype))
                                    (Value.f body none valargs (some valenv))) st4))
    | call func args l c =>
        (eval fuel func env st).bind (fun m st1 =>
          if m.isFunction = false then
            match func.line, func.column with
            | some fl, some fc =>
                Result.ok Meta.absent
                  (st1.err Phase.PHASE_TYPE fl fc "Could not resolve function to be called.")
            | _, _ => Result.crash
          else
            match m.type, m.value with
            | some (Ty.function ftArgs _), Value.f fn _ slots localEnv =>
                if ftArgs.length ≠ args.length then
                  Result.ok Meta.absent
                    (st1.err Phase.PHASE_TYPE l c
                      ("Incorrect number of arguments: expected " ++ writeU32 ftArgs.length ++
                        ", found " ++ writeU32 args.length ++ "."))
                else
                  (callArgs (eval fuel) slots localEnv ftArgs args 0 env st1).bind (fun r st2 =>
                    match r with
                    | none => Result.ok Meta.absent st2
                    | some _ =>
                        match localEnv with
                        | some addr => eval fuel fn addr st2
                        | none => Result.crash)
            | _, _ => Result.crash)
    | add params _ _ =>
        match params with
        | [] => Result.crash
        | p :: rest =>
            (eval fuel p env st).bind (fun m st1 =>
              foldParams (eval fuel) Basil.add rest m env st1)
    | subtract params _ _ =>
        match params with
        | [] => Result.crash
        | p :: rest =>
            (eval fuel p env st).bind (fun m st1 =>
              match rest with
              | [] =>
                  if m.isInt then
                    match sub (Meta.mk (some INT) (Value.i 0)) m with
                    | some r => Result.ok r st1
                    | none => Result.crash
                  else
                    match sub (Meta.mk (some FLOAT) (Value.d 0.0)) m with
                    | some r => Result.ok r st1
                    | none => Result.crash
              | _ => foldParams (eval fuel) sub rest m env st1)
    | multiply params _ _ =>
        match params with
        | [] => Result.crash
        | p :: rest =>
            (eval fuel p env st).bind (fun m st1 =>
              foldParams (eval fuel) mul rest m env st1)
    | divide params _ _ =>
        match params with
        | [] => Result.crash
        | p :: rest =>
            (eval fuel p env st).bind (fun m st1 =>
              match rest with
              | [] =>
                  if m.isInt then
                    match div (Meta.mk (some INT) (Value.i 1)) m with
                    | some r => Result.ok r st1
                    | none => Result.crash
                  else
                    match div (Meta.mk (some FLOAT) (Value.d 1.0)) m with
                    | some r => Result.ok r st1
                    | none => Result.crash
              | _ => foldParams (eval fuel) div rest m env st1)

end Node

/-! ## Elaborating terms (`parse.cpp`, `builtin.cpp`) -/

/-- What the name-collecting loop shared by `define` and `declare` leaves
behind: `names`, `fnargs` and the index `i`. -/
structure Collected where
  names : List String
  fnargs : Option Term
  i : Nat

/-- The loop `while (i < term->terms().size())` of `define` and `declare`, run
on the terms from index `i` on. -/
def collectNames (env : Nat) : List Term → Nat → List String → State → Collected × State
  | [], i, names, st => ({ names := names, fnargs := none, i := i }, st)
  | t :: rest, i, names, st =>
      let q := (t.quote st.symbols).1
      let st1 : State := { st with symbols := (t.quote st.symbols).2 }
      if q.isArray && !rest.isEmpty then ({ names := names, fnargs := some t, i := i + 1 }, st1)
      else if !q.isSymbol || (st1.lookup env (findSymbolName q.asInt st1.symbols)).isSome then
        ({ names := names, fnargs := none, i := i }, st1)
      else collectNames env rest (i + 1) (names ++ [findSymbolName q.asInt st1.symbols]) st1

/-- The loops `for (...) vals.push(term->terms()[i]->eval(env))`. -/
def elabEach (ev : Term → Nat → State → Result Node) : List Term → Nat → State → Result (List Node)
  | [], _, st => Result.ok [] st
  | t :: rest, env, st =>
      (ev t env st).bind (fun n st1 =>
        (elabEach ev rest env st1).bind (fun ns st2 => Result.ok (n :: ns) st2))

/-- `new Do(body)`: the node takes its position from `body[0]`; `none` where
that read is out of range or through a null pointer. -/
def newDo (body : List Node) : Option Node :=
  match body with
  | [] => none
  | n :: _ =>
      match n.line, n.column with
      | some l, some c => some (Node.doNode body l c)
      | _, _ => none

/-- `new Lambda(type, {args}, body, line, column)`: the node gets the next key
for its `_local`, which starts out null. -/
def newLambda (type : Node) (args : List Node) (body : Node) (line column : Nat) (st : State) :
    Node × State :=
  (Node.lambda st.nextKey type args body line column, { st with nextKey := st.nextKey + 1 })

/-- The function form shared by `define` and `declare`:
`Define(names, Lambda(type, {fnargs->eval(env)}, Do(body...)))`. -/
def functionForm (ev : Term → Nat → State → Result Node) (type : Node) (names : List String)
    (fnargs : Term) (body : List Term) (line column : Nat) (env : Nat) (st : State) : Result Node :=
  (ev fnargs env st).bind (fun args st1 =>
    (elabEach ev body env st1).bind (fun bodyvals st2 =>
      match newDo bodyvals with
      | none => Result.crash
      | some d =>
          Result.ok
            (Node.define Node.null names (newLambda type [args] d line column st2).1 line column)
            (newLambda type [args] d line column st2).2))

/-- Builtin `define`, the implementation of `let`. -/
def define (ev : Term → Nat → State → Result Node) (env : Nat) (terms : List Term)
    (line column : Nat) (st : State) : Result Node :=
  let r := collectNames env (terms.drop 1) 1 [] st
  let st1 := r.2
  if r.1.names.length = 0 then
    Result.ok Node.null
      (st1.err Phase.PHASE_TYPE line column "No variable names provided in definition.")
  else
    match r.1.fnargs with
    | some fnargs =>
        functionForm ev Node.null r.1.names fnargs (terms.drop r.1.i) line column env st1
    | none =>
        if r.1.i = terms.length then
          match terms[r.1.i - 1]? with
          | some t =>
              Result.ok Node.null
                (st1.err Phase.PHASE_TYPE t.line t.column
                  "No initial value provided in variable declaration.")
          | none => Result.crash
        else if r.1.i < wrapU32 (terms.length + 4294967295) then
          match terms[r.1.i]? with
          | some t =>
              Result.ok Node.null
                (st1.err Phase.PHASE_TYPE t.line t.column
                  "More than one initial value provided in variable declaration.")
          | none => Result.crash
        else
          match terms[r.1.i]? with
          | some t =>
              (ev t env st1).bind (fun init st2 =>
                Result.ok (Node.define Node.null r.1.names init line column) st2)
          | none => Result.crash

/-- Builtin `declare`, run when the head of a block is a type. -/
def declare (ev : Term → Nat → State → Result Node) (nev : Node → Nat → State → Result Meta)
    (env : Nat) (type : Node) (terms : List Term) (line column : Nat) (st : State) : Result Node :=
  (nev type env st).bind (fun m st0 =>
    if m.isType = false then
      match terms[0]? with
      | some t =>
          Result.ok Node.null
            (st0.err Phase.PHASE_TYPE t.line t.column "Could not resolve type in declaration.")
      | none => Result.crash
    else
      let r := collectNames env (terms.drop 1) 1 [] st0
      let st1 := r.2
      if r.1.names.length = 0 then
        Result.ok Node.null
          (st1.err Phase.PHASE_TYPE line column "No variable names provided in definition.")
      else
        match r.1.fnargs with
        | some fnargs =>
            functionForm ev type r.1.names fnargs (terms.drop r.1.i) line column env st1
        | none =>
            if r.1.i < wrapU32 (terms.length + 4294967295) then
              match terms[r.1.i + 1]? with
              | some t =>
                  Result.ok Node.null
                    (st1.err Phase.PHASE_TYPE t.line t.column
                      "More than one initial value provided in variable declaration.")
              | none => Result.crash
            else
              match terms[r.1.i]? with
              | some t =>
                  (ev t env st1).bind (fun init st2 =>
                    Result.ok (Node.define type r.1.names init line column) st2)
              | none => Result.ok (Node.define type r.1.names Node.null line column) st1)

/-- Builtin `lambda`. -/
def lambda (ev : Term → Nat → State → Result Node) (env : Nat) (terms : List Term)
    (line column : Nat) (st : State) : Result Node :=
  if terms.length < 3 then
    Result.ok Node.null
      (st.err Phase.PHASE_TYPE line column
        ("Not enough arguments in lambda expression: expected at least 3, " ++ "found " ++
          writeU32 (terms.length + 4294967295)))
  else
    match terms[1]? with
    | none => Result.crash
    | some t1 =>
        let qargs := (t1.quote st.symbols).1
        let st1 : State := { st with symbols := (t1.quote st.symbols).2 }
        if qargs.isArray = false then
          Result.ok Node.null
            (st1.err Phase.PHASE_TYPE t1.line t1.column
              "Expected argument block in lambda expression.")
        else
          (ev t1 env st1).bind (fun args st2 =>
            (elabEach ev (terms.drop 2) env st2).bind (fun bodyvals st3 =>
              match newDo bodyvals with
              | none => Result.crash
              | some d =>
                  Result.ok (newLambda Node.null [args] d line column st3).1
                    (newLambda Node.null [args] d line column st3).2))

/-- Builtin `call`. -/
def call (ev : Term → Nat → State → Result Node) (env : Nat) (func : Node) (terms : List Term)
    (line column : Nat) (st : State) : Result Node :=
  (elabEach ev (terms.drop 1) env st).bind (fun args st1 =>
    Result.ok (Node.call func args line column) st1)

/-- Builtin `quote`. -/
def quoteBuiltin (terms : List Term) (line column : Nat) (st : State) : Result Node :=
  match terms[1]? with
  | some t => Result.ok (Node.quote t line column) st
  | none => Result.crash

/-- Builtin `doBlock`. -/
def doBlock (ev : Term → Nat → State → Result Node) (env : Nat) (terms : List Term)
    (line column : Nat) (st : State) : Result Node :=
  (elabEach ev (terms.drop 1) env st).bind (fun body st1 =>
    if body.length = 0 then
      Result.ok Node.null (st1.err Phase.PHASE_TYPE line column "No body provided to do-expression.")
    else
      match newDo body with
      | some d => Result.ok d st1
      | none => Result.crash)

/-- The builtins `add`, `subtract`, `multiply` and `divide` of `builtin.cpp`,
which differ in the node they build and the operator their message names. -/
def arithBuiltin (ev : Term → Nat → State → Result Node) (mk : List Node → Nat → Nat → Node)
    (opName : String) (env : Nat) (terms : List Term) (line column : Nat) (st : State) :
    Result Node :=
  (elabEach ev (terms.drop 1) env st).bind (fun params st1 =>
    if params.length = 0 then
      Result.ok Node.null
        (st1.err Phase.PHASE_TYPE line column
          ("No parameters provided to built-in function '" ++ opName ++ "'."))
    else Result.ok (mk params line column) st1)

/-- `m.asFunction().builtin()`. -/
def Meta.builtin (m : Meta) : Option Builtin :=
  match m.value with
  | Value.f _ b _ _ => b
  | _ => none

namespace Term

/-- Virtual `eval(Env* env)` of terms: elaboration to a node (`Node.null` is
the null pointer).  `BlockTerm::eval` evaluates the elaborated head and
dispatches on the result. -/
def eval : Nat → Term → Nat → State → Result Node
  | 0, _, _, _ => Result.timeout
  | fuel + 1, t, env, st =>
    match t with
    | int v l c => Result.ok (Node.int v l c) st
    | float v l c => Result.ok (Node.float v l c) st
    | char v l c => Result.ok (Node.char v l c) st
    | string v l c => Result.ok (Node.string v l c) st
    | Term.variable name l c => Result.ok (Node.variable name l c) st
    | block terms l c =>
        match terms with
        | [] => Result.crash
        | head :: _ =>
            (eval fuel head env st).bind (fun n st1 =>
              (Node.eval fuel n env st1).bind (fun m st2 =>
                if m.isType then declare (eval fuel) (Node.eval fuel) env n terms l c st2
                else if m.isFunction && m.builtin.isSome then
                  match m.builtin with
                  | some Builtin.define => define (eval fuel) env terms l c st2
                  | some Builtin.lambda => Basil.lambda (eval fuel) env terms l c st2
                  | some Builtin.add => arithBuiltin (eval fuel) Node.add "+" env terms l c st2
                  | some Builtin.subtract =>
                      arithBuiltin (eval fuel) Node.subtract "-" env terms l c st2
                  | some Builtin.multiply =>
                      arithBuiltin (eval fuel) Node.multiply "*" env terms l c st2
                  | some Builtin.divide => arithBuiltin (eval fuel) Node.divide "/" env terms l c st2
                  | some Builtin.quote => quoteBuiltin terms l c st2
                  | some Builtin.doBlock => doBlock (eval fuel) env terms l c st2
                  | none => Result.crash
                else if m.isFunction then call (eval fuel) env n terms l c st2
                else
                  Result.ok Node.null
                    (st2.err Phase.PHASE_TYPE head.line head.column
                      "First term in block is not a type or function.")))

end Term

/-! ## The driver (`main.cpp`) -/

/-- The store at program start: no environment, no symbol, no error. -/
def State.initial : State :=
  { envs := [], locals := [], nextKey := 0,
    symbols := { symbolnames := [], symbolids := [], next := 0 },
    errors := [], messages := [], errorFrames := [], frameMessages := [] }

/-- `Meta(builtinfn, new MetaFunction(builtin))` with
`builtinfn = find<FunctionType>(vector<const Type*>{ANY}, ANY)`. -/
def builtinMeta (b : Builtin) : Meta :=
  Meta.mk (some (Ty.function [ANY] ANY)) (Value.f Node.null (some b) [] none)

/-- The bindings `createRootEnv` enters, in order. -/
def rootBindings : List (String × Meta) :=
  [("int", Meta.mk (some TYPE) (Value.t INT)),
   ("float", Meta.mk (some TYPE) (Value.t FLOAT)),
   ("type", Meta.mk (some TYPE) (Value.t TYPE)),
   ("let", builtinMeta Builtin.define),
   ("lambda", builtinMeta Builtin.lambda),
   ("+", builtinMeta Builtin.add),
   ("-", builtinMeta Builtin.subtract),
   ("*", builtinMeta Builtin.multiply),
   ("/", builtinMeta Builtin.divide),
   ("quote", builtinMeta Builtin.quote),
   ("do", builtinMeta Builtin.doBlock)]

/-- The calls `env->enter(name, meta)` of a list of bindings, first to last;
`none` where one of them is undefined. -/
def enterBindings : List (String × Meta) → Env → Option Env
  | [], e => some e
  | b :: rest, e =>
      match e.enter b.1 b.2 with
      | some e2 => enterBindings rest e2
      | none => none

/-- `createRootEnv`, as the environment it fills; the eleven names differ, so
that every call of `enter` makes a new entry. -/
def rootEnv : Env :=
  match enterBindings rootBindings { entries := [], entryOrder := [], parent := none } with
  | some e => e
  | none => { entries := [], entryOrder := [], parent := none }

/-- The store after `createRootEnv()`, `new Env()` and `global->setParent(root)`
of `repl` and `compile`: the root environment at address 0 and the global
environment at address 1. -/
def State.start : State :=
  { State.initial with
    envs := [rootEnv, { entries := [], entryOrder := [], parent := some 0 }] }

/-- Address of the global environment in `State.start`. -/
def globalEnv : Nat := 1

/-- One top-level term through both passes, as in the loop of `compile`:
`if (Node* n = t->eval(global)) nodes.push(n), n->eval(global)`.  A null node
is not evaluated and yields the absent meta. -/
def runTerm (fuel : Nat) (t : Term) (st : State) : Result Meta :=
  (Term.eval fuel t globalEnv st).bind (fun n st1 =>
    if n.isNull then Result.ok Meta.absent st1
    else Node.eval fuel n globalEnv st1)

/-- A sequence of top-level terms, each through both passes in the store the
previous one left; the metas are returned in order. -/
def runTerms (fuel : Nat) : List Term → State → Result (List Meta)
  | [], st => Result.ok [] st
  | t :: ts, st =>
      (runTerm fuel t st).bind (fun m st1 =>
        (runTerms fuel ts st1).bind (fun ms st2 => Result.ok (m :: ms) st2))

/-! ## Scenario inputs -/

/-- The term `(let sq [x] (* x x))` as `parseBlock` and `parseArray` build it:
the bracket form is a block headed by the synthetic variable `array`. -/
def letSqBracket : Term :=
  Term.block [Term.variable "let" 1 2, Term.variable "sq" 1 6,
    Term.block [Term.variable "array" 1 9, Term.variable "x" 1 10] 1 9,
    Term.block [Term.variable "*" 1 13, Term.variable "x" 1 15, Term.variable "x" 1 17] 1 12] 1 1

/-- The term `(int sq (int x) (* x x))`. -/
def intSqTyped : Term :=
  Term.block [Term.variable "int" 1 2, Term.variable "sq" 1 6,
    Term.block [Term.variable "int" 1 10, Term.variable "x" 1 14] 1 9,
    Term.block [Term.variable "*" 1 18, Term.variable "x" 1 20, Term.variable "x" 1 22] 1 17] 1 1

/-- The term `(sq 7)`. -/
def sqSeven : Term := Term.block [Term.variable "sq" 2 2, Term.int 7 2 5] 2 1

/-- The term `(let int y)`. -/
def letIntY : Term :=
  Term.block [Term.variable "let" 1 2, Term.variable "int" 1 6, Term.variable "y" 1 10] 1 1

/-- The term `(int y)`. -/
def intY : Term := Term.block [Term.variable "int" 1 2, Term.variable "y" 1 6] 1 1

/-- The term `(+ y 1)`. -/
def plusYOne : Term :=
  Term.block [Term.variable "+" 2 2, Term.variable "y" 2 4, Term.int 1 2 6] 2 1


/-- Comparison `a == b` of two `Node*`.  Two null pointers are equal, a null
and a non-null pointer differ; the embedding keeps no addresses of nodes, so
the comparison of two non-null pointers is left open (`none`). -/
def nodePtrEq (a b : Node) : Option Bool :=
  match a, b with
  | Node.null, Node.null => some true
  | Node.null, _ => some false
  | _, Node.null => some false
  | _, _ => none

/-- `MetaIntersect::as(t)`: the first stored value of type `t`, or else the
sentinel `Meta()` at the back. -/
def metaAs (t : Ty) : List Meta → Meta
  | [] => Meta.absent
  | m :: rest => if m.type = some t then m else metaAs t rest

/-- The members of the intersection type of a meta, for the loops over
`((IntersectType*)type())->members()`. -/
def intersectMembers : Ty → List Ty
  | Ty.intersect ms => ms
  | _ => []

/-- The loop `for (const Type* t : members)` of `operator==` on intersections:
it stops with `false` at the first member type whose check fails. -/
def eachMember (check : Ty → Option Bool) : List Ty → Option Bool
  | [] => some true
  | t :: ts =>
      match check t with
      | some true => eachMember check ts
      | some false => some false
      | Option.none => Option.none

namespace Meta

mutual
/-- `Meta::operator==` with the operands possibly exchanged: `eqCore false a b`
is `a == b` and `eqCore true a b` is `b == a` (the union case of the source
compares the payloads in exchanged order).  `none` where the source reads a
vector out of range or an inactive member of the union, or compares two
non-null node pointers. -/
def eqCore (flip : Bool) : Meta → Meta → Option Bool
  | Meta.mk t v, Meta.mk t2 v2 =>
      if t ≠ t2 then some false
      else
        match t with
        | Option.none => some true
        | some ty =>
            if ty = VOID then some true
            else if (Meta.mk t v).isInt then
              some (decide ((Meta.mk t v).asInt = (Meta.mk t2 v2).asInt))
            else if (Meta.mk t v).isFloat then
              (if flip then some ((Meta.mk t2 v2).asFloat == (Meta.mk t v).asFloat)
               else some ((Meta.mk t v).asFloat == (Meta.mk t2 v2).asFloat))
            else if ty = CHAR then
              match v, v2 with
              | Value.c x, Value.c y => some (decide (x = y))
              | _, _ => Option.none
            else if ty = TYPE then
              match v, v2 with
              | Value.t x, Value.t y => some (decide (x = y))
              | _, _ => Option.none
            else if ty = BOOL then
              match v, v2 with
              | Value.b x, Value.b y => some (decide (x = y))
              | _, _ => Option.none
            else if ty = SYMBOL then
              some (decide ((Meta.mk t v).asInt = (Meta.mk t2 v2).asInt))
            else if ty = STRING then
              match v, v2 with
              | Value.s x, Value.s y => some (decide (x = y))
              | _, _ => Option.none
            else if Ty.kind ty = Kind.ARRAY then
              match v, v2 with
              | Value.a xs, Value.a ys => eqArray flip xs ys
              | _, _ => Option.none
            else if Ty.kind ty = Kind.SUM then
              match v, v2 with
              | Value.un x, Value.un y => eqCore (!flip) x y
              | _, _ => Option.none
            else if Ty.kind ty = Kind.INTERSECT then
              match v, v2 with
              | Value.in_ xs, Value.in_ ys =>
                  eachMember (fun m => eqAs flip m xs ys) (intersectMembers ty)
              | _, _ => Option.none
            else if Ty.kind ty = Kind.FUNCTION then
              match v, v2 with
              | Value.f fn _ _ _, Value.f fn2 _ _ _ => nodePtrEq fn fn2
              | _, _ => Option.none
            else if Ty.kind ty = Kind.RUNTIME then
              match v, v2 with
              | Value.rt n, Value.rt n2 => nodePtrEq n n2
              | _, _ => Option.none
            else some true
termination_by structural a => a
/-- The array loop of `operator==`, which runs over the elements of the left
operand and reads the right operand at the same index. -/
def eqArray (flip : Bool) : List Meta → List Meta → Option Bool
  | [], [] => some true
  | [], _ :: _ => if flip then Option.none else some true
  | _ :: _, [] => if flip then some true else Option.none
  | x :: xs, y :: ys =>
      match eqCore flip x y with
      | some true => eqArray flip xs ys
      | some false => some false
      | Option.none => Option.none
termination_by structural xs => xs
/-- Comparison of `as(t)` of both sides. -/
def eqAs (flip : Bool) (t : Ty) : List Meta → List Meta → Option Bool
  | [], ys => some (decide ((metaAs t ys).type = Option.none))
  | x :: xs, ys => if x.type = some t then eqCore flip x (metaAs t ys) else eqAs flip t xs ys
termination_by structural xs => xs
end

/-- `Meta::operator==`. -/
def eq (a b : Meta) : Option Bool := eqCore false a b

/-- `Meta::operator!=`. -/
def ne (a b : Meta) : Option Bool := (eq a b).map (fun r => !r)

end Meta

/-! ## Reachable symbol tables -/

/-- The symbol table at program start. -/
def SymbolTable.initial : SymbolTable := { symbolnames := [], symbolids := [], next := 0 }

/-- Symbol tables reachable from `t` by calls of `findSymbol(name)`. -/
inductive SymbolSteps : SymbolTable → SymbolTable → Prop where
  | refl (t : SymbolTable) : SymbolSteps t t
  | step (t t2 : SymbolTable) (name : String) : SymbolSteps t t2 → SymbolSteps t (findSymbol name t2).2

/-- Symbol tables reachable from the empty table of program start. -/
def ReachableSymbols (t : SymbolTable) : Prop := SymbolSteps SymbolTable.initial t

/-- Every interned name maps to an id below `next` that maps back to it. -/
def WellFormedSymbols (t : SymbolTable) : Prop :=
  ∀ name id, mapFind t.symbolids name = some id →
    mapFind t.symbolnames id = some name ∧ id < t.next

/-! ## Sequences of `enter` -/

/-- `new Env()`. -/
def Env.fresh : Env := { entries := [], entryOrder := [], parent := none }

/-- A sequence of calls `enter(name, meta)`, first to last; `none` where one
of them is undefined. -/
def Env.enterSeq (e : Env) (ops : List (String × Meta)) : Option Env := enterBindings ops e

/-- The distinct names of a sequence, each at the place of its first
occurrence. -/
def firstOccurrences : List String → List String
  | [] => []
  | n :: rest => n :: (firstOccurrences rest).filter (fun k => decide (k ≠ n))

/-- The meta most recently entered under `name` by a sequence of calls. -/
def lastEntered : List (String × Meta) → String → Option Meta
  | [], _ => none
  | op :: rest, name =>
      match lastEntered rest name with
      | some m => some m
      | none => if op.1 = name then some op.2 else none

/-- The keys of the map are the names of the insertion order, in that order and
without repetition: what `new Env()`, `enter`, `entry(i)->meta = m` and
`fork` maintain. -/
def Env.WellFormed (e : Env) : Prop :=
  e.entries.map Prod.fst = e.entryOrder ∧ e.entryOrder.Nodup

/-! ## Parent chains -/

/-- The environments on the parent chain of the one at `addr`, nearest first,
following at most `depth` pointers; `none` when a pointer leads outside the
store or the chain does not end within `depth` environments. -/
def State.chain (st : State) : Nat → Nat → Option (List Env)
  | 0, _ => none
  | depth + 1, addr =>
      match st.env addr with
      | none => none
      | some e =>
          match e.parent with
          | none => some [e]
          | some p => (State.chain st depth p).map (fun rest => e :: rest)

/-- The binding of `name` in the nearest environment of a chain that has one. -/
def nearestBinding (name : String) : List Env → Option Meta
  | [] => none
  | e :: rest =>
      match mapFind e.entries name with
      | some m => some m
      | none => nearestBinding name rest

/-- The message set `reportError` consults: that of the innermost frame, or the
root set when no frame is open. -/
def State.currentMessages (st : State) : List String :=
  match st.frameMessages with
  | ms :: _ => ms
  | [] => st.messages

/-! ## More scenario inputs -/

/-- The term `(+ 1 2)`. -/
def plusOneTwo : Term :=
  Term.block [Term.variable "+" 1 2, Term.int 1 1 4, Term.int 2 1 6] 1 1

/-- The term `(let s "ab")`. -/
def letS : Term :=
  Term.block [Term.variable "let" 1 2, Term.variable "s" 1 6, Term.string "ab" 1 8] 1 1

/-- The term `(+ s "c")`. -/
def plusSC : Term :=
  Term.block [Term.variable "+" 2 2, Term.variable "s" 2 4, Term.string "c" 2 6] 2 1

/-- The term `(let x v)`. -/
def letX (v : Int) : Term :=
  Term.block [Term.variable "let" 1 2, Term.variable "x" 1 6, Term.int v 1 8] 1 1

/-- The term `(+ x x)`. -/
def plusXX : Term :=
  Term.block [Term.variable "+" 2 2, Term.variable "x" 2 4, Term.variable "x" 2 6] 2 1

/-- The term `(let inc (int x) (+ x 1))`. -/
def letInc : Term :=
  Term.block [Term.variable "let" 1 2, Term.variable "inc" 1 6,
    Term.block [Term.variable "int" 1 11, Term.variable "x" 1 15] 1 10,
    Term.block [Term.variable "+" 1 19, Term.variable "x" 1 21, Term.int 1 1 23] 1 18] 1 1

/-- The term `(inc v)`. -/
def incCall (v : Int) : Term :=
  Term.block [Term.variable "inc" 2 2, Term.int v 2 6] 2 1

/-- The integer literal nodes of a list of values with their positions. -/
def intNodes (lits : List (Int × Nat × Nat)) : List Node :=
  lits.map (fun x => Node.int x.1 x.2.1 x.2.2)

/-- Both passes on one term in the environment at `env`: `t->eval(env)`, then
`n->eval(env)` on the node that came back. -/
def elabEval (fuel : Nat) (t : Term) (env : Nat) (st : State) : Result Meta :=
  (Term.eval fuel t env st).bind (fun n st1 => Node.eval fuel n env st1)

/-! ## Receivers of the conversion tests -/

/-- The receiver at which a call of `implicitly` or `explicitly` arrives:
`RuntimeType` forwards both to its `_child`, every other class answers itself. -/
def Ty.unwrapped : Ty → Ty
  | Ty.runtime c => Ty.unwrapped c
  | t => t

/-! ## Comparison of metas (`equal`, `inequal`) -/

/-- `Meta equal(const Meta& lhs, const Meta& rhs)`; `none` where `operator==`
has undefined behaviour. -/
def equal (lhs rhs : Meta) : Option Meta :=
  if !lhs.present || !rhs.present then some Meta.absent
  else (Meta.eq lhs rhs).map (fun r => Meta.mk (some BOOL) (Value.b r))

/-- `Meta inequal(const Meta& lhs, const Meta& rhs)`; `none` where `operator!=`
has undefined behaviour. -/
def inequal (lhs rhs : Meta) : Option Meta :=
  if !lhs.present || !rhs.present then some Meta.absent
  else (Meta.ne lhs rhs).map (fun r => Meta.mk (some BOOL) (Value.b r))

/-- The array meta `Meta(t, new MetaArray(vals))` whose elements are the `INT`
metas of a list of integers. -/
def intArray (t : Ty) (xs : List Int) : Meta :=
  Meta.mk (some t) (Value.a (xs.map (fun v => Meta.mk (some INT) (Value.i v))))

/-! ## Shapes of the terms after the head of a `let` -/

/-- The variable terms of a list of names with their positions. -/
def varTerms (vars : List (String × Nat × Nat)) : List Term :=
  vars.map (fun x => Term.variable x.1 x.2.1 x.2.2)

/-- Whether a term is a `BlockTerm`. -/
def Term.isBlock : Term → Bool
  | Term.block _ _ _ => true
  | _ => false

/-- Whether the name-collecting loop of `define` takes a term as a new name:
it is a variable whose name `lookup` does not find from `env`. -/
def isFreshSymbol (st : State) (env : Nat) : Term → Bool
  | Term.variable name _ _ => (st.lookup env name).isNone
  | _ => false

/-- The term `(1 2)`. -/
def oneTwo : Term := Term.block [Term.int 1 1 2, Term.int 2 1 4] 1 1

/-- The term `(inc y)`. -/
def incY : Term := Term.block [Term.variable "inc" 2 2, Term.variable "y" 2 6] 2 1

/-- The term `(let)`. -/
def letAlone : Term := Term.block [Term.variable "let" 1 2] 1 1

/-- The term `(let c 'a')`. -/
def letCharC : Term :=
  Term.block [Term.variable "let" 1 2, Term.variable "c" 1 6, Term.char 97 1 8] 1 1

/-- The term `c` on the second line. -/
def varC : Term := Term.variable "c" 2 1

/-- The term `(do (let x 5) (let x "a"))`. -/
def doLetIntString : Term :=
  Term.block
    [Term.variable "do" 1 2,
     Term.block [Term.variable "let" 1 6, Term.variable "x" 1 10, Term.int 5 1 12] 1 5,
     Term.block [Term.variable "let" 1 16, Term.variable "x" 1 20, Term.string "a" 1 22] 1 15]
    1 1

/-- The term `(do (let x 1) (let x 2))`. -/
def doLetTwice : Term :=
  Term.block
    [Term.variable "do" 1 2,
     Term.block [Term.variable "let" 1 6, Term.variable "x" 1 10, Term.int 1 1 12] 1 5,
     Term.block [Term.variable "let" 1 16, Term.variable "x" 1 20, Term.int 2 1 22] 1 15] 1 1

/-! ## Frames of diagnostics (`errors.cpp`) -/

/-- A sequence of `reportError` calls, first to last. -/
def State.reportAll (st : State) (es : List Error) : State :=
  es.foldl (fun s e => s.reportError e) st

/-- `releaseErrors`: the innermost frame is popped and its errors are reported
to what is then the innermost frame; `none` when no frame is open, where the
source reads `back()` of an empty vector. -/
def State.releaseErrors (st : State) : Option State :=
  match st.errorFrames, st.frameMessages with
  | removed :: frames, _ :: fms =>
      some (State.reportAll { st with errorFrames := frames, frameMessages := fms } removed)
  | _, _ => none

/-! ## Intersection values (`MetaIntersect`) -/

/-- `MetaIntersect::MetaIntersect(values)`: the stored vector `vals`, the given
values followed by the sentinel `Meta()`. -/
def metaIntersectVals (values : List Meta) : List Meta := values ++ [Meta.absent]

/-- `MetaIntersect::size()`, whose body is `return size() - 1;`.  Every call
spends one unit of fuel; `none` when the fuel is used up before a call returns. -/
def metaIntersectSize : Nat → List Meta → Option Nat
  | 0, _ => none
  | fuel + 1, vals => (metaIntersectSize fuel vals).map (fun n => wrapU32 (n + 4294967295))

/-! ## Separators in mangles -/

/-- Strings separated by single commas. -/
def commaSeparated : List String → String
  | [] => ""
  | [s] => s
  | s :: rest => s ++ "," ++ commaSeparated rest

/-! ## Source text (`source.cpp`) -/

/-- The character `0`, which `Source::View::peek` returns at the end. -/
def chNul : Char := Char.ofNat 0
/-- The tabulator. -/
def chTab : Char := Char.ofNat 9
/-- The line feed. -/
def chNewline : Char := Char.ofNat 10
/-- The blank. -/
def chSpace : Char := Char.ofNat 32
/-- The double quote. -/
def chQuote : Char := Char.ofNat 34
/-- The number sign, which opens a comment. -/
def chHash : Char := Char.ofNat 35
/-- The single quote. -/
def chApostrophe : Char := Char.ofNat 39
/-- The opening round bracket. -/
def chLParen : Char := Char.ofNat 40
/-- The closing round bracket. -/
def chRParen : Char := Char.ofNat 41
/-- The full stop. -/
def chDot : Char := Char.ofNat 46
/-- The colon. -/
def chColon : Char := Char.ofNat 58
/-- The opening square bracket. -/
def chLBrack : Char := Char.ofNat 91
/-- The backslash. -/
def chBackslash : Char := Char.ofNat 92
/-- The closing square bracket. -/
def chRBrack : Char := Char.ofNat 93
/-- The underscore. -/
def chUnderscore : Char := Char.ofNat 95

/-- `Source::load`: the text of a source, every tabulator expanded to four
blanks by `Source::add`. -/
def sourceText (input : List Char) : List Char :=
  (input.map (fun c => if c = chTab then [chSpace, chSpace, chSpace, chSpace] else [c])).flatten

/-- `Source::View`: the text from `_data` on and the zero-based `_line` and
`_column`.  Every line of a source but the last ends in a line feed, so the
test `_column >= src->line(_line).size() && _line < src->lines.size() - 1` of
`read` holds exactly after a line feed was read. -/
structure View where
  data : List Char
  lineIdx : Nat
  columnIdx : Nat
  deriving DecidableEq, Repr

namespace View

/-- `Source::View::peek`. -/
def peek (v : View) : Char :=
  match v.data with
  | [] => chNul
  | c :: _ => c

/-- The view after one character `c` in front of `rest` was read. -/
def after (c : Char) (rest : List Char) (lineIdx columnIdx : Nat) : View :=
  if c = chNewline then { data := rest, lineIdx := lineIdx + 1, columnIdx := 0 }
  else { data := rest, lineIdx := lineIdx, columnIdx := columnIdx + 1 }

/-- `Source::View::read`: the character and the view afterwards. -/
def read (v : View) : Char × View :=
  match v.data with
  | [] => (chNul, { v with columnIdx := v.columnIdx + 1 })
  | c :: rest => (c, after c rest v.lineIdx v.columnIdx)

/-- `Source::View::line`. -/
def line (v : View) : Nat := v.lineIdx + 1

/-- `Source::View::column`. -/
def column (v : View) : Nat := v.columnIdx + 1

end View

/-- `Source::view`. -/
def sourceView (text : List Char) : View := { data := text, lineIdx := 0, columnIdx := 0 }

/-! ## The lexer (`lex.cpp`) -/

/-- Token id `T_NONE`. -/
def T_NONE : Nat := 0
/-- Token id `T_INT`. -/
def T_INT : Nat := 1
/-- Token id `T_FLOAT`. -/
def T_FLOAT : Nat := 2
/-- Token id `T_STRING`. -/
def T_STRING : Nat := 3
/-- Token id `T_CHAR`. -/
def T_CHAR : Nat := 4
/-- Token id `T_QUOTE`. -/
def T_QUOTE : Nat := 5
/-- Token id `T_IDENT`. -/
def T_IDENT : Nat := 6
/-- Token id `T_LPAREN`. -/
def T_LPAREN : Nat := 7
/-- Token id `T_RPAREN`. -/
def T_RPAREN : Nat := 8
/-- Token id `T_LBRACK`. -/
def T_LBRACK : Nat := 9
/-- Token id `T_RBRACK`. -/
def T_RBRACK : Nat := 10

/-- `struct Token`. -/
structure Token where
  name : String
  id : Nat
  line : Nat
  column : Nat
  deriving DecidableEq, Repr

/-- The constant `NONE`. -/
def NONE : Token := { name := "", id := T_NONE, line := 0, column := 0 }

/-- `Token::operator bool`. -/
def Token.present (t : Token) : Bool := t.id != T_NONE

/-- Modelled from the spec: `isspace` of the absent `utf8.h`, true of the blank
and of the control characters 9 to 13. -/
def isspace (c : Char) : Bool := c.toNat = 32 || (9 ≤ c.toNat && c.toNat ≤ 13)

/-- Modelled from the spec: `isdigit` of the absent `utf8.h`, true of `0` to
`9`. -/
def isdigit (c : Char) : Bool := 48 ≤ c.toNat && c.toNat ≤ 57

/-- Modelled from the spec: `isprint` of the absent `utf8.h`, true of every
character that is not a control character. -/
def isprint (c : Char) : Bool := 32 ≤ c.toNat && c.toNat != 127

/-- `isdelim` of `lex.cpp`. -/
def isdelim (c : Char) : Bool :=
  isspace c || c = chLParen || c = chRParen || c = chLBrack || c = chRBrack

/-- The loops `while (p(view.peek())) view.read();` on the view with text
`data`; `none` when the loop never ends, `p` being true of the character `0`
that `peek` returns from the end on. -/
def skipWhile (p : Char → Bool) : List Char → Nat → Nat → Option View
  | [], l, k => if p chNul then none else some { data := [], lineIdx := l, columnIdx := k }
  | c :: cs, l, k =>
      if p c then
        (if c = chNewline then skipWhile p cs (l + 1) 0 else skipWhile p cs l (k + 1))
      else some { data := c :: cs, lineIdx := l, columnIdx := k }

/-- The loops `while (p(view.peek())) result.name += view.read();`; `none` when
the loop never ends. -/
def readWhile (p : Char → Bool) : List Char → Nat → Nat → List Char → Option (List Char × View)
  | [], l, k, acc =>
      if p chNul then none else some (acc, { data := [], lineIdx := l, columnIdx := k })
  | c :: cs, l, k, acc =>
      if p c then
        (if c = chNewline then readWhile p cs (l + 1) 0 (acc ++ [c])
         else readWhile p cs l (k + 1) (acc ++ [c]))
      else some (acc, { data := c :: cs, lineIdx := l, columnIdx := k })

/-- The `switch` over the character after a backslash: the character the
escape stands for, or `none` in the `default` case. -/
def escapeChar (c : Char) : Option Char :=
  if c = chQuote then some chQuote
  else if c = chApostrophe then some chApostrophe
  else if c = chBackslash then some chBackslash
  else if c = Char.ofNat 110 then some chNewline
  else if c = Char.ofNat 116 then some chTab
  else if c = Char.ofNat 114 then some (Char.ofNat 13)
  else if c = Char.ofNat 48 then some chNul
  else none

/-- The text of the error for an unknown escape. -/
def unknownEscape (c : Char) : String :=
  "Unknown escape sequence '" ++ String.singleton chBackslash ++ String.singleton c ++ "'."

/-- How the scan of a string or character constant ends: at the closing quote,
or with an error reported at a position and the view `lex` returns with. -/
inductive Scan where
  | closed (name : List Char) (view : View)
  | failed (line column : Nat) (text : String) (view : View)

/-- The loop `while (view.peek() != '"')` of the string constant, entered after
the opening quote was read. -/
def lexString : List Char → Nat → Nat → List Char → Scan
  | [], l, k, _ =>
      Scan.failed (l + 1) (k + 1) "Unexpected end of file within string constant."
        { data := [], lineIdx := l, columnIdx := k }
  | c :: cs, l, k, acc =>
      if c = chQuote then Scan.closed acc { data := c :: cs, lineIdx := l, columnIdx := k }
      else if c = chNewline then
        Scan.failed (l + 1) (k + 1) "Line breaks are not permitted within string constants."
          { data := cs, lineIdx := l + 1, columnIdx := 0 }
      else if c = chBackslash then
        match cs with
        | [] =>
            Scan.failed (l + 1) (k + 2) (unknownEscape chNul)
              { data := [], lineIdx := l, columnIdx := k + 2 }
        | e :: es =>
            match escapeChar e with
            | some x => lexString es l (k + 2) (acc ++ [x])
            | none => Scan.failed (l + 1) (k + 2) (unknownEscape e) (View.after e es l (k + 1))
      else lexString cs l (k + 1) (acc ++ [c])

/-- The character constant, entered after the opening quote was read. -/
def lexChar (v : View) : Scan :=
  if v.peek = chNewline then
    Scan.failed v.line v.column "Line breaks are not permitted within character constants."
      v.read.2
  else if v.peek = chNul then
    Scan.failed v.line v.column "Unexpected end of file within character constant." v
  else
    let body : Option (List Char × View) :=
      if v.peek = chBackslash then
        match escapeChar v.read.2.peek with
        | some x => some ([x], v.read.2.read.2)
        | none => none
      else some ([v.peek], v.read.2)
    match body with
    | none =>
        Scan.failed v.read.2.line v.read.2.column (unknownEscape v.read.2.peek) v.read.2.read.2
    | some (name, v2) =>
        if v2.peek = chApostrophe then Scan.closed name v2
        else
          Scan.failed v2.line v2.column "More than one character in character constant."
            v2.read.2

/-- The delimiter and quote-mark tokens: one character is read. -/
def oneCharToken (id : Nat) (view : View) (st : State) : Result (Token × View) :=
  Result.ok
    ({ name := String.singleton view.peek, id := id, line := view.line, column := view.column },
      view.read.2) st

/-- The end of the numeric literal: the test `!isdelim(view.peek())`. -/
def endNumber (id : Nat) (name : List Char) (start v : View) (st : State) :
    Result (Token × View) :=
  if isdelim v.peek then
    Result.ok ({ name := String.mk name, id := id, line := start.line, column := start.column }, v)
      st
  else
    Result.ok (NONE, v.read.2)
      (st.err Phase.PHASE_LEX v.line v.column
        ("Unexpected character '" ++ String.singleton v.peek ++ "' in numeric literal."))

/-- `Token lex(Source::View& view)`: the token, the view afterwards and the
store with the errors reported.  `timeout` where a loop of the source never
ends: a comment or an identifier that runs into the end of the text. -/
def lex (view : View) (st : State) : Result (Token × View) :=
  if view.peek = chNul then Result.ok (NONE, view) st
  else if view.peek = chHash then
    match skipWhile (fun c => c != chNewline) view.read.2.data view.read.2.lineIdx
        view.read.2.columnIdx with
    | some v => Result.ok (NONE, v) st
    | none => Result.timeout
  else if isspace view.peek then
    match skipWhile isspace view.data view.lineIdx view.columnIdx with
    | some v => Result.ok (NONE, v) st
    | none => Result.timeout
  else if view.peek = chColon then oneCharToken T_QUOTE view st
  else if view.peek = chLParen then oneCharToken T_LPAREN view st
  else if view.peek = chRParen then oneCharToken T_RPAREN view st
  else if view.peek = chLBrack then oneCharToken T_LBRACK view st
  else if view.peek = chRBrack then oneCharToken T_RBRACK view st
  else if view.peek = chQuote then
    match lexString view.read.2.data view.read.2.lineIdx view.read.2.columnIdx [] with
    | Scan.closed name v =>
        Result.ok
          ({ name := String.mk name, id := T_STRING, line := view.line, column := view.column },
            v.read.2) st
    | Scan.failed l c text v => Result.ok (NONE, v) (st.err Phase.PHASE_LEX l c text)
  else if view.peek = chApostrophe then
    match lexChar view.read.2 with
    | Scan.closed name v =>
        Result.ok
          ({ name := String.mk name, id := T_CHAR, line := view.line, column := view.column },
            v.read.2) st
    | Scan.failed l c text v => Result.ok (NONE, v) (st.err Phase.PHASE_LEX l c text)
  else if isdigit view.peek then
    match readWhile isdigit view.data view.lineIdx view.columnIdx [] with
    | none => Result.timeout
    | some (digits, v) =>
        if v.peek = chDot then
          match readWhile isdigit v.read.2.data v.read.2.lineIdx v.read.2.columnIdx
              (digits ++ [chDot]) with
          | none => Result.timeout
          | some (name, v2) => endNumber T_FLOAT name view v2 st
        else endNumber T_INT digits view v st
  else if isprint view.peek then
    if view.peek = chUnderscore then
      Result.ok (NONE, view.read.2)
        (st.err Phase.PHASE_LEX view.line view.column "Identifiers cannot start with '_'.")
    else
      match readWhile (fun c => !isdelim c) view.read.2.data view.read.2.lineIdx
          view.read.2.columnIdx [view.peek] with
      | some (name, v) =>
          Result.ok
            ({ name := String.mk name, id := T_IDENT, line := view.line, column := view.column },
              v) st
      | none => Result.timeout
  else
    Result.ok (NONE, view.read.2)
      (st.err Phase.PHASE_LEX view.line view.column
        ("Unexpected character '" ++ String.singleton view.peek ++ "' in input."))

/-! ## The parser (`parse.cpp`) -/

/-- A `Term*` as `parse` hands it out: the null pointer, or a term.  The block
built for a quote mark holds whatever pointer `parse` returned for the quoted
term, so that a block may hold a null pointer. -/
inductive TermPtr where
  | null
  | int (value : Int) (line column : Nat)
  | float (value : Float) (line column : Nat)
  | char (value : Nat) (line column : Nat)
  | string (value : String) (line column : Nat)
  | variable (name : String) (line column : Nat)
  | block (terms : List TermPtr) (line column : Nat)

namespace TermPtr

/-- Test `t == nullptr`. -/
def isNull : TermPtr → Bool
  | null => true
  | _ => false

mutual
/-- The term a pointer leads to, when neither it nor a pointer below it is
null. -/
def toTerm : TermPtr → Option Term
  | null => none
  | int v l c => some (Term.int v l c)
  | float v l c => some (Term.float v l c)
  | char v l c => some (Term.char v l c)
  | string v l c => some (Term.string v l c)
  | TermPtr.variable n l c => some (Term.variable n l c)
  | block ts l c => (toTerms ts).map (fun xs => Term.block xs l c)
/-- The terms a vector of pointers leads to. -/
def toTerms : List TermPtr → Option (List Term)
  | [] => some []
  | t :: ts =>
      match toTerm t, toTerms ts with
      | some x, some xs => some (x :: xs)
      | _, _ => none
end

end TermPtr

/-- `struct TokenView`: the token vector `_cache` and `index`. -/
structure TokenView where
  cache : List Token
  index : Nat
  deriving DecidableEq, Repr

namespace TokenView

/-- `TokenView::peek`. -/
def peek (v : TokenView) : Token :=
  match v.cache[v.index]? with
  | some t => t
  | none => NONE

/-- `TokenView::read`, as the view afterwards. -/
def read (v : TokenView) : TokenView :=
  if v.index ≥ v.cache.length then v else { v with index := v.index + 1 }

end TokenView

/-- The value of a string of decimal digits, read from the left. -/
def digitsValue : List Char → Nat → Nat
  | [], acc => acc
  | c :: cs, acc => digitsValue cs (acc * 10 + (c.toNat - 48))

/-- Modelled from the spec: `stringToInt`, the `read(b, i)` of the absent
`io.h` on the digits of an `INT` token, as the decimal value in 64 bits. -/
def stringToInt (s : String) : Int := wrapSigned 64 (digitsValue s.data 0)

/-- Modelled from the spec: `stringToFloat`, the `read(b, d)` of the absent
`io.h` on the text of a `FLOAT` token, as the decimal fraction it denotes. -/
def stringToFloat (s : String) : Float :=
  Float.ofScientific
    (digitsValue (s.data.filter (fun c => c != chDot)) 0) true
    ((s.data.dropWhile (fun c => c != chDot)).length - 1)

/-- The loop `while (view.peek().id != closer)` of `parseBlock` and
`parseArray`, with `p` for `parse`; the value is `none` after `Unexpected end
of file.`, where the source returns the null pointer.  Every turn of the loop
spends one unit of fuel. -/
def parseLoop (p : TokenView → State → Result (TermPtr × TokenView)) (closer : Nat) :
    Nat → List TermPtr → TokenView → State → Result (Option (List TermPtr) × TokenView)
  | 0, _, _, _ => Result.timeout
  | fuel + 1, contents, view, st =>
      if view.peek.id = closer then Result.ok (some contents, view) st
      else if view.peek.id = T_NONE then
        Result.ok (none, view)
          (st.err Phase.PHASE_PARSE view.peek.line view.peek.column "Unexpected end of file.")
      else
        (p view st).bind (fun r st1 =>
          parseLoop p closer fuel (if r.1.isNull then contents else contents ++ [r.1]) r.2 st1)

/-- `parseBlock` and `parseArray`, which differ in the closing token and in the
initial contents. -/
def parseGroup (p : TokenView → State → Result (TermPtr × TokenView)) (closer : Nat)
    (initial : List TermPtr) (fuel : Nat) (view : TokenView) (st : State) :
    Result (TermPtr × TokenView) :=
  (parseLoop p closer fuel initial view.read st).bind (fun r st1 =>
    match r.1 with
    | none => Result.ok (TermPtr.null, r.2) st1
    | some contents =>
        Result.ok (TermPtr.block contents view.peek.line view.peek.column, r.2.read) st1)

/-- `Term* parse(TokenView& view)`; every nested call spends one unit of fuel. -/
def parse : Nat → TokenView → State → Result (TermPtr × TokenView)
  | 0, _, _ => Result.timeout
  | fuel + 1, view, st =>
      let t := view.peek
      if t.id = T_INT then
        Result.ok (TermPtr.int (stringToInt t.name) t.line t.column, view.read) st
      else if t.id = T_FLOAT then
        Result.ok (TermPtr.float (stringToFloat t.name) t.line t.column, view.read) st
      else if t.id = T_STRING then
        Result.ok (TermPtr.string t.name t.line t.column, view.read) st
      else if t.id = T_CHAR then
        match t.name.data with
        | c :: _ => Result.ok (TermPtr.char c.toNat t.line t.column, view.read) st
        | [] => Result.crash
      else if t.id = T_IDENT then
        Result.ok (TermPtr.variable t.name t.line t.column, view.read) st
      else if t.id = T_QUOTE then
        (parse fuel view.read st).bind (fun r st1 =>
          Result.ok
            (TermPtr.block [TermPtr.variable "quote" t.line t.column, r.1] t.line t.column, r.2)
            st1)
      else if t.id = T_LPAREN then parseGroup (parse fuel) T_RPAREN [] fuel view st
      else if t.id = T_LBRACK then
        parseGroup (parse fuel) T_RBRACK [TermPtr.variable "array" t.line t.column] fuel view st
      else
        Result.ok (TermPtr.null, view)
          (st.err Phase.PHASE_PARSE t.line t.column ("Unexpected token '" ++ t.name ++ "'."))

/-! ## Inputs of the lexer, the parser and the evaluator -/

/-- The text `1. ` of a source. -/
def textOneDot : List Char := [Char.ofNat 49, chDot, chSpace]

/-- The tokens of `( ]`. -/
def tokensStrayBracket : List Token :=
  [{ name := "(", id := T_LPAREN, line := 1, column := 1 },
   { name := "]", id := T_RBRACK, line := 1, column := 3 }]

/-- The tokens of `()`. -/
def tokensEmptyBlock : List Token :=
  [{ name := "(", id := T_LPAREN, line := 1, column := 1 },
   { name := ")", id := T_RPAREN, line := 1, column := 2 }]

/-- The tokens of `(1 2)`. -/
def tokensOneTwo : List Token :=
  [{ name := "(", id := T_LPAREN, line := 1, column := 1 },
   { name := "1", id := T_INT, line := 1, column := 2 },
   { name := "2", id := T_INT, line := 1, column := 4 },
   { name := ")", id := T_RPAREN, line := 1, column := 5 }]

/-- The term `()`. -/
def emptyBlock : Term := Term.block [] 1 1

/-- The term `((1 2) 3)`. -/
def oneTwoThree : Term :=
  Term.block [Term.block [Term.int 1 1 3, Term.int 2 1 5] 1 2, Term.int 3 1 8] 1 1

/-- The term `(/ 0)`. -/
def divZero : Term := Term.block [Term.variable "/" 1 2, Term.int 0 1 4] 1 1

/-- The term `(/ 1 0)`. -/
def divOneZero : Term :=
  Term.block [Term.variable "/" 1 2, Term.int 1 1 4, Term.int 0 1 6] 1 1

/-- The term `(int int 5)`. -/
def intIntFive : Term :=
  Term.block [Term.variable "int" 1 2, Term.variable "int" 1 6, Term.int 5 1 10] 1 1

/-! ## The type lattice: conversions and join -/

namespace Ty

theorem sizeOf_lt_of_mem_members {x : Ty} {ms : List Ty} (h : x ∈ ms) : sizeOf x < sizeOf ms :=
  List.sizeOf_lt_of_mem h

theorem implicitly_runtime_size : ∀ (a y : Ty), a.implicitly (runtime y) = true →
    y = a ∨ sizeOf y < sizeOf a
  | base s, y => by simp [implicitly, baseImplicitly, ANY]; intro h; exact Or.inl h
  | number s f, y => by simp [implicitly, baseImplicitly, ANY, kind]; intro h; exact Or.inl h
  | function a r, y => by simp [implicitly, baseImplicitly, ANY]; intro h; exact Or.inl h
  | macroTy a r, y => by simp [implicitly, baseImplicitly, ANY]; intro h; exact Or.inl h
  | array e c, y => by simp [implicitly, baseImplicitly, ANY]; intro h; exact Or.inl h
  | sum ms, y => by simp [implicitly, baseImplicitly, ANY]; intro h; exact Or.inl h
  | intersect ms, y => by
      simp [implicitly, baseImplicitly, ANY]
      rintro (h | h)
      · exact Or.inl h
      · right
        have := sizeOf_lt_of_mem_members h
        simp at this
        omega
  | named c n, y => by simp [implicitly, baseImplicitly, ANY]; intro h; exact Or.inl h
  | runtime c, y => by
      simp only [implicitly]
      intro h
      right
      rcases implicitly_runtime_size c y h with h1 | h1
      · subst h1; simp
      · simp; omega


theorem runtime_mutual_implicitly (a b : Ty) (ha : kind a = Kind.RUNTIME)
    (hb : kind b = Kind.RUNTIME) (hab : a.implicitly b = true) (hba : b.implicitly a = true) :
    a = b := by
  cases a <;> simp [kind] at ha
  cases b <;> simp [kind] at hb
  rename_i x y
  simp only [implicitly] at hab hba
  rcases implicitly_runtime_size x y hab with h1 | h1
  · rw [h1]
  · rcases implicitly_runtime_size y x hba with h2 | h2
    · rw [h2]
    · omega

theorem explicitly_of_implicitly (a b : Ty) (hn : kind a ≠ Kind.NUMBER)
    (hr : kind a ≠ Kind.RUNTIME) (h : a.implicitly b = true) : a.explicitly b = true := by
  cases a <;> simp [kind] at hn hr <;> simp [explicitly, h]

theorem number_of_mutual_implicitly (a b : Ty) (ha : kind a = Kind.NUMBER)
    (hb : kind b ≠ Kind.RUNTIME) (hne : a ≠ b)
    (hab : a.implicitly b = true) (hba : b.implicitly a = true) : kind b = Kind.NUMBER := by
  cases a <;> simp [kind] at ha
  rename_i s f
  cases b <;> simp [kind] at hb ⊢ <;>
    simp_all [implicitly, baseImplicitly, ANY, kind]

theorem explicitly_number (a b : Ty) (ha : kind a = Kind.NUMBER) (hb : kind b = Kind.NUMBER) :
    a.explicitly b = true := by
  cases a <;> simp [kind] at ha
  simp [explicitly, hb]

theorem explicitly_of_mutual_implicitly (a b : Ty) (ha : kind a ≠ Kind.RUNTIME)
    (hb : kind b ≠ Kind.RUNTIME) (hne : a ≠ b)
    (hab : a.implicitly b = true) (hba : b.implicitly a = true) :
    a.explicitly b = true ∧ b.explicitly a = true := by
  by_cases hna : kind a = Kind.NUMBER
  · have hnb := number_of_mutual_implicitly a b hna hb hne hab hba
    exact ⟨explicitly_number a b hna hnb, explicitly_number b a hnb hna⟩
  · by_cases hnb : kind b = Kind.NUMBER
    · have := number_of_mutual_implicitly b a hnb ha (Ne.symm hne) hba hab
      exact absurd this hna
    · exact ⟨explicitly_of_implicitly a b hna ha hab, explicitly_of_implicitly b a hnb hb hba⟩

end Ty


/-- C1. The number type `INT` converts implicitly to `ANY` and to its own
runtime wrapper, yet `NumberType::explicitly` answers false for both: the
override tests the kind of the target only and, unlike its siblings, never
consults `implicitly`. -/
theorem number_implicitly_not_explicitly :
    INT.implicitly ANY = true ∧ INT.explicitly ANY = false ∧
    INT.implicitly (Ty.runtime INT) = true ∧ INT.explicitly (Ty.runtime INT) = false ∧
    (Ty.runtime INT).implicitly ANY = true ∧ (Ty.runtime INT).explicitly ANY = false := by
  decide

/-- C2. `join a b` is null exactly when `join b a` is null, and two non-null
results are the same type or convert explicitly to each other. -/
theorem join_comm_equiv (a b : Ty) :
    (join a b = none ↔ join b a = none) ∧
    ∀ x y, join a b = some x → join b a = some y →
      x = y ∨ (x.explicitly y = true ∧ y.explicitly x = true) := by
  by_cases hU : a = UNDEFINED ∨ b = UNDEFINED
  · have hU2 : b = UNDEFINED ∨ a = UNDEFINED := hU.symm
    simp only [join, if_pos hU, if_pos hU2]
    simp
  · have hU2 : ¬ (b = UNDEFINED ∨ a = UNDEFINED) := fun h => hU h.symm
    by_cases hab : a = b
    · subst hab
      simp [join]
      intro x y hx hy
      left
      split_ifs at hx hy <;> simp_all
    · have hba : ¬ b = a := fun h => hab h.symm
      simp only [join, if_neg hU, if_neg hU2, if_neg hab, if_neg hba]
      by_cases ra : kind a = Kind.RUNTIME <;> by_cases rb : kind b = Kind.RUNTIME <;>
        by_cases iab : a.implicitly b = true <;> by_cases iba : b.implicitly a = true <;>
        by_cases eab : a.explicitly b = true <;> by_cases eba : b.explicitly a = true <;>
        simp [ra, rb, iab, iba, eab, eba]
      all_goals first
        | exact (Ty.runtime_mutual_implicitly a b ra rb iab iba).symm
        | exact absurd (Ty.explicitly_of_mutual_implicitly a b ra rb hab iab iba).1 eab
        | exact absurd (Ty.explicitly_of_mutual_implicitly a b ra rb hab iab iba).2 eba


/-- C3. `join a a` is `a`, for every type `a`, `UNDEFINED` and runtime types
included. -/
theorem join_self (a : Ty) : join a a = some a := by
  by_cases h : a = UNDEFINED
  · simp [join, h]
  · simp [join, h]

/-! ## Association maps -/

theorem mapFind_mapAssign_same {κ ν : Type} [DecidableEq κ] (m : List (κ × ν)) (k : κ) (v : ν) :
    mapFind (mapAssign m k v) k = some v := by
  induction m with
  | nil => simp [mapAssign, mapFind]
  | cons e rest ih =>
      obtain ⟨k2, v2⟩ := e
      by_cases h : k2 = k
      · simp [mapAssign, mapFind, h]
      · simp [mapAssign, mapFind, h, ih]

theorem mapFind_mapAssign_other {κ ν : Type} [DecidableEq κ] (m : List (κ × ν)) (k k3 : κ) (v : ν)
    (h : k3 ≠ k) : mapFind (mapAssign m k v) k3 = mapFind m k3 := by
  induction m with
  | nil => simp [mapAssign, mapFind, h.symm]
  | cons e rest ih =>
      obtain ⟨k2, v2⟩ := e
      by_cases h2 : k2 = k
      · subst h2
        simp [mapAssign, mapFind, h.symm]
      · by_cases h3 : k2 = k3
        · subst h3
          simp [mapAssign, mapFind, h2]
        · simp [mapAssign, mapFind, h2, h3, ih]

theorem not_mem_keys_of_mapFind_none {κ ν : Type} [DecidableEq κ] (m : List (κ × ν)) (k : κ)
    (h : mapFind m k = none) : k ∉ m.map Prod.fst := by
  induction m with
  | nil => simp
  | cons e rest ih =>
      obtain ⟨k2, v2⟩ := e
      by_cases h2 : k2 = k
      · simp [mapFind, h2] at h
      · simp [mapFind, h2] at h
        simp only [List.map_cons, List.mem_cons, not_or]
        exact ⟨fun e => h2 e.symm, ih h⟩

theorem mapAssign_of_mapFind_none {κ ν : Type} [DecidableEq κ] (m : List (κ × ν)) (k : κ) (v : ν)
    (h : mapFind m k = none) : mapAssign m k v = m ++ [(k, v)] := by
  induction m with
  | nil => simp [mapAssign]
  | cons e rest ih =>
      obtain ⟨k2, v2⟩ := e
      by_cases h2 : k2 = k
      · simp [mapFind, h2] at h
      · simp [mapFind, h2] at h
        simp [mapAssign, h2, ih h]

theorem mapFind_append {κ ν : Type} [DecidableEq κ] (a b : List (κ × ν)) (k : κ) :
    mapFind (a ++ b) k = (mapFind a k).orElse (fun _ => mapFind b k) := by
  induction a with
  | nil => simp [mapFind]
  | cons e rest ih =>
      obtain ⟨k2, v2⟩ := e
      by_cases h : k2 = k
      · simp [mapFind, h]
      · simp [mapFind, h, ih]

theorem mem_of_mapFind {κ ν : Type} [DecidableEq κ] (m : List (κ × ν)) (k : κ) (v : ν)
    (h : mapFind m k = some v) : (k, v) ∈ m := by
  induction m with
  | nil => simp [mapFind] at h
  | cons e rest ih =>
      obtain ⟨k2, v2⟩ := e
      by_cases h2 : k2 = k
      · simp [mapFind, h2] at h
        simp [h2, h]
      · simp [mapFind, h2] at h
        exact List.mem_cons_of_mem _ (ih h)

theorem mapFind_of_mem_nodup {κ ν : Type} [DecidableEq κ] (m : List (κ × ν)) (k : κ) (v : ν)
    (hn : (m.map Prod.fst).Nodup) (h : (k, v) ∈ m) : mapFind m k = some v := by
  induction m with
  | nil => simp at h
  | cons e rest ih =>
      obtain ⟨k2, v2⟩ := e
      simp only [List.map_cons, List.nodup_cons] at hn
      rcases List.mem_cons.mp h with h1 | h1
      · cases h1
        simp [mapFind]
      · have hk : k2 ≠ k := by
          intro e
          subst e
          exact hn.1 (List.mem_map.mpr ⟨_, h1, rfl⟩)
        simp [mapFind, hk, ih hn.2 h1]

/-! ## Interning -/

theorem find_lookup_preserved (t : Ty) (tm : TypeMap) (k : String) (v : Nat)
    (h : mapFind tm.typemap k = some v) : mapFind (find t tm).2.typemap k = some v := by
  unfold find
  cases hl : mapFind tm.typemap t.mangle with
  | some t2 => simpa using h
  | none =>
      have hk : k ≠ t.mangle := by
        intro e; rw [e, hl] at h; cases h
      simp only
      rw [mapFind_mapAssign_other _ _ _ _ hk]
      exact h

theorem findSteps_lookup_preserved {tm tm2 : TypeMap} (hs : FindSteps tm tm2) (k : String) (v : Nat)
    (h : mapFind tm.typemap k = some v) : mapFind tm2.typemap k = some v := by
  induction hs with
  | refl => exact h
  | step tm3 t _ ih => exact find_lookup_preserved t tm3 k v ih

theorem find_lookup_result (t : Ty) (tm : TypeMap) :
    mapFind (find t tm).2.typemap t.mangle = some (find t tm).1 := by
  unfold find
  cases hl : mapFind tm.typemap t.mangle with
  | some t2 => simpa using hl
  | none => simpa using mapFind_mapAssign_same tm.typemap t.mangle tm.next

theorem find_of_lookup (t : Ty) (v : Nat) (tm : TypeMap)
    (h : mapFind tm.typemap t.mangle = some v) : find t tm = (v, tm) := by
  simp [find, h]

theorem find_wellFormed (t : Ty) (tm : TypeMap) (h : WellFormedTypeMap tm) :
    WellFormedTypeMap (find t tm).2 := by
  unfold find
  cases hl : mapFind tm.typemap t.mangle with
  | some t2 => simpa using h
  | none =>
      obtain ⟨h1, h2, h3, h4, h5⟩ := h
      simp only
      rw [mapAssign_of_mapFind_none _ _ _ hl]
      refine ⟨?_, ?_, ?_, ?_, ?_⟩
      · rw [List.map_append, List.nodup_append]
        refine ⟨h1, by simp, ?_⟩
        intro a ha hb
        simp at hb
        subst hb
        exact not_mem_keys_of_mapFind_none tm.typemap _ hl ha
      · rw [List.map_append, List.nodup_append]
        refine ⟨h2, by simp, ?_⟩
        intro a ha hb
        simp at hb
        subst hb
        obtain ⟨b, hb1, hb2⟩ := List.mem_map.mp ha
        have := h5 b hb1
        omega
      · simp [h3]
      · simp [h4]
      · intro b hb
        rw [List.mem_append] at hb
        rcases hb with hb | hb
        · have := h5 b hb
          show b.2 < tm.next + 1
          omega
        · simp at hb
          subst hb
          show tm.next < tm.next + 1
          omega

theorem reachable_wellFormed {tm : TypeMap} (h : ReachableTypeMap tm) : WellFormedTypeMap tm := by
  unfold ReachableTypeMap at h
  generalize hnil : TypeMap.empty = s at h
  induction h with
  | refl =>
      subst hnil
      exact ⟨by simp [TypeMap.empty], by simp [TypeMap.empty], by simp [TypeMap.empty],
        by simp [TypeMap.empty], by simp [TypeMap.empty]⟩
  | step tm3 t _ ih => exact find_wellFormed t tm3 ih

theorem wellFormed_object (tm : TypeMap) (hw : WellFormedTypeMap tm) :
    ∀ (k : String) (handle : Nat), (k, handle) ∈ tm.typemap →
      ∃ t, (handle, t) ∈ tm.objects ∧ t.mangle = k := by
  obtain ⟨_, _, h3, h4, _⟩ := hw
  generalize tm.objects = os at h3 h4
  generalize tm.typemap = bs at h3 h4
  induction bs generalizing os with
  | nil => intro k handle h; simp at h
  | cons b rest ih =>
      intro k handle h
      cases os with
      | nil => simp at h3
      | cons o os2 =>
          simp only [List.map_cons, List.cons.injEq] at h3 h4
          rcases List.mem_cons.mp h with h1 | h1
          · refine ⟨o.2, ?_, ?_⟩
            · have : o = (handle, o.2) := by
                rw [← h1] at h3
                exact Prod.ext h3.1 rfl
              rw [← this]
              exact List.mem_cons_self _ _
            · rw [h4.1, ← h1]
          · obtain ⟨t, ht1, ht2⟩ := ih os2 h3.2 h4.2 k handle h1
            exact ⟨t, List.mem_cons_of_mem _ ht1, ht2⟩

theorem wellFormed_lookup_object (tm : TypeMap) (hw : WellFormedTypeMap tm) (k : String)
    (handle : Nat) (h : mapFind tm.typemap k = some handle) :
    ∃ t, tm.object handle = some t ∧ t.mangle = k := by
  obtain ⟨t, ht1, ht2⟩ := wellFormed_object tm hw k handle (mem_of_mapFind _ _ _ h)
  refine ⟨t, ?_, ht2⟩
  exact mapFind_of_mem_nodup tm.objects handle t (by rw [hw.2.2.1]; exact hw.2.1) ht1

theorem wellFormed_handle_key (tm : TypeMap) (hw : WellFormedTypeMap tm) (k1 k2 : String)
    (handle : Nat) (h1 : mapFind tm.typemap k1 = some handle)
    (h2 : mapFind tm.typemap k2 = some handle) : k1 = k2 := by
  have m1 := mem_of_mapFind _ _ _ h1
  have m2 := mem_of_mapFind _ _ _ h2
  have := List.inj_on_of_nodup_map hw.2.1 m1 m2 rfl
  exact (Prod.mk.inj this).1

theorem find_object_preserved (t : Ty) (tm : TypeMap) (handle : Nat) (u : Ty)
    (h : tm.object handle = some u) : (find t tm).2.object handle = some u := by
  unfold find
  cases hl : mapFind tm.typemap t.mangle with
  | some t2 => simpa using h
  | none =>
      simp only [TypeMap.object] at h ⊢
      rw [mapFind_append, h]
      rfl

theorem find_fresh (t : Ty) (tm : TypeMap) (hw : WellFormedTypeMap tm)
    (hl : mapFind tm.typemap t.mangle = none) :
    (find t tm).1 = tm.next ∧
    (∀ (k : String) (handle : Nat), mapFind tm.typemap k = some handle → handle ≠ (find t tm).1) ∧
    (find t tm).2.object (find t tm).1 = some t := by
  have hf : find t tm = (tm.next,
      { objects := tm.objects ++ [(tm.next, t)], next := tm.next + 1,
        typemap := mapAssign tm.typemap t.mangle tm.next }) := by
    simp [find, hl]
  rw [hf]
  refine ⟨rfl, ?_, ?_⟩
  · intro k handle h e
    have := hw.2.2.2.2 (k, handle) (mem_of_mapFind _ _ _ h)
    simp only at e this
    omega
  · simp only [TypeMap.object]
    rw [mapFind_append]
    have hnone : mapFind tm.objects tm.next = none := by
      cases ho : mapFind tm.objects tm.next with
      | none => rfl
      | some u =>
          exfalso
          have hm : tm.next ∈ tm.objects.map Prod.fst :=
            List.mem_map.mpr ⟨_, mem_of_mapFind _ _ _ ho, rfl⟩
          rw [hw.2.2.1] at hm
          obtain ⟨b, hb1, hb2⟩ := List.mem_map.mp hm
          have := hw.2.2.2.2 b hb1
          omega
    rw [hnone]
    simp [mapFind]

/-- C4. In every reachable state of the intern table at most one type is stored
per mangle: the keys are distinct, every bound handle is the address of a live
object whose mangle is the key, and no handle is bound under two mangles.  A
call of `find` never replaces a binding nor the object it points to; when the
mangle is not bound yet it returns the address of the new object, which differs
from every handle bound before; and repeating `find` with the same constructor
arguments in any later state returns the same handle and leaves the table as it
is. -/
theorem find_interning (tm : TypeMap) (h : ReachableTypeMap tm) :
    (tm.typemap.map Prod.fst).Nodup ∧
    (∀ (k : String) (handle : Nat), mapFind tm.typemap k = some handle →
        ∃ t, tm.object handle = some t ∧ t.mangle = k) ∧
    (∀ (k1 k2 : String) (handle : Nat), mapFind tm.typemap k1 = some handle →
        mapFind tm.typemap k2 = some handle → k1 = k2) ∧
    (∀ (t : Ty) (k : String) (handle : Nat) (u : Ty), mapFind tm.typemap k = some handle →
        tm.object handle = some u →
        mapFind (find t tm).2.typemap k = some handle ∧ (find t tm).2.object handle = some u) ∧
    (∀ (t : Ty), mapFind tm.typemap t.mangle = none →
        (find t tm).1 = tm.next ∧
        (∀ (k : String) (handle : Nat), mapFind tm.typemap k = some handle →
          handle ≠ (find t tm).1) ∧
        (find t tm).2.object (find t tm).1 = some t) ∧
    (∀ (t : Ty) (tm2 : TypeMap), FindSteps (find t tm).2 tm2 →
        find t tm2 = ((find t tm).1, tm2)) := by
  have hw := reachable_wellFormed h
  refine ⟨hw.1, ?_, ?_, ?_, ?_, ?_⟩
  · intro k handle hl
    exact wellFormed_lookup_object tm hw k handle hl
  · intro k1 k2 handle h1 h2
    exact wellFormed_handle_key tm hw k1 k2 handle h1 h2
  · intro t k handle u hl ho
    exact ⟨find_lookup_preserved t tm k handle hl, find_object_preserved t tm handle u ho⟩
  · intro t hl
    exact find_fresh t tm hw hl
  · intro t tm2 hs
    exact find_of_lookup t _ tm2 (findSteps_lookup_preserved hs _ _ (find_lookup_result t tm))

/-- Witness of C4: in the table that holds `INT`, interning `FLOAT`, then `INT`
again, then `FLOAT` again returns the handle of the first `FLOAT`, which is not
the handle of `INT`. -/
theorem find_interning_witness :
    ReachableTypeMap (find INT TypeMap.empty).2 ∧
    find FLOAT (find INT (find FLOAT (find INT TypeMap.empty).2).2).2 =
      ((find FLOAT (find INT TypeMap.empty).2).1,
        (find INT (find FLOAT (find INT TypeMap.empty).2).2).2) ∧
    (find FLOAT (find INT TypeMap.empty).2).1 ≠ (find INT TypeMap.empty).1 :=
  ⟨FindSteps.step _ _ INT (FindSteps.refl _),
   (find_interning (find INT TypeMap.empty).2
      (FindSteps.step _ _ INT (FindSteps.refl _))).2.2.2.2.2 FLOAT _
     (FindSteps.step _ _ INT (FindSteps.refl _)),
   by decide⟩

/-! ## Arithmetic on metas -/

theorem wrapSigned_64_range (z : Int) :
    -9223372036854775808 ≤ wrapSigned 64 z ∧ wrapSigned 64 z < 9223372036854775808 := by
  unfold wrapSigned
  norm_num
  omega

theorem wrapSigned_64_of_range (z : Int) (h1 : -9223372036854775808 ≤ z)
    (h2 : z < 9223372036854775808) : wrapSigned 64 z = z := by
  unfold wrapSigned
  norm_num
  omega

theorem trunc_number (s : Nat) (hs : s = 1 ∨ s = 2 ∨ s = 4 ∨ s = 8) (r : Int)
    (h1 : -9223372036854775808 ≤ r) (h2 : r < 9223372036854775808) :
    trunc r (Ty.number s false) = wrapSigned (8 * s) r := by
  rcases hs with h | h | h | h <;> subst h <;> simp [trunc, Ty.size]
  exact (wrapSigned_64_of_range r h1 h2).symm

theorem join_number_self (s : Nat) (f : Bool) :
    join (Ty.number s f) (Ty.number s f) = some (Ty.number s f) := by
  simp [join, UNDEFINED]

/-- C5. For an integer number type `t` of 1, 2, 4 or 8 bytes and a 64-bit
integer `r`, `trunc r t` is `r` reduced modulo two to the number of bits of `t`
and read as a signed value; `add`, `sub` and `mul` of two integer metas of type
`t` store the 64-bit wrapped result reduced the same way. -/
theorem trunc_arith (s : Nat) (hs : s = 1 ∨ s = 2 ∨ s = 4 ∨ s = 8) (r x y : Int)
    (h1 : -9223372036854775808 ≤ r) (h2 : r < 9223372036854775808) :
    trunc r (Ty.number s false) = wrapSigned (8 * s) r ∧
    add (Meta.mk (some (Ty.number s false)) (Value.i x))
        (Meta.mk (some (Ty.number s false)) (Value.i y)) =
      some (Meta.mk (some (Ty.number s false))
        (Value.i (wrapSigned (8 * s) (wrapSigned 64 (x + y))))) ∧
    sub (Meta.mk (some (Ty.number s false)) (Value.i x))
        (Meta.mk (some (Ty.number s false)) (Value.i y)) =
      some (Meta.mk (some (Ty.number s false))
        (Value.i (wrapSigned (8 * s) (wrapSigned 64 (x - y))))) ∧
    mul (Meta.mk (some (Ty.number s false)) (Value.i x))
        (Meta.mk (some (Ty.number s false)) (Value.i y)) =
      some (Meta.mk (some (Ty.number s false))
        (Value.i (wrapSigned (8 * s) (wrapSigned 64 (x * y))))) := by
  refine ⟨trunc_number s hs r h1 h2, ?_, ?_, ?_⟩
  · have ht := trunc_number s hs (wrapSigned 64 (x + y)) (wrapSigned_64_range _).1
      (wrapSigned_64_range _).2
    simp [add, intOp, Meta.present, Meta.type, join_number_self, isRuntime, isFloat, isNumber,
      Ty.kind, toInt, Meta.isInt, Meta.asInt, Meta.value, ht]
  · have ht := trunc_number s hs (wrapSigned 64 (x - y)) (wrapSigned_64_range _).1
      (wrapSigned_64_range _).2
    simp [sub, intOp, Meta.present, Meta.type, join_number_self, isFloat, isNumber, Ty.kind,
      toInt, Meta.isInt, Meta.asInt, Meta.value, ht]
  · have ht := trunc_number s hs (wrapSigned 64 (x * y)) (wrapSigned_64_range _).1
      (wrapSigned_64_range _).2
    simp [mul, intOp, Meta.present, Meta.type, join_number_self, isFloat, isNumber, Ty.kind,
      toInt, Meta.isInt, Meta.asInt, Meta.value, ht]

/-- Witness of C5: one-byte integers, where 100 + 100 is stored as −56. -/
theorem trunc_arith_witness :
    trunc 300 (Ty.number 1 false) = wrapSigned (8 * 1) 300 ∧
    add (Meta.mk (some (Ty.number 1 false)) (Value.i 100))
        (Meta.mk (some (Ty.number 1 false)) (Value.i 100)) =
      some (Meta.mk (some (Ty.number 1 false))
        (Value.i (wrapSigned (8 * 1) (wrapSigned 64 (100 + 100))))) :=
  ⟨(trunc_arith 1 (Or.inl rfl) 300 100 100 (by decide) (by decide)).1,
   (trunc_arith 1 (Or.inl rfl) 300 100 100 (by decide) (by decide)).2.1⟩

/-- C10. When `join` of the operand types is a runtime type `dst` and one of
the two present operands is the unbound placeholder, `add` returns the unbound
placeholder of type `dst`. -/
theorem add_unbound (l r : Meta) (lt rt dst : Ty) (hl : l.type = some lt) (hr : r.type = some rt)
    (hj : join lt rt = some dst) (hd : isRuntime dst = true) (hn : null l = true ∨ null r = true) :
    add l r = some (unbound dst) := by
  have hn2 : (null l || null r) = true := by
    rcases hn with h | h <;> simp [h]
  simp [add, Meta.present, hl, hr, hj, hd, hn2, unbound]

/-- Witness of C10: the placeholder of `(runtime i64)` plus the integer 1. -/
theorem add_unbound_witness :
    null (unbound (Ty.runtime INT)) = true ∧
    add (unbound (Ty.runtime INT)) (Meta.mk (some INT) (Value.i 1)) =
      some (unbound (Ty.runtime INT)) :=
  ⟨by decide,
   add_unbound (unbound (Ty.runtime INT)) (Meta.mk (some INT) (Value.i 1)) (Ty.runtime INT) INT
     (Ty.runtime INT) rfl rfl (by decide) (by decide) (Or.inl (by decide))⟩

/-! ## End-to-end scenarios -/

/-- Counterexample to C7: elaborating `(let sq [x] (* x x))` from the root
environment reports errors, for the synthetic head `array` of the bracket form
is bound nowhere; the node that comes back holds a null argument node, and
evaluating it dereferences that null pointer. -/
theorem let_sq_bracket_reports_errors :
    (Term.eval 10 letSqBracket globalEnv State.start).state?.map
        (fun st => st.errors.map Error.message) =
      some ["[TYPE ERROR] Undefined variable 'array'.",
            "[TYPE ERROR] First term in block is not a type or function."] ∧
    (runTerm 10 letSqBracket State.start).crashed = true := by
  decide

/-- C7, amended. From the root environment, elaborating `(let sq [x] (* x x))`
reports `Undefined variable 'array'.`; with the argument declared as `(int x)`
and the function declared with its return type, `(int sq (int x) (* x x))`
followed by `(sq 7)` reports no error, binds `sq` to a function of type
`(function i64 -> i64)` and the call evaluates to the `INT` meta 49. -/
theorem sq_scenario :
    ((Term.eval 10 letSqBracket globalEnv State.start).state?.bind
        (fun st => st.errors.head?)).map Error.message =
      some "[TYPE ERROR] Undefined variable 'array'." ∧
    (runTerms 10 [intSqTyped, sqSeven] State.start).state?.map State.countErrors = some 0 ∧
    (runTerms 10 [intSqTyped, sqSeven] State.start).val?.map (List.map Meta.type) =
      some [some (Ty.function [INT] INT), some INT] ∧
    ((runTerms 10 [intSqTyped, sqSeven] State.start).val?.bind List.getLast?).map Meta.asInt =
      some 49 ∧
    ((runTerms 10 [intSqTyped] State.start).state?.bind
        (fun st => st.lookup globalEnv "sq")).map Meta.type =
      some (some (Ty.function [INT] INT)) ∧
    (Ty.function [INT] INT).format = "(function i64 -> i64)" := by
  decide

/-- Counterexample to C8: `(let int y)` from the root environment reports
`No variable names provided in definition.`, since `int` is bound already, and
`y` stays unbound. -/
theorem let_int_y_reports_error :
    (runTerm 10 letIntY State.start).state?.map (fun st => st.errors.map Error.message) =
      some ["[TYPE ERROR] No variable names provided in definition."] ∧
    ((runTerm 10 letIntY State.start).state?.bind (fun st => st.lookup globalEnv "y")).isNone
      = true := by
  decide

/-- C8, amended. From the root environment `(let int y)` reports
`No variable names provided in definition.`; the declaration `(int y)` reports
no error and binds `y` to the unbound placeholder of type `(runtime i64)`, and
a subsequent `(+ y 1)` evaluates, without error, to the unbound placeholder of
type `(runtime i64)`. -/
theorem int_y_scenario :
    ((runTerm 10 letIntY State.start).state?.bind (fun st => st.errors.head?)).map Error.message =
      some "[TYPE ERROR] No variable names provided in definition." ∧
    (runTerms 10 [intY, plusYOne] State.start).state?.map State.countErrors = some 0 ∧
    (runTerms 10 [intY, plusYOne] State.start).val?.map (List.map Meta.type) =
      some [some (Ty.runtime INT), some (Ty.runtime INT)] ∧
    (runTerms 10 [intY, plusYOne] State.start).val?.map (List.map null) = some [true, true] ∧
    ((runTerms 10 [intY] State.start).state?.bind (fun st => st.lookup globalEnv "y")).map
        (fun m => (m.type, null m)) = some (some (Ty.runtime INT), true) ∧
    (Ty.runtime INT).format = "(runtime i64)" := by
  decide

/-! ## Definitions without initializer -/

theorem Meta.mk_type_value (m : Meta) : Meta.mk m.type m.value = m := by
  cases m; rfl

theorem Meta.copyOnto_eq (prev : Value) (m : Meta) :
    Meta.copyOnto prev m = if m.carried then m else Meta.mk m.type prev := by
  unfold Meta.copyOnto Meta.carried Meta.counted
  rw [Meta.mk_type_value]
  cases m.present <;> cases m.isVoid <;> simp
  cases m.isInt <;> simp
  cases m.isFloat <;> simp
  cases m.isType <;> simp
  cases m.isBool <;> simp
  cases m.isSymbol <;> simp
  cases m.isString <;> simp
  cases m.isArray <;> simp
  cases m.isUnion <;> simp
  cases m.isIntersect <;> simp
  cases m.isFunction <;> simp

theorem Meta.copy_of_carried (m : Meta) (h : m.carried = true) : m.copy = m := by
  simp [Meta.copy, Meta.copyOnto_eq, h]

theorem Meta.counted_exclusive (m : Meta) (h : m.counted = true) :
    m.isInt = false ∧ m.isFloat = false ∧ m.isType = false ∧ m.isBool = false ∧
    m.isSymbol = false := by
  obtain ⟨t, v⟩ := m
  cases t with
  | none => simp [Meta.counted, Meta.isString, Meta.isArray, Meta.isUnion, Meta.isIntersect,
      Meta.isFunction, Meta.type] at h
  | some t =>
      cases t <;>
        simp_all [Meta.counted, Meta.isString, Meta.isArray, Meta.isUnion, Meta.isIntersect,
          Meta.isFunction, Meta.type, Meta.isInt, Meta.isFloat, Meta.isType, Meta.isBool,
          Meta.isSymbol, Ty.kind, STRING, TYPE, BOOL, SYMBOL]

theorem Meta.assign_eq (old m : Meta) :
    old.assign m =
      if !old.present then some (Meta.copyOnto old.value m)
      else if m.carried then
        (if m.counted && !old.value.releasable then none else some m)
      else some (Meta.mk m.type Value.zero) := by
  by_cases hc : m.counted = true
  · obtain ⟨h1, h2, h3, h4, h5⟩ := Meta.counted_exclusive m hc
    have hc2 := hc
    unfold Meta.counted at hc2
    unfold Meta.assign Meta.carried
    rw [Meta.mk_type_value, h1, h2, h3, h4, h5, hc, hc2]
    cases old.present <;> simp
    cases m.present <;> cases m.isVoid <;> simp
    cases old.value.releasable <;> simp
  · have hc3 : m.counted = false := by simpa using hc
    have hc2 := hc3
    unfold Meta.counted at hc2
    unfold Meta.assign Meta.carried
    rw [Meta.mk_type_value, hc3, hc2]
    cases old.present <;> simp
    cases m.present <;> cases m.isVoid <;> simp
    cases m.isInt <;> simp
    cases m.isFloat <;> simp
    cases m.isType <;> simp
    cases m.isBool <;> simp
    cases m.isSymbol <;> simp

theorem Meta.assign_of_carried (old m : Meta) (h : m.carried = true)
    (hr : m.counted = true → old.present = true → old.value.releasable = true) :
    old.assign m = some m := by
  rw [Meta.assign_eq, Meta.copyOnto_eq, h]
  cases hp : old.present with
  | false => simp
  | true =>
      cases hc : m.counted with
      | false => simp
      | true => simp [hr hc hp]

theorem Meta.assign_carried_some (old m stored : Meta) (h : m.carried = true)
    (ha : old.assign m = some stored) : stored = m := by
  rw [Meta.assign_eq, Meta.copyOnto_eq, h] at ha
  cases hp : old.present with
  | false => simpa [hp] using ha.symm
  | true =>
      simp only [hp, Bool.not_true, Bool.false_eq_true, if_false, if_true] at ha
      split_ifs at ha
      exact (Option.some.inj ha).symm

theorem unbound_carried (t : Ty) :
    (unbound (Ty.runtime t)).carried = true ∧ (unbound (Ty.runtime t)).counted = false := by
  simp [unbound, Meta.carried, Meta.counted, Meta.present, Meta.type, Meta.isVoid, Meta.isRuntime,
    Meta.isString, Meta.isArray, Meta.isUnion, Meta.isIntersect, Meta.isFunction, Ty.kind, VOID,
    STRING]

theorem int_carried (v : Int) :
    (Meta.mk (some INT) (Value.i v)).carried = true ∧
    (Meta.mk (some INT) (Value.i v)).counted = false := by
  simp [Meta.carried, Meta.counted, Meta.present, Meta.type, Meta.isVoid, Meta.isInt,
    Meta.isString, Meta.isArray, Meta.isUnion, Meta.isIntersect, Meta.isFunction, Ty.kind, VOID,
    STRING, INT]

theorem Env.enter_new (e : Env) (name : String) (m : Meta) (h : mapFind e.entries name = none) :
    e.enter name m =
      some { e with entries := e.entries ++ [(name, m.copy)],
                    entryOrder := e.entryOrder ++ [name] } := by
  simp [Env.enter, h, mapAssign_of_mapFind_none _ _ _ h]

theorem Env.enter_old (e : Env) (name : String) (m old : Meta)
    (h : mapFind e.entries name = some old) :
    e.enter name m =
      (old.assign m).map (fun stored => { e with entries := mapAssign e.entries name stored }) := by
  simp [Env.enter, h]

theorem Env.enter_carried (e : Env) (name : String) (m : Meta) (hc : m.carried = true)
    (hr : m.counted = true → ∀ old, mapFind e.entries name = some old → old.present = true →
      old.value.releasable = true) :
    ∃ e2, e.enter name m = some e2 ∧ e2.entries = mapAssign e.entries name m ∧
      e2.parent = e.parent ∧
      e2.entryOrder =
        (if (mapFind e.entries name).isSome then e.entryOrder else e.entryOrder ++ [name]) := by
  cases h : mapFind e.entries name with
  | none =>
      refine ⟨_, Env.enter_new e name m h, ?_, rfl, by simp⟩
      simp [Meta.copy_of_carried m hc, mapAssign_of_mapFind_none _ _ _ h]
  | some old =>
      rw [Env.enter_old e name m old h,
        Meta.assign_of_carried old m hc (fun hcount hp => hr hcount old h hp)]
      exact ⟨_, rfl, rfl, rfl, by simp⟩

theorem Env.mapFind_enter_same (e e2 : Env) (name : String) (m : Meta) (hc : m.carried = true)
    (h : e.enter name m = some e2) : mapFind e2.entries name = some m := by
  cases hf : mapFind e.entries name with
  | none =>
      rw [Env.enter_new e name m hf] at h
      cases h
      simp [mapFind_append, hf, mapFind, Meta.copy_of_carried m hc]
  | some old =>
      rw [Env.enter_old e name m old hf] at h
      cases ha : old.assign m with
      | none => rw [ha] at h; cases h
      | some stored =>
          rw [ha] at h
          cases h
          rw [Meta.assign_carried_some old m stored hc ha]
          exact mapFind_mapAssign_same _ _ _

theorem Env.mapFind_enter_other (e e2 : Env) (name k : String) (m : Meta) (hk : k ≠ name)
    (h : e.enter name m = some e2) : mapFind e2.entries k = mapFind e.entries k := by
  cases hf : mapFind e.entries name with
  | none =>
      rw [Env.enter_new e name m hf] at h
      cases h
      rw [← mapAssign_of_mapFind_none _ _ _ hf]
      exact mapFind_mapAssign_other _ _ _ _ hk
  | some old =>
      rw [Env.enter_old e name m old hf] at h
      cases ha : old.assign m with
      | none => rw [ha] at h; cases h
      | some stored =>
          rw [ha] at h
          cases h
          exact mapFind_mapAssign_other _ _ _ _ hk

theorem Meta.copyOnto_type (prev : Value) (m : Meta) : (Meta.copyOnto prev m).type = m.type := by
  rw [Meta.copyOnto_eq]
  split_ifs <;> rfl

theorem Meta.assign_type (old m stored : Meta) (h : old.assign m = some stored) :
    stored.type = m.type := by
  rw [Meta.assign_eq] at h
  split_ifs at h
  · rw [← Option.some.inj h]; exact Meta.copyOnto_type _ _
  · rw [← Option.some.inj h]
  · rw [← Option.some.inj h]; rfl

theorem Env.enter_stored (e e2 : Env) (name : String) (m : Meta)
    (he : e.enter name m = some e2) :
    ∃ stored, mapFind e2.entries name = some stored ∧ stored.type = m.type ∧
      (m.carried = true → stored = m) := by
  cases hf : mapFind e.entries name with
  | none =>
      rw [Env.enter_new e name m hf] at he
      cases he
      refine ⟨m.copy, by simp [mapFind_append, hf, mapFind], Meta.copyOnto_type _ _, ?_⟩
      exact fun hc => Meta.copy_of_carried m hc
  | some old =>
      rw [Env.enter_old e name m old hf] at he
      cases ha : old.assign m with
      | none => rw [ha] at he; cases he
      | some stored =>
          rw [ha] at he
          cases he
          exact ⟨stored, mapFind_mapAssign_same _ _ _, Meta.assign_type old m stored ha,
            fun hc => Meta.assign_carried_some old m stored hc ha⟩

theorem State.env_lt (st : State) (addr : Nat) (e : Env) (h : st.env addr = some e) :
    addr < st.envs.length := by
  unfold State.env at h
  by_contra hc
  rw [List.getElem?_eq_none (by omega)] at h
  cases h

theorem State.enter_spec (st : State) (addr : Nat) (name : String) (m : Meta) (e e2 : Env)
    (h : st.env addr = some e) (he : e.enter name m = some e2) :
    ∃ st2, st.enter addr name m = some st2 ∧ st2 = { st with envs := st.envs.set addr e2 } ∧
      st2.env addr = some e2 := by
  refine ⟨{ st with envs := st.envs.set addr e2 }, ?_, rfl, ?_⟩
  · simp [State.enter, h, he]
  · have hlt := State.env_lt st addr e h
    simp [State.env, hlt]

theorem mapFind_mapAssign_cases {κ ν : Type} [DecidableEq κ] (m : List (κ × ν)) (k k2 : κ)
    (v old : ν) (h : mapFind (mapAssign m k v) k2 = some old) :
    (k2 = k ∧ old = v) ∨ (k2 ≠ k ∧ mapFind m k2 = some old) := by
  by_cases hk : k2 = k
  · subst hk
    rw [mapFind_mapAssign_same] at h
    exact Or.inl ⟨rfl, (Option.some.inj h).symm⟩
  · rw [mapFind_mapAssign_other _ _ _ _ hk] at h
    exact Or.inr ⟨hk, h⟩

theorem State.enterAll_spec (names : List String) (m : Meta) (hc : m.carried = true)
    (hself : m.counted = true → m.value.releasable = true) :
    ∀ (st : State) (addr : Nat) (e : Env), st.env addr = some e →
      (m.counted = true → ∀ name ∈ names, ∀ old, mapFind e.entries name = some old →
        old.present = true → old.value.releasable = true) →
      ∃ st2 e2, st.enterAll addr names m = some st2 ∧ st2.env addr = some e2 ∧
        (∀ k, mapFind e.entries k = some m → mapFind e2.entries k = some m) ∧
        (∀ name ∈ names, mapFind e2.entries name = some m) := by
  induction names with
  | nil =>
      intro st addr e h _
      exact ⟨st, e, by simp [State.enterAll], h, fun _ hk => hk, by simp⟩
  | cons n rest ih =>
      intro st addr e h hrel
      obtain ⟨e1, he1, hent, _, _⟩ := Env.enter_carried e n m hc
        (fun hcc old ho hp => hrel hcc n (List.mem_cons_self _ _) old ho hp)
      obtain ⟨st1, h1, _, h1e⟩ := State.enter_spec st addr n m e e1 h he1
      have hrel1 : m.counted = true → ∀ name ∈ rest, ∀ old, mapFind e1.entries name = some old →
          old.present = true → old.value.releasable = true := by
        intro hcc name hmem old ho hp
        rw [hent] at ho
        rcases mapFind_mapAssign_cases _ _ _ _ _ ho with ⟨_, hv⟩ | ⟨_, ho2⟩
        · rw [hv]; exact hself hcc
        · exact hrel hcc name (List.mem_cons_of_mem _ hmem) old ho2 hp
      obtain ⟨st2, e2, h2, h2e, hkeep, hall⟩ := ih st1 addr e1 h1e hrel1
      refine ⟨st2, e2, by simp [State.enterAll, h1, h2], h2e, ?_, ?_⟩
      · intro k hk
        apply hkeep
        by_cases hkn : k = n
        · subst hkn; exact Env.mapFind_enter_same e e1 k m hc he1
        · rw [Env.mapFind_enter_other e e1 n k m hkn he1]; exact hk
      · intro name hmem
        rcases List.mem_cons.mp hmem with hx | hx
        · subst hx
          exact hkeep _ (Env.mapFind_enter_same e e1 name m hc he1)
        · exact hall name hx

theorem State.enter_some (st st2 : State) (addr : Nat) (name : String) (m : Meta)
    (h : st.enter addr name m = some st2) :
    ∃ e e2, st.env addr = some e ∧ e.enter name m = some e2 ∧
      st2 = { st with envs := st.envs.set addr e2 } ∧ st2.env addr = some e2 := by
  cases he : st.env addr with
  | none => simp [State.enter, he] at h
  | some e =>
      cases he2 : e.enter name m with
      | none => simp [State.enter, he, he2] at h
      | some e2 =>
          have hst : st2 = { st with envs := st.envs.set addr e2 } := by
            simp [State.enter, he, he2] at h
            exact h.symm
          refine ⟨e, e2, rfl, he2, hst, ?_⟩
          have hlt := State.env_lt st addr e he
          rw [hst]
          simp [State.env, hlt]

theorem State.enterAll_keep (names : List String) (m : Meta) (k : String) (hk : k ∉ names) :
    ∀ (st st2 : State) (addr : Nat) (e e2 : Env), st.enterAll addr names m = some st2 →
      st.env addr = some e → st2.env addr = some e2 →
      mapFind e2.entries k = mapFind e.entries k := by
  induction names with
  | nil =>
      intro st st2 addr e e2 h he he2
      simp only [State.enterAll, Option.some.injEq] at h
      subst h
      rw [he] at he2
      cases he2
      rfl
  | cons n rest ih =>
      intro st st2 addr e e2 h he he2
      simp only [List.mem_cons, not_or] at hk
      simp only [State.enterAll] at h
      cases h1 : st.enter addr n m with
      | none => rw [h1] at h; cases h
      | some st1 =>
          rw [h1] at h
          obtain ⟨e0, e1, he0, hent, _, he1⟩ := State.enter_some st st1 addr n m h1
          rw [he] at he0
          cases he0
          rw [ih hk.2 st1 st2 addr e1 e2 h he1 he2]
          exact Env.mapFind_enter_other e e1 n k m hk.1 hent

theorem State.enterAll_env (names : List String) (m : Meta) :
    ∀ (st st2 : State) (addr : Nat) (e : Env), st.enterAll addr names m = some st2 →
      st.env addr = some e → ∃ e2, st2.env addr = some e2 := by
  induction names with
  | nil =>
      intro st st2 addr e h he
      simp only [State.enterAll, Option.some.injEq] at h
      subst h
      exact ⟨e, he⟩
  | cons n rest ih =>
      intro st st2 addr e h he
      simp only [State.enterAll] at h
      cases h1 : st.enter addr n m with
      | none => rw [h1] at h; cases h
      | some st1 =>
          rw [h1] at h
          obtain ⟨_, e1, _, _, _, he1⟩ := State.enter_some st st1 addr n m h1
          exact ih st1 st2 addr e1 h he1

theorem State.enterAll_stored (names : List String) (m : Meta) :
    ∀ (st st2 : State) (addr : Nat), st.enterAll addr names m = some st2 →
      ∀ name ∈ names, ∃ e2 stored, st2.env addr = some e2 ∧
        mapFind e2.entries name = some stored ∧ stored.type = m.type ∧
        (m.carried = true → stored = m) := by
  induction names with
  | nil => intro st st2 addr _ name hmem; simp at hmem
  | cons n rest ih =>
      intro st st2 addr h name hmem
      simp only [State.enterAll] at h
      cases h1 : st.enter addr n m with
      | none => rw [h1] at h; cases h
      | some st1 =>
          rw [h1] at h
          by_cases hr : name ∈ rest
          · exact ih st1 st2 addr h name hr
          · have hn : name = n := by
              rcases List.mem_cons.mp hmem with hx | hx
              · exact hx
              · exact absurd hx hr
            subst hn
            obtain ⟨e, e1, he, hent, _, he1⟩ := State.enter_some st st1 addr name m h1
            obtain ⟨stored, hs, ht, hcar⟩ := Env.enter_stored e e1 name m hent
            obtain ⟨e2, he2⟩ := State.enterAll_env rest m st1 st2 addr e1 h he1
            refine ⟨e2, stored, he2, ?_, ht, hcar⟩
            rw [State.enterAll_keep rest m name hr st1 st2 addr e1 e2 h he1 he2]
            exact hs

theorem State.lookup_local (st : State) (addr : Nat) (name : String) (e : Env) (m : Meta)
    (h : st.env addr = some e) (hm : mapFind e.entries name = some m) :
    st.lookup addr name = some m := by
  have hlt : addr < st.envs.length := by
    unfold State.env at h
    by_contra hc
    rw [List.getElem?_eq_none (by omega)] at h
    cases h
  unfold State.lookup
  obtain ⟨d, hd⟩ : ∃ d, st.envs.length = d + 1 := ⟨st.envs.length - 1, by omega⟩
  rw [hd]
  simp [State.lookupFrom, h, hm]

/-- C9. A `Define` node with a declared type node that evaluates to the type
value `T`, and with no initializer, evaluates to the unbound placeholder
`Meta(RUNTIME(T), null)` and enters every listed name with that meta into the
environment, where `lookup` then finds it. -/
theorem define_without_initializer (fuel : Nat) (type : Node) (names : List String)
    (l c env : Nat) (st st1 : State) (typeval : Meta) (T : Ty)
    (hnode : type.isNull = false)
    (heval : Node.eval fuel type env st = Result.ok typeval st1)
    (hisType : typeval.isType = true) (hasType : typeval.asType = some T)
    (henv : (st1.env env).isSome = true) :
    ∃ st2 e2,
      Node.eval (fuel + 1) (Node.define type names Node.null l c) env st =
        Result.ok (Meta.mk (some (Ty.runtime T)) (Value.rt Node.null)) st2 ∧
      Meta.isRuntime (Meta.mk (some (Ty.runtime T)) (Value.rt Node.null)) = true ∧
      null (Meta.mk (some (Ty.runtime T)) (Value.rt Node.null)) = true ∧
      st2.env env = some e2 ∧
      ∀ name ∈ names,
        mapFind e2.entries name = some (Meta.mk (some (Ty.runtime T)) (Value.rt Node.null)) ∧
        st2.lookup env name = some (Meta.mk (some (Ty.runtime T)) (Value.rt Node.null)) := by
  obtain ⟨e, he⟩ := Option.isSome_iff_exists.mp henv
  obtain ⟨st2, e2, h2, h2e, _, hall⟩ :=
    State.enterAll_spec names (unbound (Ty.runtime T)) (unbound_carried T).1
      (fun hc => by rw [(unbound_carried T).2] at hc; cases hc) st1 env e he
      (fun hc => by rw [(unbound_carried T).2] at hc; cases hc)
  refine ⟨st2, e2, ?_, ?_, ?_, h2e, ?_⟩
  · have hinit : Node.null.isNull = true := rfl
    simp [Node.eval, hinit, hnode, heval, Result.bind, hisType, hasType, Meta.absent,
      Meta.present, Meta.type, h2]
    rfl
  · simp [Meta.isRuntime, Meta.type, Ty.kind]
  · simp [null, Meta.isRuntime, Meta.type, Ty.kind, Meta.asRuntime, Meta.value, Node.isNull]
  · intro name hmem
    exact ⟨hall name hmem, State.lookup_local st2 env name e2 _ h2e (hall name hmem)⟩

/-- Witness of C9: the node of `(int y)`, with the type node `int` and the
names `y` and `z`, in the global environment. -/
theorem define_without_initializer_witness :
    (Node.variable "int" 1 2).isNull = false ∧
    ∃ st2 e2,
      Node.eval 2 (Node.define (Node.variable "int" 1 2) ["y", "z"] Node.null 1 1) globalEnv
          State.start =
        Result.ok (Meta.mk (some (Ty.runtime INT)) (Value.rt Node.null)) st2 ∧
      Meta.isRuntime (Meta.mk (some (Ty.runtime INT)) (Value.rt Node.null)) = true ∧
      null (Meta.mk (some (Ty.runtime INT)) (Value.rt Node.null)) = true ∧
      st2.env globalEnv = some e2 ∧
      ∀ name ∈ ["y", "z"],
        mapFind e2.entries name = some (Meta.mk (some (Ty.runtime INT)) (Value.rt Node.null)) ∧
        st2.lookup globalEnv name = some (Meta.mk (some (Ty.runtime INT)) (Value.rt Node.null)) :=
  ⟨rfl,
   define_without_initializer 1 (Node.variable "int" 1 2) ["y", "z"] 1 1 globalEnv State.start
     State.start (Meta.mk (some TYPE) (Value.t INT)) INT rfl rfl (by decide) rfl (by decide)⟩

/-! ## Arithmetic on unbound placeholders -/

/-- C11. `sub`, `mul`, `div` and `mod` have no branch for runtime results: on
the unbound placeholder of `(runtime i64)` and the integer 1, where `join` is
the runtime type and `add` returns the placeholder, each of them returns the
absent meta. -/
theorem sub_mul_div_mod_unbound_absent :
    join (Ty.runtime INT) INT = some (Ty.runtime INT) ∧
    null (unbound (Ty.runtime INT)) = true ∧
    (add (unbound (Ty.runtime INT)) (Meta.mk (some INT) (Value.i 1))).map Meta.type =
      some (some (Ty.runtime INT)) ∧
    (sub (unbound (Ty.runtime INT)) (Meta.mk (some INT) (Value.i 1))).map Meta.type = some none ∧
    (mul (unbound (Ty.runtime INT)) (Meta.mk (some INT) (Value.i 1))).map Meta.type = some none ∧
    (div (unbound (Ty.runtime INT)) (Meta.mk (some INT) (Value.i 1))).map Meta.type = some none ∧
    (mod (unbound (Ty.runtime INT)) (Meta.mk (some INT) (Value.i 1))).map Meta.type = some none ∧
    (mul (unbound (Ty.runtime INT)) (unbound (Ty.runtime INT))).map Meta.type = some none := by
  decide

/-! ## The symbol table -/

theorem findSymbol_wellFormed (name : String) (t : SymbolTable) (h : WellFormedSymbols t) :
    WellFormedSymbols (findSymbol name t).2 := by
  unfold findSymbol
  cases hl : mapFind t.symbolids name with
  | some id => simpa using h
  | none =>
      intro n2 id2 h2
      simp only at h2 ⊢
      by_cases hn : n2 = name
      · subst hn
        rw [mapFind_mapAssign_same] at h2
        cases h2
        rw [mapFind_mapAssign_same]
        exact ⟨rfl, by omega⟩
      · rw [mapFind_mapAssign_other _ _ _ _ hn] at h2
        obtain ⟨h3, h4⟩ := h n2 id2 h2
        have hne : id2 ≠ t.next := by omega
        rw [mapFind_mapAssign_other _ _ _ _ hne]
        exact ⟨h3, by omega⟩

theorem symbolSteps_wellFormed {t t2 : SymbolTable} (hs : SymbolSteps t t2)
    (h : WellFormedSymbols t) : WellFormedSymbols t2 := by
  induction hs with
  | refl => exact h
  | step t3 name _ ih => exact findSymbol_wellFormed name t3 ih

theorem reachableSymbols_wellFormed {t : SymbolTable} (h : ReachableSymbols t) :
    WellFormedSymbols t := by
  apply symbolSteps_wellFormed h
  intro name id hf
  simp [SymbolTable.initial, mapFind] at hf

theorem findSymbol_ids (name : String) (t : SymbolTable) :
    mapFind (findSymbol name t).2.symbolids name = some (findSymbol name t).1 := by
  unfold findSymbol
  cases hl : mapFind t.symbolids name with
  | some id => simpa using hl
  | none => simp [mapFind_mapAssign_same]

theorem findSymbol_ids_preserved (n2 : String) (t : SymbolTable) (name : String) (id : Int)
    (h : mapFind t.symbolids name = some id) :
    mapFind (findSymbol n2 t).2.symbolids name = some id := by
  unfold findSymbol
  cases hl : mapFind t.symbolids n2 with
  | some id2 => simpa using h
  | none =>
      have hne : name ≠ n2 := by
        intro e; rw [e, hl] at h; cases h
      simp only
      rw [mapFind_mapAssign_other _ _ _ _ hne]
      exact h

theorem symbolSteps_ids_preserved {t t2 : SymbolTable} (hs : SymbolSteps t t2) (name : String)
    (id : Int) (h : mapFind t.symbolids name = some id) : mapFind t2.symbolids name = some id := by
  induction hs with
  | refl => exact h
  | step t3 n2 _ ih => exact findSymbol_ids_preserved n2 t3 name id ih

theorem findSymbol_of_ids (name : String) (t : SymbolTable) (id : Int)
    (h : mapFind t.symbolids name = some id) : findSymbol name t = (id, t) := by
  simp [findSymbol, h]

theorem findSymbolName_of_wellFormed (t : SymbolTable) (h : WellFormedSymbols t) (name : String)
    (id : Int) (hid : mapFind t.symbolids name = some id) : findSymbolName id t = name := by
  simp [findSymbolName, (h name id hid).1]

/-- C13. In every reachable state of the symbol table and for every name `n`:
the id `findSymbol` gives to `n` is mapped back to `n` by `findSymbol` on ids,
right away and in every later state; repeating `findSymbol(n)` in any later
state returns the same id and leaves the table as it is; and another name
never receives the id of `n`. -/
theorem symbol_bijection (t : SymbolTable) (h : ReachableSymbols t) (n : String) :
    findSymbolName (findSymbol n t).1 (findSymbol n t).2 = n ∧
    (∀ t2, SymbolSteps (findSymbol n t).2 t2 →
      findSymbol n t2 = ((findSymbol n t).1, t2) ∧
      findSymbolName (findSymbol n t).1 t2 = n) ∧
    (∀ t2 n2, SymbolSteps (findSymbol n t).2 t2 → n2 ≠ n →
      (findSymbol n2 t2).1 ≠ (findSymbol n t).1) := by
  have hw1 : WellFormedSymbols (findSymbol n t).2 :=
    findSymbol_wellFormed n t (reachableSymbols_wellFormed h)
  have hid := findSymbol_ids n t
  refine ⟨findSymbolName_of_wellFormed _ hw1 n _ hid, ?_, ?_⟩
  · intro t2 hs
    have hw2 := symbolSteps_wellFormed hs hw1
    have hid2 := symbolSteps_ids_preserved hs n _ hid
    exact ⟨findSymbol_of_ids n t2 _ hid2, findSymbolName_of_wellFormed _ hw2 n _ hid2⟩
  · intro t2 n2 hs hne heq
    have hw3 : WellFormedSymbols (findSymbol n2 t2).2 :=
      findSymbol_wellFormed n2 t2 (symbolSteps_wellFormed hs hw1)
    have hid2 := findSymbol_ids_preserved n2 t2 n _ (symbolSteps_ids_preserved hs n _ hid)
    have hid3 := findSymbol_ids n2 t2
    rw [heq] at hid3
    have h1 := (hw3 n _ hid2).1
    have h2 := (hw3 n2 _ hid3).1
    rw [h1] at h2
    cases h2
    exact hne rfl

/-- Witness of C13: the table after interning `let`, then the name `x`. -/
theorem symbol_bijection_witness :
    ReachableSymbols (findSymbol "let" SymbolTable.initial).2 ∧
    findSymbolName (findSymbol "x" (findSymbol "let" SymbolTable.initial).2).1
      (findSymbol "x" (findSymbol "let" SymbolTable.initial).2).2 = "x" :=
  ⟨SymbolSteps.step _ _ "let" (SymbolSteps.refl _),
   (symbol_bijection (findSymbol "let" SymbolTable.initial).2
     (SymbolSteps.step _ _ "let" (SymbolSteps.refl _)) "x").1⟩

/-! ## Insertion order of environments -/

theorem firstOccurrences_append (l : List String) (n : String) :
    firstOccurrences (l ++ [n]) =
      if n ∈ firstOccurrences l then firstOccurrences l else firstOccurrences l ++ [n] := by
  induction l with
  | nil => simp [firstOccurrences]
  | cons a rest ih =>
      simp only [List.cons_append, firstOccurrences, List.append_eq]
      rw [ih]
      by_cases ha : n = a
      · subst ha
        by_cases hm : n ∈ firstOccurrences rest
        · simp [hm]
        · simp [hm, List.filter_append]
      · by_cases hm : n ∈ firstOccurrences rest
        · have : n ∈ List.filter (fun k => decide (k ≠ a)) (firstOccurrences rest) := by
            simp [List.mem_filter, hm, ha]
          simp [hm, ha]
        · have : n ∉ List.filter (fun k => decide (k ≠ a)) (firstOccurrences rest) := by
            simp [List.mem_filter, hm]
          simp [hm, ha, List.filter_append]

theorem mem_firstOccurrences (l : List String) (n : String) :
    n ∈ firstOccurrences l ↔ n ∈ l := by
  induction l with
  | nil => simp [firstOccurrences]
  | cons a rest ih =>
      simp only [firstOccurrences, List.mem_cons, List.mem_filter, ih]
      by_cases h : n = a <;> simp [h]

theorem lastEntered_append (ops : List (String × Meta)) (op : String × Meta) (name : String) :
    lastEntered (ops ++ [op]) name =
      if op.1 = name then some op.2 else lastEntered ops name := by
  induction ops with
  | nil => simp [lastEntered]
  | cons a rest ih =>
      simp only [List.cons_append, lastEntered, List.append_eq]
      rw [ih]
      by_cases h : op.1 = name
      · simp [h]
      · simp [h]

theorem mapFind_none_of_not_mem_keys {κ ν : Type} [DecidableEq κ] (m : List (κ × ν)) (k : κ)
    (h : k ∉ m.map Prod.fst) : mapFind m k = none := by
  induction m with
  | nil => simp [mapFind]
  | cons e rest ih =>
      obtain ⟨k2, v2⟩ := e
      simp only [List.map_cons, List.mem_cons, not_or] at h
      simp [mapFind, Ne.symm h.1, ih h.2]

theorem mapFind_isSome_of_mem_keys {κ ν : Type} [DecidableEq κ] (m : List (κ × ν)) (k : κ)
    (h : k ∈ m.map Prod.fst) : ∃ v, mapFind m k = some v := by
  cases hf : mapFind m k with
  | some v => exact ⟨v, rfl⟩
  | none => exact absurd h (not_mem_keys_of_mapFind_none m k hf)

theorem mapAssign_keys_of_mem {κ ν : Type} [DecidableEq κ] (m : List (κ × ν)) (k : κ) (v : ν)
    (h : k ∈ m.map Prod.fst) : (mapAssign m k v).map Prod.fst = m.map Prod.fst := by
  induction m with
  | nil => simp at h
  | cons e rest ih =>
      obtain ⟨k2, v2⟩ := e
      by_cases h2 : k2 = k
      · simp [mapAssign, h2]
      · simp only [List.map_cons, List.mem_cons] at h
        have hr : k ∈ rest.map Prod.fst := by
          rcases h with h | h
          · exact absurd h.symm h2
          · exact h
        simp [mapAssign, h2, ih hr]

theorem Env.enter_of_mem (e e2 : Env) (hw : e.WellFormed) (name : String) (m : Meta)
    (h : name ∈ e.entryOrder) (he : e.enter name m = some e2) :
    e2.entryOrder = e.entryOrder ∧ e2.entries.map Prod.fst = e.entries.map Prod.fst ∧
    e2.parent = e.parent := by
  have hk : name ∈ e.entries.map Prod.fst := by rw [hw.1]; exact h
  obtain ⟨v, hv⟩ := mapFind_isSome_of_mem_keys e.entries name hk
  rw [Env.enter_old e name m v hv] at he
  cases ha : v.assign m with
  | none => rw [ha] at he; cases he
  | some stored =>
      rw [ha] at he
      cases he
      exact ⟨rfl, mapAssign_keys_of_mem e.entries name stored hk, rfl⟩

theorem Env.enter_of_not_mem (e : Env) (hw : e.WellFormed) (name : String) (m : Meta)
    (h : name ∉ e.entryOrder) :
    e.enter name m =
      some { e with entries := e.entries ++ [(name, m.copy)],
                    entryOrder := e.entryOrder ++ [name] } := by
  have hk : name ∉ e.entries.map Prod.fst := by rw [hw.1]; exact h
  exact Env.enter_new e name m (mapFind_none_of_not_mem_keys e.entries name hk)

theorem Env.enter_wellFormed (e e2 : Env) (hw : e.WellFormed) (name : String) (m : Meta)
    (he : e.enter name m = some e2) : e2.WellFormed := by
  by_cases h : name ∈ e.entryOrder
  · obtain ⟨h1, h2, _⟩ := Env.enter_of_mem e e2 hw name m h he
    exact ⟨by rw [h1, h2]; exact hw.1, by rw [h1]; exact hw.2⟩
  · rw [Env.enter_of_not_mem e hw name m h] at he
    cases he
    refine ⟨by simp [hw.1], ?_⟩
    exact List.Nodup.append hw.2 (by simp) (by simpa using h)

theorem Env.fresh_wellFormed : Env.fresh.WellFormed := by
  simp [Env.WellFormed, Env.fresh]

theorem enterBindings_append (ops : List (String × Meta)) (op : String × Meta) :
    ∀ (e : Env), enterBindings (ops ++ [op]) e =
      (enterBindings ops e).bind (fun e1 => e1.enter op.1 op.2) := by
  induction ops with
  | nil =>
      intro e
      simp only [List.nil_append, enterBindings, Option.some_bind]
      cases e.enter op.1 op.2 <;> rfl
  | cons a rest ih =>
      intro e
      simp only [List.cons_append, enterBindings]
      cases e.enter a.1 a.2 with
      | none => rfl
      | some e2 => exact ih e2

theorem Env.enterSeq_append (e : Env) (ops : List (String × Meta)) (op : String × Meta) :
    e.enterSeq (ops ++ [op]) = (e.enterSeq ops).bind (fun e1 => e1.enter op.1 op.2) :=
  enterBindings_append ops op e

theorem Env.enterSeq_invariant (ops : List (String × Meta)) :
    ∀ e, Env.fresh.enterSeq ops = some e →
      e.WellFormed ∧
      e.entryOrder = firstOccurrences (ops.map Prod.fst) ∧
      (∀ name, lastEntered ops name = none → mapFind e.entries name = none) ∧
      (∀ name m, lastEntered ops name = some m →
        ∃ stored, mapFind e.entries name = some stored ∧ stored.type = m.type ∧
          (m.carried = true → stored = m)) := by
  induction ops using List.reverseRecOn with
  | nil =>
      intro e he
      have : e = Env.fresh := by
        simp [Env.enterSeq, enterBindings] at he
        exact he.symm
      subst this
      refine ⟨Env.fresh_wellFormed, by simp [Env.fresh, firstOccurrences], ?_, ?_⟩
      · intro name _
        simp [Env.fresh, mapFind]
      · intro name m h
        simp [lastEntered] at h
  | append_singleton ops op ih =>
      intro e he
      rw [Env.enterSeq_append] at he
      cases h1 : Env.fresh.enterSeq ops with
      | none => rw [h1] at he; cases he
      | some e1 =>
          rw [h1] at he
          simp only [Option.some_bind] at he
          obtain ⟨hw, ho, hn, hf⟩ := ih e1 h1
          refine ⟨Env.enter_wellFormed e1 e hw _ _ he, ?_, ?_, ?_⟩
          · rw [List.map_append, List.map_singleton, firstOccurrences_append, ← ho]
            by_cases h : op.1 ∈ e1.entryOrder
            · rw [if_pos h]; exact (Env.enter_of_mem e1 e hw _ _ h he).1
            · rw [if_neg h]
              rw [Env.enter_of_not_mem e1 hw _ _ h] at he
              cases he
              rfl
          · intro name hl
            rw [lastEntered_append] at hl
            by_cases h : op.1 = name
            · rw [if_pos h] at hl; cases hl
            · rw [if_neg h] at hl
              rw [Env.mapFind_enter_other e1 e op.1 name op.2 (Ne.symm h) he]
              exact hn name hl
          · intro name m hl
            rw [lastEntered_append] at hl
            by_cases h : op.1 = name
            · rw [if_pos h] at hl
              cases hl
              rw [← h]
              exact Env.enter_stored e1 e op.1 op.2 he
            · rw [if_neg h] at hl
              rw [Env.mapFind_enter_other e1 e op.1 name op.2 (Ne.symm h) he]
              exact hf name m hl

theorem lastEntered_isSome_of_mem (ops : List (String × Meta)) (name : String)
    (h : name ∈ ops.map Prod.fst) : ∃ m, lastEntered ops name = some m := by
  induction ops with
  | nil => simp at h
  | cons b r ih =>
      simp only [lastEntered]
      cases hr : lastEntered r name with
      | some m2 => exact ⟨m2, rfl⟩
      | none =>
          simp only [List.map_cons, List.mem_cons] at h
          rcases h with h | h
          · exact ⟨b.2, by simp [h]⟩
          · obtain ⟨m, hm⟩ := ih h
            rw [hm] at hr
            cases hr

theorem enterBindings_plain (ops : List (String × Meta)) :
    ∀ (e : Env), (∀ op ∈ ops, op.2.carried = true ∧ op.2.counted = false) →
      (enterBindings ops e).isSome = true := by
  induction ops with
  | nil => intro e _; rfl
  | cons a rest ih =>
      intro e hall
      have ha := hall a (List.mem_cons_self _ _)
      obtain ⟨e2, he2, _, _, _⟩ := Env.enter_carried e a.1 a.2 ha.1
        (fun hc => by rw [ha.2] at hc; cases hc)
      simp only [enterBindings, he2]
      exact ih e2 (fun op hop => hall op (List.mem_cons_of_mem _ hop))

theorem enterBindings_releasable (ops : List (String × Meta)) :
    ∀ (e : Env), (∀ op ∈ ops, op.2.carried = true ∧ op.2.value.releasable = true) →
      (∀ k old, mapFind e.entries k = some old → old.value.releasable = true) →
      (enterBindings ops e).isSome = true := by
  induction ops with
  | nil => intro e _ _; rfl
  | cons a rest ih =>
      intro e hall hold
      have ha := hall a (List.mem_cons_self _ _)
      obtain ⟨e2, he2, hent, _, _⟩ := Env.enter_carried e a.1 a.2 ha.1
        (fun _ old ho _ => hold a.1 old ho)
      simp only [enterBindings, he2]
      apply ih e2 (fun op hop => hall op (List.mem_cons_of_mem _ hop))
      intro k old ho
      rw [hent] at ho
      by_cases hk : k = a.1
      · rw [hk, mapFind_mapAssign_same] at ho
        cases ho
        exact ha.2
      · rw [mapFind_mapAssign_other _ _ _ _ hk] at ho
        exact hold k old ho

theorem enterBindings_distinct (ops : List (String × Meta)) :
    ∀ (e : Env), (ops.map Prod.fst).Nodup →
      (∀ op ∈ ops, mapFind e.entries op.1 = none) →
      (enterBindings ops e).isSome = true := by
  induction ops with
  | nil => intro e _ _; rfl
  | cons a rest ih =>
      intro e hnd hnew
      simp only [List.map_cons, List.nodup_cons] at hnd
      have ha := hnew a (List.mem_cons_self _ _)
      simp only [enterBindings, Env.enter_new e a.1 a.2 ha]
      apply ih _ hnd.2
      intro op hop
      have hne : op.1 ≠ a.1 := by
        intro e
        exact hnd.1 (e ▸ List.mem_map.mpr ⟨op, hop, rfl⟩)
      simp only [mapFind_append, hnew op (List.mem_cons_of_mem _ hop), mapFind, Ne.symm hne,
        if_false]
      rfl

theorem firstOccurrences_of_nodup (l : List String) (h : l.Nodup) : firstOccurrences l = l := by
  induction l with
  | nil => rfl
  | cons a rest ih =>
      rw [List.nodup_cons] at h
      simp only [firstOccurrences, ih h.2]
      congr 1
      rw [List.filter_eq_self]
      intro k hk
      simp only [ne_eq, decide_eq_true_eq]
      intro e
      exact h.1 (e ▸ hk)

theorem mem_keys_of_lastEntered (ops : List (String × Meta)) (name : String) (m : Meta)
    (h : lastEntered ops name = some m) : name ∈ ops.map Prod.fst := by
  induction ops with
  | nil => simp [lastEntered] at h
  | cons b r ih =>
      simp only [lastEntered] at h
      simp only [List.map_cons, List.mem_cons]
      cases hr : lastEntered r name with
      | some m2 =>
          rw [hr] at h
          simp only [Option.some.injEq] at h
          exact Or.inr (ih (by rw [hr, h]))
      | none =>
          rw [hr] at h
          by_cases hb : b.1 = name
          · exact Or.inl hb.symm
          · simp [hb] at h

theorem lastEntered_of_nodup (ops : List (String × Meta)) (h : (ops.map Prod.fst).Nodup)
    (op : String × Meta) (hm : op ∈ ops) : lastEntered ops op.1 = some op.2 := by
  induction ops with
  | nil => simp at hm
  | cons a rest ih =>
      simp only [List.map_cons, List.nodup_cons] at h
      rcases List.mem_cons.mp hm with hx | hx
      · subst hx
        have hn : lastEntered rest op.1 = none := by
          cases hl : lastEntered rest op.1 with
          | none => rfl
          | some m => exact absurd (mem_keys_of_lastEntered rest op.1 m hl) h.1
        simp [lastEntered, hn]
      · simp [lastEntered, ih h.2 hx]

theorem enterBindings_distinct_entries (ops : List (String × Meta)) :
    ∀ (e e2 : Env), (ops.map Prod.fst).Nodup →
      (∀ op ∈ ops, mapFind e.entries op.1 = none) →
      enterBindings ops e = some e2 →
      ∀ op ∈ ops, mapFind e2.entries op.1 = some op.2.copy := by
  induction ops with
  | nil => intro e e2 _ _ _ op hop; simp at hop
  | cons a rest ih =>
      intro e e2 hnd hnew he op hop
      simp only [List.map_cons, List.nodup_cons] at hnd
      have ha := hnew a (List.mem_cons_self _ _)
      simp only [enterBindings, Env.enter_new e a.1 a.2 ha] at he
      have hnew2 : ∀ op ∈ rest, mapFind (e.entries ++ [(a.1, a.2.copy)]) op.1 = none := by
        intro op hop
        have hne : op.1 ≠ a.1 := by
          intro e
          exact hnd.1 (e ▸ List.mem_map.mpr ⟨op, hop, rfl⟩)
        simp only [mapFind_append, hnew op (List.mem_cons_of_mem _ hop), mapFind, Ne.symm hne,
          if_false]
        rfl
      rcases List.mem_cons.mp hop with h | h
      · subst h
        have hkeep : ∀ (ops2 : List (String × Meta)) (e3 e4 : Env),
            enterBindings ops2 e3 = some e4 → op.1 ∉ ops2.map Prod.fst →
            mapFind e4.entries op.1 = mapFind e3.entries op.1 := by
          intro ops2
          induction ops2 with
          | nil =>
              intro e3 e4 h34 _
              simp [enterBindings] at h34
              rw [h34]
          | cons b r2 ih2 =>
              intro e3 e4 h34 hnm
              simp only [List.map_cons, List.mem_cons, not_or] at hnm
              simp only [enterBindings] at h34
              cases hb : e3.enter b.1 b.2 with
              | none => rw [hb] at h34; cases h34
              | some e5 =>
                  rw [hb] at h34
                  rw [ih2 e5 e4 h34 hnm.2, Env.mapFind_enter_other e3 e5 b.1 op.1 b.2 hnm.1 hb]
        rw [hkeep rest _ e2 he hnd.1]
        simp [mapFind_append, ha, mapFind]
      · exact ih _ e2 hnd.2 hnew2 he op h

theorem Env.enterSeq_distinct_entries (ops : List (String × Meta))
    (hnd : (ops.map Prod.fst).Nodup) (e : Env) (he : Env.fresh.enterSeq ops = some e) :
    ∀ op ∈ ops, mapFind e.entries op.1 = some op.2.copy :=
  enterBindings_distinct_entries ops Env.fresh e hnd (fun _ _ => rfl) he

/-- C14. Whenever a sequence of `enter` calls on a fresh environment is
defined, the insertion order lists the distinct names at the place of their
first occurrence and the map has as many entries; `entry(i)` holds a meta of
the type of the meta most recently entered under the `i`-th of these names,
and that very meta when `Meta::copy` and `Meta::assign` have a branch for it;
with pairwise distinct names `entry(i)` is the copy of the meta of the `i`-th
call; and entering a name that is present again changes neither the order nor
the number of entries.  The sequence is defined when the names are pairwise
distinct, and when the metas all have such a branch and either none is
reference counted or every one has a union that may be released.  A `CHAR`
meta is stored without its payload, and entering a string under a name that
holds the integer 5 is undefined, as happens when `(do (let x 5) (let x "a"))`,
which elaborates without error, is evaluated. -/
theorem enter_order (ops : List (String × Meta)) :
    (∀ e, Env.fresh.enterSeq ops = some e →
      e.entryOrder = firstOccurrences (ops.map Prod.fst) ∧
      e.entries.length = (firstOccurrences (ops.map Prod.fst)).length ∧
      (∀ i name, (firstOccurrences (ops.map Prod.fst))[i]? = some name →
        ∃ m stored, lastEntered ops name = some m ∧ e.entry i = some stored ∧
          stored.type = m.type ∧ (m.carried = true → stored = m)) ∧
      ((ops.map Prod.fst).Nodup → ∀ i op, ops[i]? = some op →
        e.entryOrder[i]? = some op.1 ∧ e.entry i = some op.2.copy) ∧
      (∀ name m e2, name ∈ ops.map Prod.fst → e.enter name m = some e2 →
        e2.entryOrder = e.entryOrder ∧ e2.entries.length = e.entries.length)) ∧
    ((ops.map Prod.fst).Nodup → (Env.fresh.enterSeq ops).isSome = true) ∧
    ((∀ op ∈ ops, op.2.carried = true ∧ op.2.counted = false) →
      (Env.fresh.enterSeq ops).isSome = true) ∧
    ((∀ op ∈ ops, op.2.carried = true ∧ op.2.value.releasable = true) →
      (Env.fresh.enterSeq ops).isSome = true) ∧
    (Env.fresh.enterSeq [("c", Meta.mk (some CHAR) (Value.c 97))]).bind (fun e => e.entry 0) =
      some (Meta.mk (some CHAR) Value.none) ∧
    (Env.fresh.enterSeq [("x", Meta.mk (some INT) (Value.i 5)),
      ("x", Meta.mk (some STRING) (Value.s "a"))]).isNone = true ∧
    (Env.fresh.enterSeq [("x", Meta.mk (some INT) (Value.i 5)),
      ("x", Meta.mk (some INT) (Value.i 6))]).bind (fun e => e.entry 0) =
      some (Meta.mk (some INT) (Value.i 6)) ∧
    (Term.eval 10 doLetIntString globalEnv State.start).state?.map State.countErrors = some 0 ∧
    (runTerm 10 doLetIntString State.start).crashed = true := by
  refine ⟨?_, ?_, ?_, ?_, rfl, rfl, rfl, by decide, by decide⟩
  · intro e he
    obtain ⟨hw, ho, hn, hf⟩ := Env.enterSeq_invariant ops e he
    have hlen : e.entries.length = (firstOccurrences (ops.map Prod.fst)).length := by
      rw [← ho, ← hw.1, List.length_map]
    refine ⟨ho, hlen, ?_, ?_, ?_⟩
    · intro i name hi
      have hmem : name ∈ ops.map Prod.fst := by
        rw [← mem_firstOccurrences]
        exact List.getElem?_mem hi
      obtain ⟨m, hm⟩ := lastEntered_isSome_of_mem ops name hmem
      obtain ⟨stored, hs, ht, hc⟩ := hf name m hm
      exact ⟨m, stored, hm, by simp [Env.entry, ho, hi, hs], ht, hc⟩
    · intro hnd i op hi
      have hn2 : e.entryOrder[i]? = some op.1 := by
        rw [ho, firstOccurrences_of_nodup _ hnd, List.getElem?_map, hi]
        rfl
      refine ⟨hn2, ?_⟩
      have hl := lastEntered_of_nodup ops hnd op (List.getElem?_mem hi)
      have hfind := Env.enterSeq_distinct_entries ops hnd e he op (List.getElem?_mem hi)
      simp [Env.entry, hn2, hfind]
    · intro name m e2 hmem he2
      have hin : name ∈ e.entryOrder := by
        rw [ho, mem_firstOccurrences]; exact hmem
      obtain ⟨h1, h2, _⟩ := Env.enter_of_mem e e2 hw name m hin he2
      refine ⟨h1, ?_⟩
      have := congrArg List.length h2
      simpa using this
  · intro hnd
    exact enterBindings_distinct ops Env.fresh hnd (fun _ _ => rfl)
  · intro h
    exact enterBindings_plain ops Env.fresh h
  · intro h
    exact enterBindings_releasable ops Env.fresh h (fun k old ho => by simp [Env.fresh, mapFind] at ho)

/-! ## Forking environments -/

theorem Env.forkInto_spec (src : Env) (p : Option Nat) :
    ∀ (todo done : List (String × Meta)),
      ((done ++ todo).map Prod.fst).Nodup →
      (∀ kv ∈ todo, mapFind src.entries kv.1 = some kv.2) →
      Env.forkInto src (todo.map Prod.fst)
          { entries := done, entryOrder := done.map Prod.fst, parent := p } =
        { entries := done ++ todo.map (fun kv => (kv.1, kv.2.copy)),
          entryOrder := (done ++ todo).map Prod.fst, parent := p } := by
  intro todo
  induction todo with
  | nil => intro done _ _; simp [Env.forkInto]
  | cons kv rest ih =>
      intro done hnd hsrc
      obtain ⟨k, v⟩ := kv
      have hk : k ∉ done.map Prod.fst := by
        rw [List.map_append, List.nodup_append] at hnd
        intro hmem
        exact hnd.2.2 hmem (by simp)
      have hdone : mapFind done k = none := mapFind_none_of_not_mem_keys done k hk
      have hfind : mapFind src.entries k = some v := hsrc (k, v) (List.mem_cons_self _ _)
      have h2 := ih (done ++ [(k, v.copy)]) (by simpa using hnd)
        (fun kv hkv => hsrc kv (List.mem_cons_of_mem _ hkv))
      simp only [List.map_cons, Env.forkInto, hfind, mapAssign_of_mapFind_none done k v.copy hdone]
      simpa using h2

theorem Env.fork_eq (e : Env) (hw : e.WellFormed) :
    e.fork =
      { entries := e.entries.map (fun kv => (kv.1, kv.2.copy)), entryOrder := e.entryOrder,
        parent := e.parent } := by
  have hnd : (e.entries.map Prod.fst).Nodup := by rw [hw.1]; exact hw.2
  have h := Env.forkInto_spec e e.parent e.entries [] (by simpa using hnd)
    (fun kv hkv => mapFind_of_mem_nodup e.entries kv.1 kv.2 hnd hkv)
  unfold Env.fork
  rw [← hw.1]
  simpa [hw.1] using h

theorem mapFind_map_copy (es : List (String × Meta)) (k : String) :
    mapFind (es.map (fun kv => (kv.1, kv.2.copy))) k = (mapFind es k).map Meta.copy := by
  induction es with
  | nil => rfl
  | cons a rest ih =>
      obtain ⟨k2, v2⟩ := a
      by_cases h : k2 = k
      · simp [mapFind, h]
      · simp [mapFind, h, ih]

theorem Env.fork_entry (e : Env) (hw : e.WellFormed) (i : Nat) :
    e.fork.entry i = (e.entry i).map Meta.copy := by
  rw [Env.fork_eq e hw]
  unfold Env.entry
  cases e.entryOrder[i]? with
  | none => rfl
  | some name => simp [mapFind_map_copy]

theorem Env.fork_wellFormed (e : Env) (hw : e.WellFormed) : e.fork.WellFormed := by
  rw [Env.fork_eq e hw]
  refine ⟨?_, hw.2⟩
  simp only [List.map_map]
  rw [← hw.1]
  rfl

theorem Env.setEntry_wellFormed (e e2 : Env) (hw : e.WellFormed) (i : Nat) (m : Meta)
    (h : e.setEntry i m = some e2) : e2.WellFormed := by
  unfold Env.setEntry at h
  cases hn : e.entryOrder[i]? with
  | none => simp [hn] at h
  | some name =>
      cases hf : mapFind e.entries name with
      | none => simp [hn, hf] at h
      | some v =>
          simp only [hn, hf] at h
          cases ha : v.assign m with
          | none => rw [ha] at h; cases h
          | some stored =>
              rw [ha] at h
              cases h
              have hk : name ∈ e.entries.map Prod.fst := by
                by_contra hc
                rw [mapFind_none_of_not_mem_keys _ _ hc] at hf
                cases hf
              exact ⟨by simp [mapAssign_keys_of_mem e.entries name stored hk, hw.1], hw.2⟩

/-- C15. For every environment built by `new Env()`, `enter`, assignments to
entries and `fork` (the keys of its map are the names of its insertion order),
`fork` yields an environment with the same parent and the same number of
entries whose `entry(i)` has, for every index, the same name and holds the
copy `Meta::copy` makes of the meta of the entry: a meta of the same type, and
the same meta when `Meta::copy` has a branch for it.  The entry of a `CHAR`
meta is copied without its payload: after `enter` of two `CHAR` metas under one
name the entry holds the zero the assignment left, and the entry of the fork a
union never written. -/
theorem fork_copies (e : Env) (hw : e.WellFormed) :
    e.fork.parent = e.parent ∧
    e.fork.entries.length = e.entries.length ∧
    e.fork.entryOrder.length = e.entryOrder.length ∧
    (∀ i, e.fork.entryOrder[i]? = e.entryOrder[i]? ∧
      e.fork.entry i = (e.entry i).map Meta.copy) ∧
    (∀ i m, e.entry i = some m →
      ∃ copied, e.fork.entry i = some copied ∧ copied.type = m.type ∧
        (m.carried = true → copied = m)) ∧
    e.fork.WellFormed ∧
    (Env.fresh.enterSeq [("c", Meta.mk (some CHAR) (Value.c 97)),
        ("c", Meta.mk (some CHAR) (Value.c 98))]).bind (fun e2 => e2.entry 0) =
      some (Meta.mk (some CHAR) Value.zero) ∧
    (Env.fresh.enterSeq [("c", Meta.mk (some CHAR) (Value.c 97)),
        ("c", Meta.mk (some CHAR) (Value.c 98))]).bind (fun e2 => e2.fork.entry 0) =
      some (Meta.mk (some CHAR) Value.none) := by
  have hf := Env.fork_eq e hw
  refine ⟨by rw [hf], by rw [hf]; simp, by rw [hf], ?_, ?_, Env.fork_wellFormed e hw, rfl, rfl⟩
  · intro i
    exact ⟨by rw [hf], Env.fork_entry e hw i⟩
  · intro i m hm
    refine ⟨m.copy, by rw [Env.fork_entry e hw i, hm]; rfl, Meta.copyOnto_type _ _, ?_⟩
    exact fun hc => Meta.copy_of_carried m hc

/-- Witness of C15: the root environment of `createRootEnv`. -/
theorem fork_copies_witness :
    rootEnv.WellFormed ∧ rootEnv.fork.parent = rootEnv.parent ∧
    rootEnv.fork.entryOrder.length = 11 ∧
    rootEnv.fork.entryOrder[3]? = some "let" ∧
    (rootEnv.fork.entry 0).map Meta.asType = some (some INT) :=
  ⟨⟨by decide, by decide⟩,
   (fork_copies rootEnv ⟨by decide, by decide⟩).1,
   by decide, by decide, by decide⟩

/-! ## Variables -/

theorem State.lookupFrom_chain (st : State) (name : String) :
    ∀ (depth addr : Nat) (envs : List Env), st.chain depth addr = some envs →
      st.lookupFrom depth addr name = nearestBinding name envs := by
  intro depth
  induction depth with
  | zero => intro addr envs h; simp [State.chain] at h
  | succ d ih =>
      intro addr envs h
      simp only [State.chain] at h
      cases he : st.env addr with
      | none => simp [he] at h
      | some e =>
          simp only [he] at h
          cases hp : e.parent with
          | none =>
              simp only [hp, Option.some.injEq] at h
              subst h
              simp only [State.lookupFrom, he, hp, nearestBinding]
          | some p =>
              simp only [hp, Option.map_eq_some'] at h
              obtain ⟨rest, hr, hcons⟩ := h
              subst hcons
              simp only [State.lookupFrom, he, hp, nearestBinding]
              cases mapFind e.entries name with
              | some m => rfl
              | none => exact ih p rest hr

theorem nearestBinding_some (name : String) (m : Meta) :
    ∀ (envs : List Env) (k : Nat) (e : Env), envs[k]? = some e →
      mapFind e.entries name = some m →
      (∀ j e2, j < k → envs[j]? = some e2 → mapFind e2.entries name = none) →
      nearestBinding name envs = some m := by
  intro envs
  induction envs with
  | nil => intro k e h; simp at h
  | cons a rest ih =>
      intro k e hk hm hnear
      cases k with
      | zero =>
          simp only [List.getElem?_cons_zero, Option.some.injEq] at hk
          subst hk
          simp [nearestBinding, hm]
      | succ k2 =>
          have ha : mapFind a.entries name = none := hnear 0 a (by omega) (by simp)
          simp only [nearestBinding, ha]
          apply ih k2 e (by simpa using hk) hm
          intro j e2 hj hj2
          exact hnear (j + 1) e2 (by omega) (by simpa using hj2)

theorem nearestBinding_none (name : String) :
    ∀ (envs : List Env), (∀ e ∈ envs, mapFind e.entries name = none) ↔
      nearestBinding name envs = none := by
  intro envs
  induction envs with
  | nil => simp [nearestBinding]
  | cons a rest ih =>
      cases ha : mapFind a.entries name with
      | some m => simp [nearestBinding, ha]
      | none => simp [nearestBinding, ha, ih]

theorem State.err_new (st : State) (phase : Phase) (l c : Nat) (text : String)
    (hlen : st.errorFrames.length = st.frameMessages.length)
    (hnew : (prefixPhase phase ++ " " ++ text) ∉ st.currentMessages) :
    (st.err phase l c text).lastError =
      some { line := l, column := c, message := prefixPhase phase ++ " " ++ text } ∧
    (st.err phase l c text).countErrors = st.countErrors + 1 := by
  unfold State.err State.reportError
  cases hf : st.errorFrames with
  | nil =>
      cases hm : st.frameMessages with
      | nil =>
          simp only [State.currentMessages, hm] at hnew
          simp [hnew, State.lastError, State.countErrors, hf]
      | cons ms fms => simp [hf, hm] at hlen
  | cons es frames =>
      cases hm : st.frameMessages with
      | nil => simp [hf, hm] at hlen
      | cons ms fms =>
          simp only [State.currentMessages, hm] at hnew
          simp [hnew, State.lastError, State.countErrors, hf]

theorem Meta.copy_present (m : Meta) : m.copy.present = m.present := by
  simp only [Meta.present, Meta.copy, Meta.copyOnto_type]

/-- C16. When the parent chain of `env` ends within the store, `Variable::eval`
returns the copy `Meta::copy` makes of the meta that the nearest environment
binding the name gives it (local bindings shadow parents) and reports nothing;
the copy has the type of the bound meta, and it is the bound meta when
`Meta::copy` has a branch for it.  When no environment of the chain binds the
name, `Variable::eval` returns the absent meta and hands the error
`Undefined variable '<name>'.` of the TYPE phase at the position of the
variable to `reportError`, where it becomes the last error of the current
frame unless a message of the same text is there already; and, bound metas
being present, the result is absent exactly when no environment of the chain
binds the name.  A `CHAR` meta comes back without its payload: after
`(let c 'a')`, whose initializer evaluates to the character, `c` evaluates
without error to a `CHAR` meta whose union was never written. -/
theorem variable_eval (fuel : Nat) (st : State) (env : Nat) (envs : List Env) (name : String)
    (l c : Nat) (hchain : st.chain st.envs.length env = some envs) :
    (∀ (k : Nat) (e : Env) (m : Meta), envs[k]? = some e → mapFind e.entries name = some m →
      (∀ (j : Nat) (e2 : Env), j < k → envs[j]? = some e2 → mapFind e2.entries name = none) →
      Node.eval (fuel + 1) (Node.variable name l c) env st = Result.ok m.copy st ∧
      m.copy.type = m.type ∧ (m.carried = true → m.copy = m)) ∧
    ((∀ e ∈ envs, mapFind e.entries name = none) →
      Node.eval (fuel + 1) (Node.variable name l c) env st =
        Result.ok Meta.absent
          (st.err Phase.PHASE_TYPE l c ("Undefined variable '" ++ name ++ "'."))) ∧
    ((∀ e ∈ envs, ∀ (m : Meta), mapFind e.entries name = some m → m.present = true) →
      ((∀ e ∈ envs, mapFind e.entries name = none) ↔
        (Node.eval (fuel + 1) (Node.variable name l c) env st).val?.map Meta.present =
          some false)) ∧
    (st.errorFrames.length = st.frameMessages.length →
      ("[TYPE ERROR] Undefined variable '" ++ name ++ "'.") ∉ st.currentMessages →
      (st.err Phase.PHASE_TYPE l c ("Undefined variable '" ++ name ++ "'.")).lastError =
        some { line := l, column := c,
               message := "[TYPE ERROR] Undefined variable '" ++ name ++ "'." } ∧
      (st.err Phase.PHASE_TYPE l c ("Undefined variable '" ++ name ++ "'.")).countErrors =
        st.countErrors + 1) ∧
    (runTerms 10 [letCharC, varC] State.start).val?.bind List.getLast? =
      some (Meta.mk (some CHAR) Value.none) ∧
    (Node.eval 1 (Node.char 97 1 8) globalEnv State.start).val? =
      some (Meta.mk (some CHAR) (Value.c 97)) ∧
    (runTerms 10 [letCharC, varC] State.start).state?.map State.countErrors = some 0 := by
  have hl : st.lookup env name = nearestBinding name envs :=
    State.lookupFrom_chain st name _ _ _ hchain
  refine ⟨?_, ?_, ?_, ?_, rfl, rfl, by decide⟩
  · intro k e m hk hm hnear
    have := nearestBinding_some name m envs k e hk hm hnear
    exact ⟨by simp [Node.eval, hl, this], Meta.copyOnto_type _ _,
      fun hc => Meta.copy_of_carried m hc⟩
  · intro h
    rw [nearestBinding_none] at h
    simp [Node.eval, hl, h]
  · intro hpresent
    rw [nearestBinding_none]
    constructor
    · intro h
      simp [Node.eval, hl, h, Result.val?, Meta.present, Meta.absent, Meta.type]
    · intro h
      cases hn : nearestBinding name envs with
      | none => rfl
      | some m =>
          exfalso
          have hp : m.present = true := by
            clear h hl hchain
            induction envs with
            | nil => simp [nearestBinding] at hn
            | cons a rest ih =>
                simp only [nearestBinding] at hn
                cases ha : mapFind a.entries name with
                | some m2 =>
                    rw [ha] at hn
                    simp only [Option.some.injEq] at hn
                    subst hn
                    exact hpresent a (by simp) m2 ha
                | none =>
                    rw [ha] at hn
                    exact ih (fun e he => hpresent e (List.mem_cons_of_mem _ he)) hn
          simp [Node.eval, hl, hn, Result.val?, Meta.copy_present, hp] at h
  · intro h1 h2
    exact State.err_new st Phase.PHASE_TYPE l c _ h1 h2

/-- Witness of C16: the variable `int` in the global environment of the driver,
whose chain is the global and the root environment. -/
theorem variable_eval_witness :
    State.start.chain State.start.envs.length globalEnv =
      some [{ entries := [], entryOrder := [], parent := some 0 }, rootEnv] ∧
    (Node.eval 1 (Node.variable "int" 1 1) globalEnv State.start).val?.map Meta.type =
      some (some TYPE) :=
  ⟨rfl,
   by
    rw [((variable_eval 0 State.start globalEnv _ "int" 1 1 rfl).1 1 rootEnv
      (Meta.mk (some TYPE) (Value.t INT)) rfl rfl
      (fun j e2 hj h => by
        have hj0 : j = 0 := by omega
        subst hj0
        simp only [List.getElem?_cons_zero, Option.some.injEq] at h
        subst h
        rfl)).1]
    rfl⟩

/-! ## Strings and sums of literals -/

/-- C19. `add` of two `STRING` metas is the `STRING` meta holding the string of
the left operand followed by the string of the right one; after `(let s "ab")`
the term `(+ s "c")` evaluates without error to `abc : string`. -/
theorem add_strings (a b : String) :
    add (Meta.mk (some STRING) (Value.s a)) (Meta.mk (some STRING) (Value.s b)) =
      some (Meta.mk (some STRING) (Value.s (a ++ b))) ∧
    (runTerms 10 [letS, plusSC] State.start).val?.map
        (List.map (fun m => (m.type, m.asString))) =
      some [(some STRING, "ab"), (some STRING, "abc")] ∧
    (runTerms 10 [letS, plusSC] State.start).state?.map State.countErrors = some 0 ∧
    STRING.format = "string" := by
  refine ⟨?_, by decide, by decide, by decide⟩
  have hj : join STRING STRING = some STRING := by decide
  simp [add, Meta.present, Meta.type, hj]
  simp [STRING, isRuntime, isFloat, isNumber, Ty.kind, Meta.asString, Meta.value]

theorem wrapSigned_64_add (a b : Int) :
    wrapSigned 64 (wrapSigned 64 a + b) = wrapSigned 64 (a + b) := by
  unfold wrapSigned
  norm_num
  omega

theorem add_int_int (x y : Int) :
    add (Meta.mk (some INT) (Value.i x)) (Meta.mk (some INT) (Value.i y)) =
      some (Meta.mk (some INT) (Value.i (wrapSigned 64 (x + y)))) := by
  have hj : join INT INT = some INT := by decide
  simp [add, Meta.present, Meta.type, hj]
  simp [INT, isRuntime, isFloat, isNumber, Ty.kind, intOp, toInt, Meta.isInt, Meta.asInt,
    Meta.value, Meta.type, trunc, Ty.size]

theorem Node.eval_int (fuel : Nat) (v : Int) (l c env : Nat) (st : State) :
    Node.eval (fuel + 1) (Node.int v l c) env st =
      Result.ok (Meta.mk (some INT) (Value.i v)) st := by
  simp [Node.eval]

theorem foldParams_intNodes (fuel : Nat) (env : Nat) (st : State) :
    ∀ (lits : List (Int × Nat × Nat)) (acc : Int),
      foldParams (Node.eval (fuel + 1)) add (intNodes lits)
          (Meta.mk (some INT) (Value.i (wrapSigned 64 acc))) env st =
        Result.ok (Meta.mk (some INT) (Value.i (wrapSigned 64 (acc + (lits.map Prod.fst).sum)))) st := by
  intro lits
  induction lits with
  | nil => intro acc; simp [intNodes, foldParams]
  | cons x rest ih =>
      intro acc
      have h := ih (wrapSigned 64 acc + x.1)
      simp only [intNodes, List.map_cons, foldParams, Node.eval_int, Result.bind, add_int_int]
      simp only [intNodes] at h
      rw [h, add_assoc, wrapSigned_64_add]
      simp

/-- C17. An `Add` node evaluates its first operand and folds the others into
the result with `add`, from left to right; a single operand evaluates to
itself; over integer literals of 64 bits the result is the `INT` meta holding
their sum wrapped to 64 bits, and `(+ 1 2)` evaluates without error to
`3 : i64`. -/
theorem add_node_eval (fuel env : Nat) (st : State) (l c : Nat) :
    (∀ (p : Node) (rest : List Node),
      Node.eval (fuel + 1) (Node.add (p :: rest) l c) env st =
        (Node.eval fuel p env st).bind (fun m st1 =>
          foldParams (Node.eval fuel) add rest m env st1)) ∧
    (∀ (p : Node), Node.eval (fuel + 1) (Node.add [p] l c) env st = Node.eval fuel p env st) ∧
    (∀ (x : Int × Nat × Nat) (lits : List (Int × Nat × Nat)),
      -9223372036854775808 ≤ x.1 → x.1 < 9223372036854775808 →
      Node.eval (fuel + 2) (Node.add (intNodes (x :: lits)) l c) env st =
        Result.ok
          (Meta.mk (some INT) (Value.i (wrapSigned 64 (((x :: lits).map Prod.fst).sum)))) st) ∧
    (runTerm 10 plusOneTwo State.start).val?.map (fun m => (m.type, m.asInt)) =
      some (some INT, 3) ∧
    (runTerm 10 plusOneTwo State.start).state?.map State.countErrors = some 0 := by
  refine ⟨?_, ?_, ?_, by decide, by decide⟩
  · intro p rest
    simp [Node.eval]
  · intro p
    simp only [Node.eval, foldParams]
    cases Node.eval fuel p env st <;> rfl
  · intro x lits h1 h2
    have h := foldParams_intNodes fuel env st lits x.1
    rw [wrapSigned_64_of_range x.1 h1 h2] at h
    have he : Node.eval (fuel + 2) (Node.add (intNodes (x :: lits)) l c) env st =
        foldParams (Node.eval (fuel + 1)) add (intNodes lits)
          (Meta.mk (some INT) (Value.i x.1)) env st := by
      simp [Node.eval, intNodes, Result.bind]
    rw [he, h]
    simp
/-! ## Quoting atoms -/

/-- Counterexample to C12: for the variable `x`, unbound in the global
environment, evaluating the elaborated node gives the absent meta, which is
not equal to the symbol that `quote` gives; for the bound variable `int` it
gives the type value bound to it, which is not equal to the symbol either. -/
theorem quote_variable_differs :
    (elabEval 2 (Term.variable "x" 1 1) globalEnv State.start).val?.bind
        (fun m => Meta.eq m ((Term.variable "x" 1 1).quote State.start.symbols).1) = some false ∧
    (elabEval 2 (Term.variable "int" 1 1) globalEnv State.start).val?.bind
        (fun m => Meta.eq m ((Term.variable "int" 1 1).quote State.start.symbols).1) =
      some false := by
  decide

/-- C12, amended. In every environment, for an Int, Char or String atom the
elaborated node evaluates to the very meta that `quote` gives, and the two
compare equal; for a Float atom it evaluates to the meta that `quote` gives,
and the two compare equal exactly when the value compares equal to itself;
for a Variable atom it evaluates to the meta bound to the name in the
environment, or to the absent meta with the error `Undefined variable`, not
to the symbol that `quote` gives. -/
theorem quote_round_trip (fuel env : Nat) (st : State) (l c : Nat) :
    (∀ v : Int,
      elabEval (fuel + 1) (Term.int v l c) env st =
        Result.ok ((Term.int v l c).quote st.symbols).1 st ∧
      Meta.eq ((Term.int v l c).quote st.symbols).1 ((Term.int v l c).quote st.symbols).1 =
        some true) ∧
    (∀ v : Nat,
      elabEval (fuel + 1) (Term.char v l c) env st =
        Result.ok ((Term.char v l c).quote st.symbols).1 st ∧
      Meta.eq ((Term.char v l c).quote st.symbols).1 ((Term.char v l c).quote st.symbols).1 =
        some true) ∧
    (∀ v : String,
      elabEval (fuel + 1) (Term.string v l c) env st =
        Result.ok ((Term.string v l c).quote st.symbols).1 st ∧
      Meta.eq ((Term.string v l c).quote st.symbols).1 ((Term.string v l c).quote st.symbols).1 =
        some true) ∧
    (∀ v : Float,
      elabEval (fuel + 1) (Term.float v l c) env st =
        Result.ok ((Term.float v l c).quote st.symbols).1 st ∧
      Meta.eq ((Term.float v l c).quote st.symbols).1 ((Term.float v l c).quote st.symbols).1 =
        some (v == v)) ∧
    (∀ name : String,
      elabEval (fuel + 1) (Term.variable name l c) env st =
        (match st.lookup env name with
         | some m => Result.ok m.copy st
         | none =>
             Result.ok Meta.absent
               (st.err Phase.PHASE_TYPE l c ("Undefined variable '" ++ name ++ "'."))) ∧
      ((Term.variable name l c).quote st.symbols).1 =
        Meta.mk (some SYMBOL) (Value.i (findSymbol name st.symbols).1) ∧
      Meta.eq Meta.absent ((Term.variable name l c).quote st.symbols).1 = some false) := by
  refine ⟨?_, ?_, ?_, ?_, ?_⟩
  · intro v
    refine ⟨by simp [elabEval, Term.eval, Node.eval, Result.bind, Term.quote], ?_⟩
    simp [Term.quote, Meta.eq, Meta.eqCore, INT, VOID, Meta.isInt, Meta.type]
  · intro v
    refine ⟨by simp [elabEval, Term.eval, Node.eval, Result.bind, Term.quote], ?_⟩
    simp [Term.quote, Meta.eq, Meta.eqCore, CHAR, VOID, Meta.isInt, Meta.isFloat, Meta.type]
  · intro v
    refine ⟨by simp [elabEval, Term.eval, Node.eval, Result.bind, Term.quote], ?_⟩
    simp [Term.quote, Meta.eq, Meta.eqCore, STRING, CHAR, TYPE, BOOL, SYMBOL, VOID, Meta.isInt,
      Meta.isFloat, Meta.type]
  · intro v
    refine ⟨by simp [elabEval, Term.eval, Node.eval, Result.bind, Term.quote], ?_⟩
    simp [Term.quote, Meta.eq, Meta.eqCore, FLOAT, VOID, Meta.isInt, Meta.isFloat, Meta.type,
      Meta.asFloat, Meta.value]
  · intro name
    refine ⟨?_, by simp [Term.quote], ?_⟩
    · simp only [elabEval, Term.eval, Node.eval, Result.bind]
    · simp [Term.quote, Meta.eq, Meta.eqCore, Meta.absent]

/-! ## Evaluation steps -/

theorem Term.elaborate_variable (fuel : Nat) (name : String) (l c env : Nat) (st : State) :
    Term.eval (fuel + 1) (Term.variable name l c) env st =
      Result.ok (Node.variable name l c) st := by
  simp [Term.eval]

theorem Term.elaborate_int (fuel : Nat) (v : Int) (l c env : Nat) (st : State) :
    Term.eval (fuel + 1) (Term.int v l c) env st = Result.ok (Node.int v l c) st := by
  simp [Term.eval]

theorem Node.eval_variable (fuel : Nat) (name : String) (l c env : Nat) (st : State) :
    Node.eval (fuel + 1) (Node.variable name l c) env st =
      (match st.lookup env name with
       | some m => Result.ok m.copy st
       | none =>
           Result.ok Meta.absent
             (st.err Phase.PHASE_TYPE l c ("Undefined variable '" ++ name ++ "'."))) := by
  simp [Node.eval]

theorem Node.eval_variable_copy (fuel : Nat) (name : String) (l c env : Nat) (st : State)
    (m : Meta) (h : st.lookup env name = some m) :
    Node.eval (fuel + 1) (Node.variable name l c) env st = Result.ok m.copy st := by
  simp [Node.eval, h]

theorem Node.eval_variable_bound (fuel : Nat) (name : String) (l c env : Nat) (st : State)
    (m : Meta) (h : st.lookup env name = some m) (hc : m.carried = true) :
    Node.eval (fuel + 1) (Node.variable name l c) env st = Result.ok m st := by
  simp [Node.eval, h, Meta.copy_of_carried m hc]

theorem builtinMeta_carried (b : Builtin) : (builtinMeta b).carried = true := by
  cases b <;> rfl

theorem type_carried (t : Ty) : (Meta.mk (some TYPE) (Value.t t)).carried = true := rfl

theorem Term.eval_block_builtin (fuel : Nat) (name : String) (hl hc : Nat) (rest : List Term)
    (l c env : Nat) (st : State) (b : Builtin)
    (h : st.lookup env name = some (builtinMeta b)) :
    Term.eval (fuel + 2) (Term.block (Term.variable name hl hc :: rest) l c) env st =
      (match b with
       | Builtin.define =>
           define (Term.eval (fuel + 1)) env (Term.variable name hl hc :: rest) l c st
       | Builtin.lambda =>
           Basil.lambda (Term.eval (fuel + 1)) env (Term.variable name hl hc :: rest) l c st
       | Builtin.add =>
           arithBuiltin (Term.eval (fuel + 1)) Node.add "+" env
             (Term.variable name hl hc :: rest) l c st
       | Builtin.subtract =>
           arithBuiltin (Term.eval (fuel + 1)) Node.subtract "-" env
             (Term.variable name hl hc :: rest) l c st
       | Builtin.multiply =>
           arithBuiltin (Term.eval (fuel + 1)) Node.multiply "*" env
             (Term.variable name hl hc :: rest) l c st
       | Builtin.divide =>
           arithBuiltin (Term.eval (fuel + 1)) Node.divide "/" env
             (Term.variable name hl hc :: rest) l c st
       | Builtin.quote => quoteBuiltin (Term.variable name hl hc :: rest) l c st
       | Builtin.doBlock =>
           doBlock (Term.eval (fuel + 1)) env (Term.variable name hl hc :: rest) l c st) := by
  have h1 : Term.eval (fuel + 2) (Term.block (Term.variable name hl hc :: rest) l c) env st =
      (Term.eval (fuel + 1) (Term.variable name hl hc) env st).bind (fun n st1 =>
        (Node.eval (fuel + 1) n env st1).bind (fun m st2 =>
          if m.isType then
            declare (Term.eval (fuel + 1)) (Node.eval (fuel + 1)) env n
              (Term.variable name hl hc :: rest) l c st2
          else if m.isFunction && m.builtin.isSome then
            match m.builtin with
            | some Builtin.define =>
                define (Term.eval (fuel + 1)) env (Term.variable name hl hc :: rest) l c st2
            | some Builtin.lambda =>
                Basil.lambda (Term.eval (fuel + 1)) env (Term.variable name hl hc :: rest) l c st2
            | some Builtin.add =>
                arithBuiltin (Term.eval (fuel + 1)) Node.add "+" env
                  (Term.variable name hl hc :: rest) l c st2
            | some Builtin.subtract =>
                arithBuiltin (Term.eval (fuel + 1)) Node.subtract "-" env
                  (Term.variable name hl hc :: rest) l c st2
            | some Builtin.multiply =>
                arithBuiltin (Term.eval (fuel + 1)) Node.multiply "*" env
                  (Term.variable name hl hc :: rest) l c st2
            | some Builtin.divide =>
                arithBuiltin (Term.eval (fuel + 1)) Node.divide "/" env
                  (Term.variable name hl hc :: rest) l c st2
            | some Builtin.quote => quoteBuiltin (Term.variable name hl hc :: rest) l c st2
            | some Builtin.doBlock =>
                doBlock (Term.eval (fuel + 1)) env (Term.variable name hl hc :: rest) l c st2
            | none => Result.crash
          else if m.isFunction then
            call (Term.eval (fuel + 1)) env n (Term.variable name hl hc :: rest) l c st2
          else
            Result.ok Node.null
              (st2.err Phase.PHASE_TYPE (Term.variable name hl hc).line
                (Term.variable name hl hc).column
                "First term in block is not a type or function."))) := rfl
  rw [h1, Term.elaborate_variable, Result.bind,
    Node.eval_variable_bound _ _ _ _ _ _ _ h (builtinMeta_carried b), Result.bind]
  cases b <;> rfl

/-! ## Definitions through `let` -/

theorem State.lookupFrom_congr (st st2 : State) (h : st2.envs = st.envs) (name : String) :
    ∀ (depth addr : Nat), st2.lookupFrom depth addr name = st.lookupFrom depth addr name := by
  intro depth
  induction depth with
  | zero => intro addr; rfl
  | succ d ih =>
      intro addr
      simp only [State.lookupFrom, State.env, h]
      cases st.envs[addr]? with
      | none => rfl
      | some e =>
          simp only
          cases mapFind e.entries name with
          | some m => rfl
          | none =>
              simp only
              cases e.parent with
              | none => rfl
              | some p => exact ih p

theorem State.lookup_congr (st st2 : State) (h : st2.envs = st.envs) (addr : Nat) (name : String) :
    st2.lookup addr name = st.lookup addr name := by
  unfold State.lookup
  rw [h]
  exact State.lookupFrom_congr st st2 h name _ _

theorem findSymbol_round_trip (t : SymbolTable) (h : WellFormedSymbols t) (name : String) :
    findSymbolName (findSymbol name t).1 (findSymbol name t).2 = name :=
  findSymbolName_of_wellFormed _ (findSymbol_wellFormed name t h) name _ (findSymbol_ids name t)

theorem Term.quote_variable (name : String) (l c : Nat) (s : SymbolTable) :
    (Term.variable name l c).quote s =
      (Meta.mk (some SYMBOL) (Value.i (findSymbol name s).1), (findSymbol name s).2) := by
  simp [Term.quote]

theorem Meta.symbol_isArray (k : Int) : (Meta.mk (some SYMBOL) (Value.i k)).isArray = false :=
  rfl

theorem Meta.symbol_isSymbol (k : Int) : (Meta.mk (some SYMBOL) (Value.i k)).isSymbol = true := by
  simp [Meta.isSymbol, Meta.type]

theorem Meta.symbol_asInt (k : Int) : (Meta.mk (some SYMBOL) (Value.i k)).asInt = k := rfl

theorem collectNames_one (env : Nat) (st : State) (name : String) (init : Term) (nl nc : Nat)
    (hx : st.lookup env name = none) (hsym : WellFormedSymbols st.symbols)
    (hq : ((init.quote (findSymbol name st.symbols).2).1.isArray = false))
    (hq2 : ((init.quote (findSymbol name st.symbols).2).1.isSymbol = false)) :
    collectNames env [Term.variable name nl nc, init] 1 [] st =
      ({ names := [name], fnargs := none, i := 2 },
        { st with symbols := (init.quote (findSymbol name st.symbols).2).2 }) := by
  have hround := findSymbol_round_trip st.symbols hsym name
  have hlook : ({ st with symbols := (findSymbol name st.symbols).2 } : State).lookup env name =
      none :=
    (State.lookup_congr st { st with symbols := (findSymbol name st.symbols).2 } rfl env name).trans hx
  simp only [collectNames, Term.quote_variable, Meta.symbol_isArray, Meta.symbol_isSymbol,
    Meta.symbol_asInt, hround, hlook, hq, hq2]
  simp

theorem define_variable_form (fuel env : Nat) (st : State) (name : String) (init : Term)
    (n : Node) (st2 : State) (hl hc nl nc l c : Nat)
    (hx : st.lookup env name = none) (hsym : WellFormedSymbols st.symbols)
    (hq : ((init.quote (findSymbol name st.symbols).2).1.isArray = false))
    (hq2 : ((init.quote (findSymbol name st.symbols).2).1.isSymbol = false))
    (hinit : Term.eval fuel init env
        { st with symbols := (init.quote (findSymbol name st.symbols).2).2 } = Result.ok n st2) :
    define (Term.eval fuel) env
        [Term.variable "let" hl hc, Term.variable name nl nc, init] l c st =
      Result.ok (Node.define Node.null [name] n l c) st2 := by
  have hcol := collectNames_one env st name init nl nc hx hsym hq hq2
  have hw : wrapU32 (0 + 1 + 1 + 1 + 4294967295) = 2 := by decide
  have h1 : ¬ (0 + 1 = 0) := by decide
  have h2 : ¬ (2 = 0 + 1 + 1 + 1) := by decide
  have h3 : ¬ (2 < 2) := by decide
  have h4 : [Term.variable "let" hl hc, Term.variable name nl nc, init][2]? = some init := rfl
  unfold define
  simp only [List.drop_succ_cons, List.drop_zero, hcol, List.length_cons, List.length_nil, hw,
    if_neg h1, if_neg h2, if_neg h3, h4, hinit, Result.bind]
theorem Node.eval_define_untyped (fuel : Nat) (names : List String) (init : Node) (l c env : Nat)
    (st st1 st2 : State) (m : Meta) (it : Ty)
    (hnn : init.isNull = false) (hinit : Node.eval fuel init env st = Result.ok m st1)
    (hty : m.type = some it) (himp : it.implicitly it = true)
    (henter : st1.enterAll env names m = some st2) :
    Node.eval (fuel + 1) (Node.define Node.null names init l c) env st = Result.ok m st2 := by
  have hnull : Node.null.isNull = true := rfl
  have hp : m.present = true := by simp [Meta.present, hty]
  simp [Node.eval, hnn, hinit, Result.bind, hnull, hp, hty, himp, henter]

theorem State.enter_eq (st : State) (addr : Nat) (e e2 : Env) (name : String) (m : Meta)
    (h : st.env addr = some e) (he : e.enter name m = some e2) :
    st.enter addr name m = some { st with envs := st.envs.set addr e2 } := by
  simp [State.enter, h, he]

theorem State.env_set (st : State) (addr : Nat) (e e2 : Env) (h : st.env addr = some e) (a : Nat) :
    ({ st with envs := st.envs.set addr e2 } : State).env a =
      if a = addr then some e2 else st.env a := by
  have hlt : addr < st.envs.length := State.env_lt st addr e h
  by_cases ha : a = addr
  · subst ha
    simp [State.env, hlt]
  · simp [State.env, ha, List.getElem?_set_ne (Ne.symm ha)]

theorem Env.enter_parent (e e2 : Env) (x : String) (m : Meta) (he : e.enter x m = some e2) :
    e2.parent = e.parent := by
  cases hf : mapFind e.entries x with
  | none =>
      rw [Env.enter_new e x m hf] at he
      cases he
      rfl
  | some old =>
      rw [Env.enter_old e x m old hf] at he
      cases ha : old.assign m with
      | none => rw [ha] at he; cases he
      | some stored =>
          rw [ha] at he
          cases he
          rfl

theorem State.lookupFrom_enter_other (st : State) (env : Nat) (e e2 : Env) (x : String) (m : Meta)
    (henv : st.env env = some e) (he : e.enter x m = some e2) (name : String) (hne : name ≠ x) :
    ∀ (depth addr : Nat),
      ({ st with envs := st.envs.set env e2 } : State).lookupFrom depth addr name =
        st.lookupFrom depth addr name := by
  intro depth
  induction depth with
  | zero => intro addr; rfl
  | succ d ih =>
      intro addr
      simp only [State.lookupFrom]
      rw [State.env_set st env e _ henv addr]
      by_cases ha : addr = env
      · subst ha
        have hp : e2.parent = e.parent := Env.enter_parent e e2 x m he
        simp only [if_true, henv]
        rw [Env.mapFind_enter_other e e2 x name m hne he, hp]
        cases mapFind e.entries name with
        | some v => rfl
        | none =>
            simp only
            cases e.parent with
            | none => rfl
            | some p => exact ih p
      · simp only [if_neg ha]
        cases st.env addr with
        | none => rfl
        | some e3 =>
            simp only
            cases mapFind e3.entries name with
            | some v => rfl
            | none =>
                simp only
                cases e3.parent with
                | none => rfl
                | some p => exact ih p

theorem State.lookup_enter_other (st : State) (env : Nat) (e e2 : Env) (x : String) (m : Meta)
    (henv : st.env env = some e) (he : e.enter x m = some e2) (name : String) (hne : name ≠ x)
    (addr : Nat) :
    ({ st with envs := st.envs.set env e2 } : State).lookup addr name =
      st.lookup addr name := by
  unfold State.lookup
  simp only [List.length_set]
  exact State.lookupFrom_enter_other st env e e2 x m henv he name hne _ _

theorem State.lookup_enter_same (st : State) (env : Nat) (e e2 : Env) (x : String) (m : Meta)
    (henv : st.env env = some e) (he : e.enter x m = some e2) (hc : m.carried = true) :
    ({ st with envs := st.envs.set env e2 } : State).lookup env x = some m := by
  apply State.lookup_local _ env x e2 m
  · rw [State.env_set st env e _ henv env]; simp
  · exact Env.mapFind_enter_same e e2 x m hc he

theorem State.lookup_none_local (st : State) (addr : Nat) (name : String) (e : Env)
    (h : st.env addr = some e) (hl : st.lookup addr name = none) :
    mapFind e.entries name = none := by
  have hlt := State.env_lt st addr e h
  unfold State.lookup at hl
  obtain ⟨d, hd⟩ : ∃ d, st.envs.length = d + 1 := ⟨st.envs.length - 1, by omega⟩
  rw [hd] at hl
  simp only [State.lookupFrom, h] at hl
  cases hf : mapFind e.entries name with
  | none => rfl
  | some m => rw [hf] at hl; cases hl

theorem arithBuiltin_two_variables (fuel env : Nat) (st : State) (mk : List Node → Nat → Nat → Node)
    (opName : String) (head : Term) (a b : String) (al ac bl bc l c : Nat) :
    arithBuiltin (Term.eval (fuel + 1)) mk opName env
        [head, Term.variable a al ac, Term.variable b bl bc] l c st =
      Result.ok (mk [Node.variable a al ac, Node.variable b bl bc] l c) st := by
  have h1 : ¬ (0 + 1 + 1 = 0) := by decide
  simp only [arithBuiltin, List.drop_succ_cons, List.drop_zero, elabEach, Term.elaborate_variable,
    Result.bind, List.length_cons, List.length_nil, if_neg h1]

theorem Node.eval_add_two_variables (fuel env : Nat) (st : State) (a b : String)
    (al ac bl bc l c : Nat) (ma mb : Meta) (ha : st.lookup env a = some ma)
    (hb : st.lookup env b = some mb) :
    Node.eval (fuel + 2) (Node.add [Node.variable a al ac, Node.variable b bl bc] l c) env st =
      (match Basil.add ma.copy mb.copy with
       | some r => Result.ok r st
       | none => Result.crash) := by
  have he : Node.eval (fuel + 2) (Node.add [Node.variable a al ac, Node.variable b bl bc] l c)
      env st =
      (Node.eval (fuel + 1) (Node.variable a al ac) env st).bind (fun m st1 =>
        foldParams (Node.eval (fuel + 1)) Basil.add [Node.variable b bl bc] m env st1) := rfl
  rw [he, Node.eval_variable_copy _ _ _ _ _ _ _ ha]
  simp only [Result.bind, foldParams, Node.eval_variable_copy _ _ _ _ _ _ _ hb]

/-- C18. In every environment whose chain binds `let` and `+` to the builtins
and in which `x` is not bound, elaborating and evaluating `(let x v)` returns
`Meta(INT, v)` and binds `x` to it; elaborating and evaluating `(+ x x)`
afterwards returns `Meta(INT, 2v wrapped to 64 bits)`, and the diagnostic
buffers are as they were before, so no error is reported. -/
theorem let_then_add (fuel env : Nat) (st : State) (e : Env) (v : Int)
    (henv : st.env env = some e)
    (hlet : st.lookup env "let" = some (builtinMeta Builtin.define))
    (hplus : st.lookup env "+" = some (builtinMeta Builtin.add))
    (hx : st.lookup env "x" = none)
    (hsym : WellFormedSymbols st.symbols) :
    ∃ st1 st2,
      elabEval (fuel + 3) (letX v) env st = Result.ok (Meta.mk (some INT) (Value.i v)) st1 ∧
      st1.lookup env "x" = some (Meta.mk (some INT) (Value.i v)) ∧
      elabEval (fuel + 3) plusXX env st1 =
        Result.ok (Meta.mk (some INT) (Value.i (wrapSigned 64 (v + v)))) st2 ∧
      st2.errors = st.errors ∧ st2.messages = st.messages ∧
      st2.errorFrames = st.errorFrames ∧ st2.frameMessages = st.frameMessages ∧
      st2.countErrors = st.countErrors := by
  let sa : State := { st with symbols := (findSymbol "x" st.symbols).2 }
  obtain ⟨e2, he2, _, _, _⟩ := Env.enter_carried e "x" (Meta.mk (some INT) (Value.i v))
    (int_carried v).1 (fun hc => by rw [(int_carried v).2] at hc; cases hc)
  let sb : State := { sa with envs := sa.envs.set env e2 }
  have henva : sa.env env = some e := henv
  have hcopy := Meta.copy_of_carried _ (int_carried v).1
  refine ⟨sb, sb, ?_, ?_, ?_, rfl, rfl, rfl, rfl, rfl⟩
  · have hdef : Term.eval (fuel + 3) (letX v) env st =
        Result.ok (Node.define Node.null ["x"] (Node.int v 1 8) 1 1) sa := by
      unfold letX
      rw [Term.eval_block_builtin (fuel + 1) "let" 1 2 _ 1 1 env st Builtin.define hlet]
      exact define_variable_form (fuel + 2) env st "x" (Term.int v 1 8) (Node.int v 1 8) sa
        1 2 1 6 1 1 hx hsym rfl rfl (Term.elaborate_int _ _ _ _ _ _)
    have hev : Node.eval (fuel + 3) (Node.define Node.null ["x"] (Node.int v 1 8) 1 1) env sa =
        Result.ok (Meta.mk (some INT) (Value.i v)) sb :=
      Node.eval_define_untyped (fuel + 2) ["x"] (Node.int v 1 8) 1 1 env sa sa sb _ INT rfl
        (Node.eval_int _ _ _ _ _ _) rfl (by decide)
        (by simp only [State.enterAll, State.enter_eq sa env e e2 "x" _ henva he2])
    simp only [elabEval, hdef, Result.bind, hev]
  · exact State.lookup_enter_same sa env e e2 "x" _ henva he2 (int_carried v).1
  · have hplus2 : sb.lookup env "+" = some (builtinMeta Builtin.add) := by
      rw [State.lookup_enter_other sa env e e2 "x" _ henva he2 "+" (by decide) env]
      exact (State.lookup_congr st sa rfl env "+").trans hplus
    have hxb : sb.lookup env "x" = some (Meta.mk (some INT) (Value.i v)) :=
      State.lookup_enter_same sa env e e2 "x" _ henva he2 (int_carried v).1
    have hel : Term.eval (fuel + 3) plusXX env sb =
        Result.ok (Node.add [Node.variable "x" 2 4, Node.variable "x" 2 6] 2 1) sb := by
      unfold plusXX
      rw [Term.eval_block_builtin (fuel + 1) "+" 2 2 _ 2 1 env sb Builtin.add hplus2]
      exact arithBuiltin_two_variables (fuel + 1) env sb Node.add "+" _ "x" "x" 2 4 2 6 2 1
    simp only [elabEval, hel, Result.bind,
      Node.eval_add_two_variables (fuel + 1) env sb "x" "x" 2 4 2 6 2 1 _ _ hxb hxb, hcopy,
      add_int_int]

/-- Witness of C18: the driver's global environment at start, with `v = 5`. -/
theorem let_then_add_witness :
    State.start.lookup globalEnv "x" = none ∧
    ∃ st1 st2,
      elabEval 3 (letX 5) globalEnv State.start = Result.ok (Meta.mk (some INT) (Value.i 5)) st1 ∧
      st1.lookup globalEnv "x" = some (Meta.mk (some INT) (Value.i 5)) ∧
      elabEval 3 plusXX globalEnv st1 =
        Result.ok (Meta.mk (some INT) (Value.i (wrapSigned 64 (5 + 5)))) st2 ∧
      st2.errors = State.start.errors ∧ st2.messages = State.start.messages ∧
      st2.errorFrames = State.start.errorFrames ∧
      st2.frameMessages = State.start.frameMessages ∧
      st2.countErrors = State.start.countErrors :=
  ⟨rfl,
   let_then_add 0 globalEnv State.start { entries := [], entryOrder := [], parent := some 0 } 5
     rfl rfl rfl rfl
     (by intro name id h; simp [State.start, State.initial, mapFind] at h)⟩

/-! ## Calls of user functions -/

theorem Meta.carried_of_isFunction (m : Meta) (h : m.isFunction = true) : m.carried = true := by
  obtain ⟨t, v⟩ := m
  cases t with
  | none => simp [Meta.isFunction, Meta.type] at h
  | some t =>
      cases t <;>
        simp_all [Meta.isFunction, Meta.carried, Meta.counted, Meta.present, Meta.isVoid,
          Meta.type, Ty.kind, VOID]

theorem Term.eval_block_call (fuel : Nat) (name : String) (hl hc : Nat) (rest : List Term)
    (l c env : Nat) (st : State) (m : Meta)
    (h : st.lookup env name = some m) (hty : m.isType = false) (hfn : m.isFunction = true)
    (hb : m.builtin = none) :
    Term.eval (fuel + 2) (Term.block (Term.variable name hl hc :: rest) l c) env st =
      call (Term.eval (fuel + 1)) env (Node.variable name hl hc)
        (Term.variable name hl hc :: rest) l c st := by
  have h1 : Term.eval (fuel + 2) (Term.block (Term.variable name hl hc :: rest) l c) env st =
      (Term.eval (fuel + 1) (Term.variable name hl hc) env st).bind (fun n st1 =>
        (Node.eval (fuel + 1) n env st1).bind (fun m st2 =>
          if m.isType then
            declare (Term.eval (fuel + 1)) (Node.eval (fuel + 1)) env n
              (Term.variable name hl hc :: rest) l c st2
          else if m.isFunction && m.builtin.isSome then
            match m.builtin with
            | some Builtin.define =>
                define (Term.eval (fuel + 1)) env (Term.variable name hl hc :: rest) l c st2
            | some Builtin.lambda =>
                Basil.lambda (Term.eval (fuel + 1)) env (Term.variable name hl hc :: rest) l c st2
            | some Builtin.add =>
                arithBuiltin (Term.eval (fuel + 1)) Node.add "+" env
                  (Term.variable name hl hc :: rest) l c st2
            | some Builtin.subtract =>
                arithBuiltin (Term.eval (fuel + 1)) Node.subtract "-" env
                  (Term.variable name hl hc :: rest) l c st2
            | some Builtin.multiply =>
                arithBuiltin (Term.eval (fuel + 1)) Node.multiply "*" env
                  (Term.variable name hl hc :: rest) l c st2
            | some Builtin.divide =>
                arithBuiltin (Term.eval (fuel + 1)) Node.divide "/" env
                  (Term.variable name hl hc :: rest) l c st2
            | some Builtin.quote => quoteBuiltin (Term.variable name hl hc :: rest) l c st2
            | some Builtin.doBlock =>
                doBlock (Term.eval (fuel + 1)) env (Term.variable name hl hc :: rest) l c st2
            | none => Result.crash
          else if m.isFunction then
            call (Term.eval (fuel + 1)) env n (Term.variable name hl hc :: rest) l c st2
          else
            Result.ok Node.null
              (st2.err Phase.PHASE_TYPE (Term.variable name hl hc).line
                (Term.variable name hl hc).column
                "First term in block is not a type or function."))) := rfl
  rw [h1, Term.elaborate_variable, Result.bind,
    Node.eval_variable_bound _ _ _ _ _ _ _ h (Meta.carried_of_isFunction m hfn), Result.bind]
  simp only [hty, hfn, hb, Option.isSome_none, Bool.and_false, Bool.false_eq_true, if_false,
    if_true]

theorem Node.eval_call_function (fuel : Nat) (func : Node) (args : List Node) (l c env : Nat)
    (st st1 : State) (ftArgs : List Ty) (ret : Ty) (fn : Node) (b : Option Builtin)
    (slots : List Nat) (venv : Nat)
    (hf : Node.eval fuel func env st =
      Result.ok (Meta.mk (some (Ty.function ftArgs ret)) (Value.f fn b slots (some venv))) st1)
    (hlen : ftArgs.length = args.length) :
    Node.eval (fuel + 1) (Node.call func args l c) env st =
      (callArgs (Node.eval fuel) slots (some venv) ftArgs args 0 env st1).bind (fun r st2 =>
        match r with
        | none => Result.ok Meta.absent st2
        | some _ => Node.eval fuel fn venv st2) := by
  simp [Node.eval, hf, Result.bind, Meta.isFunction, Meta.type, Ty.kind, Meta.value, hlen]

theorem call_inc (fuel env venv : Nat) (st : State) (ve : Env) (old : Meta) (v : Int)
    (xl xc il ic al ac dl dc : Nat)
    (hinc : st.lookup env "inc" =
      some (Meta.mk (some (Ty.function [INT] INT))
        (Value.f (Node.doNode [Node.add [Node.variable "x" xl xc, Node.int 1 il ic] al ac] dl dc)
          none [0] (some venv))))
    (hve : st.env venv = some ve) (hord : ve.entryOrder[0]? = some "x")
    (hold : mapFind ve.entries "x" = some old) :
    Term.eval (fuel + 5) (incCall v) env st =
      Result.ok (Node.call (Node.variable "inc" 2 2) [Node.int v 2 6] 2 1) st ∧
    Node.eval (fuel + 5) (Node.call (Node.variable "inc" 2 2) [Node.int v 2 6] 2 1) env st =
      Result.ok (Meta.mk (some INT) (Value.i (wrapSigned 64 (v + 1))))
        { st with
          envs := st.envs.set venv
                    { ve with entries := mapAssign ve.entries "x" (Meta.mk (some INT) (Value.i v)) } } := by
  have hel : Term.eval (fuel + 5) (incCall v) env st =
      Result.ok (Node.call (Node.variable "inc" 2 2) [Node.int v 2 6] 2 1) st := by
    unfold incCall
    rw [Term.eval_block_call (fuel + 3) "inc" 2 2 _ 2 1 env st _ hinc rfl rfl rfl]
    simp only [call, List.drop_succ_cons, List.drop_zero, elabEach, Term.elaborate_int, Result.bind]
  have hset : ve.setEntry 0 (Meta.mk (some INT) (Value.i v)) =
      some { ve with entries := mapAssign ve.entries "x" (Meta.mk (some INT) (Value.i v)) } := by
    simp [Env.setEntry, hord, hold,
      Meta.assign_of_carried old _ (int_carried v).1
        (fun hc => by rw [(int_carried v).2] at hc; cases hc)]
  have himp : INT.implicitly INT = true := by decide
  have hargs : callArgs (Node.eval (fuel + 4)) [0] (some venv) [INT] [Node.int v 2 6] 0 env st =
      Result.ok (some ())
        { st with
          envs := st.envs.set venv
                    { ve with entries := mapAssign ve.entries "x" (Meta.mk (some INT) (Value.i v)) } } := by
    simp only [callArgs, Node.eval_int, Result.bind, Meta.type, himp, Bool.true_eq_false,
      if_false, List.getElem?_cons_zero, hve, hset]
  have hx : ({ st with
        envs := st.envs.set venv
                  { ve with entries := mapAssign ve.entries "x" (Meta.mk (some INT) (Value.i v)) } } :
      State).lookup venv "x" = some (Meta.mk (some INT) (Value.i v)) := by
    apply State.lookup_local _ venv "x"
      { ve with entries := mapAssign ve.entries "x" (Meta.mk (some INT) (Value.i v)) }
    · rw [State.env_set st venv ve _ hve venv]
      simp
    · exact mapFind_mapAssign_same ve.entries "x" _
  have hbody : ∀ (s : State), s.lookup venv "x" = some (Meta.mk (some INT) (Value.i v)) →
      Node.eval (fuel + 4)
        (Node.doNode [Node.add [Node.variable "x" xl xc, Node.int 1 il ic] al ac] dl dc) venv s =
      Result.ok (Meta.mk (some INT) (Value.i (wrapSigned 64 (v + 1)))) s := by
    intro s hs
    have h1 : Node.eval (fuel + 4)
        (Node.doNode [Node.add [Node.variable "x" xl xc, Node.int 1 il ic] al ac] dl dc) venv s =
        Node.eval (fuel + 3) (Node.add [Node.variable "x" xl xc, Node.int 1 il ic] al ac)
          venv s := rfl
    have h2 : Node.eval (fuel + 3) (Node.add [Node.variable "x" xl xc, Node.int 1 il ic] al ac)
        venv s =
        (Node.eval (fuel + 2) (Node.variable "x" xl xc) venv s).bind (fun m st1 =>
          foldParams (Node.eval (fuel + 2)) Basil.add [Node.int 1 il ic] m venv st1) := rfl
    rw [h1, h2, Node.eval_variable_bound _ _ _ _ _ _ _ hs (int_carried v).1]
    simp only [Result.bind, foldParams, Node.eval_int, add_int_int]
  have hfun : Node.eval (fuel + 4) (Node.variable "inc" 2 2) env st = Result.ok _ st :=
    Node.eval_variable_bound _ _ _ _ _ _ _ hinc rfl
  refine ⟨hel, ?_⟩
  rw [Node.eval_call_function (fuel + 4) _ _ 2 1 env st st [INT] INT _ none [0] venv hfun rfl,
    hargs]
  simp only [Result.bind]
  exact hbody _ hx

set_option maxRecDepth 100000 in
theorem letInc_defines :
    ∃ (st1 : State) (ve : Env) (old : Meta),
      runTerm 10 letInc State.start =
        Result.ok (Meta.mk (some (Ty.function [INT] INT))
          (Value.f (Node.doNode [Node.add [Node.variable "x" 1 21, Node.int 1 1 23] 1 18] 1 18)
            none [0] (some 3))) st1 ∧
      st1.lookup globalEnv "inc" =
        some (Meta.mk (some (Ty.function [INT] INT))
          (Value.f (Node.doNode [Node.add [Node.variable "x" 1 21, Node.int 1 1 23] 1 18] 1 18)
            none [0] (some 3))) ∧
      st1.env 3 = some ve ∧ ve.entryOrder[0]? = some "x" ∧ mapFind ve.entries "x" = some old ∧
      st1.countErrors = 0 ∧ st1.errorFrames = [] :=
  ⟨_, _, _, rfl, rfl, rfl, rfl, rfl, rfl, rfl⟩

/-- C20. From the root environment, where `x` is unbound,
`(let inc (int x) (+ x 1))` reports no error and binds `inc` to a function of
type `(function i64 -> i64)` with one argument slot and a captured environment;
for every integer `v` the call `(inc v)` then reports no error and returns
`Meta(INT, v + 1 wrapped to 64 bits)`: the argument is written into the slot of
the captured environment and the body is evaluated there. -/
theorem call_user_function (v : Int) :
    State.start.lookup globalEnv "x" = none ∧
    ∃ (f : Meta) (st1 st2 : State),
      runTerm 10 letInc State.start = Result.ok f st1 ∧
      f.type = some (Ty.function [INT] INT) ∧
      (Ty.function [INT] INT).format = "(function i64 -> i64)" ∧
      st1.lookup globalEnv "inc" = some f ∧
      st1.countErrors = 0 ∧
      runTerm 10 (incCall v) st1 =
        Result.ok (Meta.mk (some INT) (Value.i (wrapSigned 64 (v + 1)))) st2 ∧
      st2.countErrors = 0 ∧
      (∃ (venv : Nat) (fn : Node) (b : Option Builtin) (slots : List Nat),
        f.value = Value.f fn b slots (some venv) ∧
        st2.lookup venv "x" = some (Meta.mk (some INT) (Value.i v))) := by
  obtain ⟨st1, ve, old, h1, h2, h3, h4, h5, h6, h7⟩ := letInc_defines
  obtain ⟨hel, hev⟩ := call_inc 5 globalEnv 3 st1 ve old v 1 21 1 23 1 18 1 18 h2 h3 h4 h5
  refine ⟨rfl, _, st1,
    { st1 with
      envs := st1.envs.set 3
                { ve with entries := mapAssign ve.entries "x" (Meta.mk (some INT) (Value.i v)) } },
    h1, rfl, by decide, h2, h6, ?_, ?_, ?_⟩
  · simp only [runTerm, hel, Result.bind]
    exact hev
  · simp only [State.countErrors, h7] at h6 ⊢
    exact h6
  · refine ⟨3, _, _, _, rfl, ?_⟩
    apply State.lookup_local _ 3 "x"
      { ve with entries := mapAssign ve.entries "x" (Meta.mk (some INT) (Value.i v)) }
    · rw [State.env_set st1 3 ve _ h3 3]
      simp
    · exact mapFind_mapAssign_same ve.entries "x" _

/-! ## Conversions through runtime types, arrays and sums -/

theorem Ty.implicitly_unwrapped : ∀ (a o : Ty), a.implicitly o = a.unwrapped.implicitly o
  | base _, _ => rfl
  | number _ _, _ => rfl
  | function _ _, _ => rfl
  | macroTy _ _, _ => rfl
  | array _ _, _ => rfl
  | sum _, _ => rfl
  | intersect _, _ => rfl
  | named _ _, _ => rfl
  | runtime c, o => by
      simp only [implicitly, Ty.unwrapped]
      exact Ty.implicitly_unwrapped c o

theorem Ty.unwrapped_kind : ∀ (a : Ty), kind a.unwrapped ≠ Kind.RUNTIME
  | base _ => by simp [Ty.unwrapped, kind]
  | number _ _ => by simp [Ty.unwrapped, kind]
  | function _ _ => by simp [Ty.unwrapped, kind]
  | macroTy _ _ => by simp [Ty.unwrapped, kind]
  | array _ _ => by simp [Ty.unwrapped, kind]
  | sum _ => by simp [Ty.unwrapped, kind]
  | intersect _ => by simp [Ty.unwrapped, kind]
  | named _ _ => by simp [Ty.unwrapped, kind]
  | runtime c => by simp only [Ty.unwrapped]; exact Ty.unwrapped_kind c

theorem Ty.implicitly_runtime_of_plain (a x : Ty) (ha : kind a ≠ Kind.RUNTIME) :
    a.implicitly (runtime x) = true ↔ (x = a ∨ runtime x ∈ intersectMembers a) := by
  cases a <;> simp [kind] at ha <;>
    simp [implicitly, baseImplicitly, ANY, kind, intersectMembers]

/-- C26. `RuntimeType::implicitly` forwards to its child without the identity
test of `Type::implicitly`: a type converts implicitly to itself exactly when
it is not a runtime type of a runtime type, and `RUNTIME(RUNTIME(INT))` does not
convert implicitly to itself. -/
theorem implicitly_reflexive_iff (a : Ty) :
    (a.implicitly a = true ↔ ∀ c, a ≠ runtime (runtime c)) ∧
    (runtime (runtime INT)).implicitly (runtime (runtime INT)) = false ∧
    (runtime INT).implicitly (runtime INT) = true := by
  refine ⟨?_, by decide, by decide⟩
  cases a with
  | runtime c =>
      cases c with
      | runtime d =>
          simp only [implicitly]
          constructor
          · intro h
            exfalso
            rcases Ty.implicitly_runtime_size d (runtime d) h with h1 | h1
            · have := congrArg sizeOf h1
              simp at this
            · simp at h1
          · intro h
            exact absurd rfl (h d)
      | _ => simp [implicitly, baseImplicitly]
  | _ => simp [implicitly, baseImplicitly]

/-- Counterexample to C27: the 32-bit integer type converts implicitly to the
64-bit integer type `INT`, but not to the runtime type of `INT`. -/
theorem implicitly_runtime_of_wider_fails :
    (number 4 false).implicitly INT = true ∧
    (number 4 false).implicitly (runtime INT) = false := by
  decide

/-- C27, amended. `a.implicitly(RUNTIME(x))` holds exactly when `x` is the type
`a` with its runtime wrappers removed, or that type is an intersection that has
`RUNTIME(x)` among its members; so every type that is not a runtime type
converts implicitly to its own runtime type. -/
theorem implicitly_runtime_iff (a x : Ty) :
    (a.implicitly (runtime x) = true ↔
      (a.unwrapped = x ∨ runtime x ∈ intersectMembers a.unwrapped)) ∧
    (kind a ≠ Kind.RUNTIME → a.implicitly (runtime a) = true) := by
  constructor
  · rw [Ty.implicitly_unwrapped, Ty.implicitly_runtime_of_plain _ _ (Ty.unwrapped_kind a),
      eq_comm]
  · intro h
    exact (Ty.implicitly_runtime_of_plain a a h).mpr (Or.inl rfl)

/-- Counterexample to C28: the array type of three `INT` elements converts
implicitly to the unsized array type of `FLOAT` elements. -/
theorem array_implicitly_other_element :
    array INT 3 ≠ array FLOAT (-1) ∧ FLOAT ≠ INT ∧
    (array INT 3).implicitly (array FLOAT (-1)) = true := by
  decide

/-- C28, amended. For distinct array types `ARRAY(e, n)` and `ARRAY(e2, m)`,
`ARRAY(e, n).implicitly(ARRAY(e2, m))` holds if and only if `m = -1`: an array
converts to every unsized array type, whatever the element types. -/
theorem array_implicitly_iff (e e2 : Ty) (n m : Int) (hne : array e n ≠ array e2 m) :
    (array e n).implicitly (array e2 m) = true ↔ m = -1 := by
  have h1 : ¬ (array e2 m = array e n) := fun h => hne h.symm
  simp [implicitly, baseImplicitly, ANY, h1]

/-- Witness of C28: three `INT` elements into the unsized array of `FLOAT`. -/
theorem array_implicitly_iff_witness :
    array INT 3 ≠ array FLOAT (-1) ∧
    ((array INT 3).implicitly (array FLOAT (-1)) = true ↔ (-1 : Int) = -1) :=
  ⟨by decide, array_implicitly_iff INT FLOAT 3 (-1) (by decide)⟩

/-- Counterexample to C29: the sum of `INT` and `STRING` converts explicitly to
its member `STRING` although it does not convert implicitly to it, neither type
is a number type and the sum is neither an intersection nor a named type; and
the runtime type of `INT` converts explicitly to `FLOAT` although it does not
convert implicitly to it and is not a number type. -/
theorem explicitly_beyond_rules :
    (sum [INT, STRING]).explicitly STRING = true ∧
    (sum [INT, STRING]).implicitly STRING = false ∧
    kind (sum [INT, STRING]) = Kind.SUM ∧ kind STRING = Kind.NAMED ∧
    (runtime INT).explicitly FLOAT = true ∧
    (runtime INT).implicitly FLOAT = false ∧
    kind (runtime INT) = Kind.RUNTIME := by
  decide

/-- C29, amended. If `a.explicitly(b)` holds then `a.implicitly(b)` holds, or
`a` and `b` are both number types, or `a` is `SUM(S)` with `b` in `S`, or `a` is
`NAMED(x)` with `x.explicitly(b)`, or `a` is `RUNTIME(x)` with
`x.explicitly(b)`; an intersection converts to each of its members already
implicitly. -/
theorem explicitly_cases (a b : Ty) (h : a.explicitly b = true) :
    (a.implicitly b = true ∨
      (kind a = Kind.NUMBER ∧ kind b = Kind.NUMBER) ∨
      (∃ ms, a = sum ms ∧ b ∈ ms) ∨
      (∃ x name, a = named x name ∧ x.explicitly b = true) ∨
      (∃ x, a = runtime x ∧ x.explicitly b = true)) ∧
    (∀ ms, b ∈ ms → (intersect ms).implicitly b = true) := by
  refine ⟨?_, fun ms hb => by simp [implicitly, hb]⟩
  cases a with
  | base s => left; simpa [explicitly] using h
  | number s f => right; left; simpa [explicitly, kind] using h
  | function x r => left; simpa [explicitly] using h
  | macroTy x r => left; simpa [explicitly] using h
  | array e c => left; simpa [explicitly] using h
  | sum ms =>
      simp only [explicitly, Bool.or_eq_true, decide_eq_true_eq] at h
      rcases h with h | h
      · left; exact h
      · right; right; left; exact ⟨ms, rfl, h⟩
  | intersect ms => left; simpa [explicitly] using h
  | named x name =>
      simp only [explicitly, Bool.or_eq_true] at h
      rcases h with h | h
      · left; exact h
      · right; right; right; left; exact ⟨x, name, rfl, h⟩
  | runtime x =>
      simp only [explicitly] at h
      right; right; right; right; exact ⟨x, rfl, h⟩

/-- Witness of C29: the sum of `INT` and `STRING` to its member `STRING`. -/
theorem explicitly_cases_witness :
    (sum [INT, STRING]).explicitly STRING = true ∧
    ((sum [INT, STRING]).implicitly STRING = true ∨
      (kind (sum [INT, STRING]) = Kind.NUMBER ∧ kind STRING = Kind.NUMBER) ∨
      (∃ ms, sum [INT, STRING] = sum ms ∧ STRING ∈ ms) ∨
      (∃ x name, sum [INT, STRING] = named x name ∧ x.explicitly STRING = true) ∨
      (∃ x, sum [INT, STRING] = runtime x ∧ x.explicitly STRING = true)) :=
  ⟨by decide, (explicitly_cases (sum [INT, STRING]) STRING (by decide)).1⟩

/-! ## Equality of arrays -/

theorem Meta.eqCore_array (flip : Bool) (e : Ty) (c : Int) (xs ys : List Meta) :
    Meta.eqCore flip (Meta.mk (some (array e c)) (Value.a xs))
        (Meta.mk (some (array e c)) (Value.a ys)) = Meta.eqArray flip xs ys := by
  simp [Meta.eqCore, VOID, CHAR, TYPE, BOOL, SYMBOL, STRING, Meta.isInt, Meta.isFloat, Meta.type,
    kind]

theorem Meta.eqCore_int (flip : Bool) (x y : Int) :
    Meta.eqCore flip (Meta.mk (some INT) (Value.i x)) (Meta.mk (some INT) (Value.i y)) =
      some (decide (x = y)) := by
  simp [Meta.eqCore, VOID, INT, Meta.isInt, Meta.type, Meta.asInt, Meta.value]

theorem Meta.eqArray_int_shorter (xs ys : List Int) :
    Meta.eqArray false (xs.map (fun v => Meta.mk (some INT) (Value.i v)))
      ((xs ++ ys).map (fun v => Meta.mk (some INT) (Value.i v))) = some true := by
  induction xs with
  | nil => cases ys <;> simp [Meta.eqArray]
  | cons x rest ih =>
      simp only [List.map_cons, List.cons_append, Meta.eqArray, Meta.eqCore_int, decide_True]
      exact ih

theorem Meta.eqArray_int_longer (xs : List Int) (y : Int) (ys : List Int) :
    Meta.eqArray false ((xs ++ y :: ys).map (fun v => Meta.mk (some INT) (Value.i v)))
      (xs.map (fun v => Meta.mk (some INT) (Value.i v))) = none := by
  induction xs with
  | nil => simp [Meta.eqArray]
  | cons x rest ih =>
      simp only [List.map_cons, List.cons_append, Meta.eqArray, Meta.eqCore_int, decide_True]
      exact ih

theorem Meta.eqArray_same_length (flip : Bool) :
    ∀ (xs ys : List Meta), xs.length = ys.length →
      (Meta.eqArray flip xs ys = some true ↔
        ∀ (i : Nat) (x y : Meta), xs[i]? = some x → ys[i]? = some y →
          Meta.eqCore flip x y = some true)
  | [], [], _ => by simp [Meta.eqArray]
  | [], _ :: _, h => by simp at h
  | _ :: _, [], h => by simp at h
  | x :: xs, y :: ys, h => by
      have ih := Meta.eqArray_same_length flip xs ys (by simpa using h)
      constructor
      · intro he i a b ha hb
        simp only [Meta.eqArray] at he
        cases hxy : Meta.eqCore flip x y with
        | none => rw [hxy] at he; cases he
        | some r =>
            cases r with
            | false => rw [hxy] at he; cases he
            | true =>
                rw [hxy] at he
                cases i with
                | zero =>
                    simp only [List.getElem?_cons_zero, Option.some.injEq] at ha hb
                    subst ha; subst hb; exact hxy
                | succ j =>
                    simp only [List.getElem?_cons_succ] at ha hb
                    exact ih.mp he j a b ha hb
      · intro hall
        have h0 := hall 0 x y (by simp) (by simp)
        simp only [Meta.eqArray, h0]
        exact ih.mpr (fun i a b ha hb => hall (i + 1) a b (by simpa using ha) (by simpa using hb))

/-- C30. `operator==` on arrays runs over the elements of the left operand only
and never compares the element counts.  For two integer arrays of the unsized
array type of which the left is a proper prefix of the right, `equal` is `BOOL`
true and `inequal` is `BOOL` false although the numbers of elements differ; with
the operands exchanged the loop reads the shorter array out of range.  For two
arrays of one array type and the same number of elements, `equal` is `BOOL`
true if and only if every pair of corresponding elements compares equal. -/
theorem equal_arrays_left_length (xs : List Int) (y : Int) (ys : List Int) :
    equal (intArray (array INT (-1)) xs) (intArray (array INT (-1)) (xs ++ y :: ys)) =
      some (Meta.mk (some BOOL) (Value.b true)) ∧
    inequal (intArray (array INT (-1)) xs) (intArray (array INT (-1)) (xs ++ y :: ys)) =
      some (Meta.mk (some BOOL) (Value.b false)) ∧
    xs.length ≠ (xs ++ y :: ys).length ∧
    equal (intArray (array INT (-1)) (xs ++ y :: ys)) (intArray (array INT (-1)) xs) = none ∧
    (∀ (e : Ty) (c : Int) (ms ns : List Meta), ms.length = ns.length →
      (equal (Meta.mk (some (array e c)) (Value.a ms)) (Meta.mk (some (array e c)) (Value.a ns)) =
          some (Meta.mk (some BOOL) (Value.b true)) ↔
        ∀ (i : Nat) (m n : Meta), ms[i]? = some m → ns[i]? = some n → Meta.eq m n = some true)) := by
  refine ⟨?_, ?_, by simp, ?_, ?_⟩
  · have h := Meta.eqArray_int_shorter xs (y :: ys)
    simp only [equal, intArray, Meta.present, Meta.type, Meta.eq, Meta.eqCore_array, h]
    rfl
  · have h := Meta.eqArray_int_shorter xs (y :: ys)
    simp only [inequal, intArray, Meta.present, Meta.type, Meta.ne, Meta.eq, Meta.eqCore_array, h]
    rfl
  · have h := Meta.eqArray_int_longer xs y ys
    simp only [equal, intArray, Meta.present, Meta.type, Meta.eq, Meta.eqCore_array, h]
    rfl
  · intro e c ms ns hlen
    have h := Meta.eqArray_same_length false ms ns hlen
    simp only [equal, Meta.present, Meta.type, Meta.eq, Meta.eqCore_array]
    simp only [Meta.eq] at h
    rw [← h]
    cases Meta.eqArray false ms ns with
    | none => simp
    | some r => cases r <;> simp

/-! ## Rejected calls -/

theorem Node.eval_ok_not_null (fuel : Nat) (n : Node) (env : Nat) (st st1 : State) (m : Meta)
    (h : Node.eval fuel n env st = Result.ok m st1) : n.isNull = false := by
  cases n with
  | null =>
      cases fuel with
      | zero => simp [Node.eval] at h
      | succ k => simp [Node.eval] at h
  | _ => rfl

theorem Node.position_of_not_null (n : Node) (h : n.isNull = false) :
    ∃ l c, n.line = some l ∧ n.column = some c := by
  cases n <;> simp [Node.isNull] at h <;> simp [Node.line, Node.column]

theorem callArgs_append (ev : Node → Nat → State → Result Meta) (slots : List Nat)
    (localEnv : Option Nat) (ts2 : List Ty) (ns2 : List Node) (env : Nat) :
    ∀ (ts1 : List Ty) (ns1 : List Node) (i : Nat) (st : State), ts1.length = ns1.length →
      callArgs ev slots localEnv (ts1 ++ ts2) (ns1 ++ ns2) i env st =
        (callArgs ev slots localEnv ts1 ns1 i env st).bind (fun r st2 =>
          match r with
          | none => Result.ok none st2
          | some _ => callArgs ev slots localEnv ts2 ns2 (i + ts1.length) env st2)
  | [], [], i, st, _ => by simp [callArgs, Result.bind]
  | [], _ :: _, _, _, h => by simp at h
  | _ :: _, [], _, _, h => by simp at h
  | t :: ts1, n :: ns1, i, st, h => by
      have ih := fun st2 => callArgs_append ev slots localEnv ts2 ns2 env ts1 ns1 (i + 1) st2
        (by simpa using h)
      simp only [List.cons_append, callArgs, List.length_cons]
      cases hev : ev n env st with
      | crash => rfl
      | timeout => rfl
      | ok m st2 =>
          simp only [Result.bind]
          cases hm : m.type with
          | none => rfl
          | some mt =>
              simp only
              cases himp : mt.implicitly t with
              | false =>
                  simp only [if_true]
                  cases n.line <;> cases n.column <;> rfl
              | true =>
                simp only [Bool.true_eq_false, if_false, List.append_eq]
                cases localEnv with
                | none => rfl
                | some addr =>
                    cases slots[i]? with
                    | none => rfl
                    | some slot =>
                        simp only
                        cases st2.env addr with
                        | none => rfl
                        | some e =>
                            simp only
                            cases e.setEntry slot m with
                            | none => rfl
                            | some e2 =>
                                simp only [Result.bind]
                                rw [ih]
                                have : i + 1 + ts1.length = i + (ts1.length + 1) := by omega
                                rw [this]
                                rfl

theorem callArgs_mismatch (ev : Node → Nat → State → Result Meta) (slots : List Nat)
    (localEnv : Option Nat) (t : Ty) (ts : List Ty) (n : Node) (ns : List Node) (i env : Nat)
    (st st1 : State) (m : Meta) (mt : Ty) (al ac : Nat)
    (hev : ev n env st = Result.ok m st1) (hm : m.type = some mt)
    (himp : mt.implicitly t = false) (hl : n.line = some al) (hc : n.column = some ac) :
    callArgs ev slots localEnv (t :: ts) (n :: ns) i env st =
      Result.ok none
        (st1.err Phase.PHASE_TYPE al ac
          ("Incorrect argument type: expected '" ++ t.format ++ "', but found '" ++ mt.format ++
            "'.")) := by
  simp only [callArgs, hev, Result.bind, hm, himp, if_true, hl, hc]

theorem callArgs_absent (ev : Node → Nat → State → Result Meta) (slots : List Nat)
    (localEnv : Option Nat) (t : Ty) (ts : List Ty) (n : Node) (ns : List Node) (i env : Nat)
    (st st1 : State) (m : Meta)
    (hev : ev n env st = Result.ok m st1) (hm : m.present = false) :
    callArgs ev slots localEnv (t :: ts) (n :: ns) i env st = Result.crash := by
  have hty : m.type = none := by
    simpa [Meta.present] using hm
  simp only [callArgs, hev, Result.bind, hty]

theorem Node.eval_call_general (fuel : Nat) (func : Node) (args : List Node) (l c env : Nat)
    (st st1 : State) (ftArgs : List Ty) (ret : Ty) (fn : Node) (b : Option Builtin)
    (slots : List Nat) (localEnv : Option Nat)
    (hf : Node.eval fuel func env st =
      Result.ok (Meta.mk (some (Ty.function ftArgs ret)) (Value.f fn b slots localEnv)) st1)
    (hlen : ftArgs.length = args.length) :
    Node.eval (fuel + 1) (Node.call func args l c) env st =
      (callArgs (Node.eval fuel) slots localEnv ftArgs args 0 env st1).bind (fun r st2 =>
        match r with
        | none => Result.ok Meta.absent st2
        | some _ =>
            match localEnv with
            | some addr => Node.eval fuel fn addr st2
            | none => Result.crash) := by
  cases localEnv <;>
    simp [Node.eval, hf, Result.bind, Meta.isFunction, Meta.type, Ty.kind, Meta.value, hlen]

/-- C21. `Call::eval` returns the absent meta after handing an error of the TYPE
phase to `reportError`, and leaves the store as the evaluation of the callee and
of the arguments left it, for every body node `fn` (the body is not evaluated):
when the callee evaluates to a meta that is not a function (`Could not resolve
function to be called.` at the callee); when the number of arguments differs
from the number of argument types of the function type (`Incorrect number of
arguments: ...` at the call); and when, the arguments before it having been
accepted by the loop, an argument evaluates to a meta whose type does not
convert implicitly to the declared argument type (`Incorrect argument type:
...` at that argument). -/
theorem call_rejects (fuel : Nat) (func : Node) (args : List Node) (l c env : Nat)
    (st st1 : State) (m : Meta)
    (hfunc : Node.eval fuel func env st = Result.ok m st1) :
    (m.isFunction = false →
      ∃ fl fc, func.line = some fl ∧ func.column = some fc ∧
        Node.eval (fuel + 1) (Node.call func args l c) env st =
          Result.ok Meta.absent
            (st1.err Phase.PHASE_TYPE fl fc "Could not resolve function to be called.")) ∧
    (∀ (ftArgs : List Ty) (ret : Ty) (fn : Node) (b : Option Builtin) (slots : List Nat)
        (localEnv : Option Nat),
      m = Meta.mk (some (Ty.function ftArgs ret)) (Value.f fn b slots localEnv) →
      (ftArgs.length ≠ args.length →
        Node.eval (fuel + 1) (Node.call func args l c) env st =
          Result.ok Meta.absent
            (st1.err Phase.PHASE_TYPE l c
              ("Incorrect number of arguments: expected " ++ writeU32 ftArgs.length ++
                ", found " ++ writeU32 args.length ++ "."))) ∧
      (∀ (ts1 : List Ty) (t : Ty) (ts2 : List Ty) (ns1 : List Node) (n : Node) (ns2 : List Node)
          (st2 st3 : State) (am : Meta) (mt : Ty) (al ac : Nat),
        ftArgs = ts1 ++ t :: ts2 → args = ns1 ++ n :: ns2 →
        ts1.length = ns1.length → ts2.length = ns2.length →
        callArgs (Node.eval fuel) slots localEnv ts1 ns1 0 env st1 = Result.ok (some ()) st2 →
        Node.eval fuel n env st2 = Result.ok am st3 → am.type = some mt →
        mt.implicitly t = false → n.line = some al → n.column = some ac →
        Node.eval (fuel + 1) (Node.call func args l c) env st =
          Result.ok Meta.absent
            (st3.err Phase.PHASE_TYPE al ac
              ("Incorrect argument type: expected '" ++ t.format ++ "', but found '" ++
                mt.format ++ "'.")))) := by
  refine ⟨?_, ?_⟩
  · intro hnf
    obtain ⟨fl, fc, hfl, hfc⟩ :=
      Node.position_of_not_null func (Node.eval_ok_not_null fuel func env st st1 m hfunc)
    refine ⟨fl, fc, hfl, hfc, ?_⟩
    simp [Node.eval, hfunc, Result.bind, hnf, hfl, hfc]
  · intro ftArgs ret fn b slots localEnv hm
    subst hm
    refine ⟨?_, ?_⟩
    · intro hlen
      simp [Node.eval, hfunc, Result.bind, Meta.isFunction, Meta.type, Ty.kind, Meta.value, hlen]
    · intro ts1 t ts2 ns1 n ns2 st2 st3 am mt al ac hts hns hl1 hl2 hpre harg hmt himp hal hac
      subst hts
      subst hns
      have hlen : (ts1 ++ t :: ts2).length = (ns1 ++ n :: ns2).length := by
        simp [hl1, hl2]
      rw [Node.eval_call_general fuel func _ l c env st st1 _ ret fn b slots localEnv
        hfunc hlen,
        callArgs_append (Node.eval fuel) slots localEnv (t :: ts2) (n :: ns2) env ts1 ns1 0 st1 hl1,
        hpre]
      simp only [Result.bind]
      rw [callArgs_mismatch (Node.eval fuel) slots localEnv t ts2 n ns2 _ env st2 st3 am mt al ac
        harg hmt himp hal hac]

/-- Witness of C21: the literal `1` as callee, and a function of one `INT`
argument with a null body called with no argument and with a string. -/
theorem call_rejects_witness :
    (∃ fl fc, (Node.int 1 1 2).line = some fl ∧ (Node.int 1 1 2).column = some fc ∧
      Node.eval 2 (Node.call (Node.int 1 1 2) [] 1 1) globalEnv State.start =
        Result.ok Meta.absent
          (State.start.err Phase.PHASE_TYPE fl fc "Could not resolve function to be called.")) ∧
    Node.eval 2
        (Node.call
          (Node.constant
            (Meta.mk (some (Ty.function [INT] INT)) (Value.f Node.null none [0] (some 0))) 1 2)
          [] 1 1) globalEnv State.start =
      Result.ok Meta.absent
        (State.start.err Phase.PHASE_TYPE 1 1
          ("Incorrect number of arguments: expected " ++ writeU32 [INT].length ++
            ", found " ++ writeU32 ([] : List Node).length ++ ".")) ∧
    Node.eval 2
        (Node.call
          (Node.constant
            (Meta.mk (some (Ty.function [INT] INT)) (Value.f Node.null none [0] (some 0))) 1 2)
          ([] ++ Node.string "a" 1 4 :: []) 1 1) globalEnv State.start =
      Result.ok Meta.absent
        (State.start.err Phase.PHASE_TYPE 1 4
          ("Incorrect argument type: expected '" ++ INT.format ++ "', but found '" ++
            STRING.format ++ "'.")) :=
  ⟨(call_rejects 1 (Node.int 1 1 2) [] 1 1 globalEnv State.start State.start
      (Meta.mk (some INT) (Value.i 1)) rfl).1 rfl,
   ((call_rejects 1
      (Node.constant
        (Meta.mk (some (Ty.function [INT] INT)) (Value.f Node.null none [0] (some 0))) 1 2)
      [] 1 1 globalEnv State.start State.start
      (Meta.mk (some (Ty.function [INT] INT)) (Value.f Node.null none [0] (some 0))) rfl).2
      [INT] INT Node.null none [0] (some 0) rfl).1 (by decide),
   ((call_rejects 1
      (Node.constant
        (Meta.mk (some (Ty.function [INT] INT)) (Value.f Node.null none [0] (some 0))) 1 2)
      ([] ++ Node.string "a" 1 4 :: []) 1 1 globalEnv State.start State.start
      (Meta.mk (some (Ty.function [INT] INT)) (Value.f Node.null none [0] (some 0))) rfl).2
      [INT] INT Node.null none [0] (some 0) rfl).2
      [] INT [] [] (Node.string "a" 1 4) [] State.start State.start
      (Meta.mk (some STRING) (Value.s "a")) STRING 1 4 rfl rfl rfl rfl rfl rfl rfl (by decide)
      rfl rfl⟩

/-! ## Absent arguments -/

/-- C22. `Call::eval` reads the type of every argument value without testing
the value: when the callee is a function whose number of argument types is the
number of arguments and, the arguments before it having been accepted by the
loop, an argument evaluates to the absent meta, the call dereferences the null
type handle of that meta instead of returning the absent meta.  After
`(let inc (int x) (+ x 1))`, the call `(inc y)` with `y` undefined elaborates
to a node and evaluating that node ends this way. -/
theorem call_absent_argument (fuel : Nat) (func : Node) (l c env : Nat) (st st1 st2 st3 : State)
    (ts1 : List Ty) (t : Ty) (ts2 : List Ty) (ret : Ty) (fn : Node) (b : Option Builtin)
    (slots : List Nat) (localEnv : Option Nat) (ns1 : List Node) (n : Node) (ns2 : List Node)
    (am : Meta)
    (hfunc : Node.eval fuel func env st =
      Result.ok (Meta.mk (some (Ty.function (ts1 ++ t :: ts2) ret)) (Value.f fn b slots localEnv))
        st1)
    (hl1 : ts1.length = ns1.length) (hl2 : ts2.length = ns2.length)
    (hpre : callArgs (Node.eval fuel) slots localEnv ts1 ns1 0 env st1 = Result.ok (some ()) st2)
    (harg : Node.eval fuel n env st2 = Result.ok am st3) (habs : am.present = false) :
    Node.eval (fuel + 1) (Node.call func (ns1 ++ n :: ns2) l c) env st = Result.crash ∧
    (runTerms 10 [letInc] State.start).crashed = false ∧
    ((runTerms 10 [letInc] State.start).state?.map
      (fun s => (Term.eval 10 incY globalEnv s).crashed)) = some false ∧
    (runTerms 10 [letInc, incY] State.start).crashed = true := by
  refine ⟨?_, by decide, by decide, by decide⟩
  have hlen : (ts1 ++ t :: ts2).length = (ns1 ++ n :: ns2).length := by
    simp [hl1, hl2]
  rw [Node.eval_call_general fuel func _ l c env st st1 _ ret fn b slots localEnv hfunc hlen,
    callArgs_append (Node.eval fuel) slots localEnv (t :: ts2) (n :: ns2) env ts1 ns1 0 st1 hl1,
    hpre]
  simp only [Result.bind]
  rw [callArgs_absent (Node.eval fuel) slots localEnv t ts2 n ns2 _ env st2 st3 am harg habs]

/-- Witness of C22: a function of one `INT` argument called with the variable
`y`, which the global environment does not bind. -/
theorem call_absent_argument_witness :
    (Meta.absent).present = false ∧
    Node.eval 2
        (Node.call
          (Node.constant
            (Meta.mk (some (Ty.function ([] ++ INT :: []) INT)) (Value.f Node.null none [0] (some 0)))
            1 2)
          ([] ++ Node.variable "y" 1 4 :: []) 1 1) globalEnv State.start = Result.crash :=
  ⟨rfl,
   (call_absent_argument 1
      (Node.constant
        (Meta.mk (some (Ty.function ([] ++ INT :: []) INT)) (Value.f Node.null none [0] (some 0)))
        1 2)
      1 1 globalEnv State.start State.start State.start
      (State.start.err Phase.PHASE_TYPE 1 4 ("Undefined variable '" ++ "y" ++ "'."))
      [] INT [] INT Node.null none [0] (some 0) [] (Node.variable "y" 1 4) [] Meta.absent
      rfl rfl rfl rfl rfl rfl).1⟩

/-! ## Definitions with a declared type and an initializer -/

/-- C23. For a `Define` node whose initializer evaluates to a meta of type `it`
and whose type node evaluates to the type value `T`: when `it` does not convert
implicitly to `T`, `Define::eval` returns the absent meta, hands the error
`Could not convert initial value of type '<it>' to definition type '<T>'.` of
the TYPE phase at the position of the initializer to `reportError`, and leaves
every environment as the evaluation of the initializer and of the type node
left it, so that none of the names is entered.  When `it` converts implicitly
to `T`, it enters every name with the value of the initializer and returns that
value: where the calls of `enter` are defined, every name is then bound to a
meta of the type of the value, and to the value itself when `Meta::copy` and
`Meta::assign` have a branch for it; they are defined, and every name is bound
to the value, when there is such a branch and, for a reference counted value,
the unions it replaces may be released.  A `CHAR` value is bound without its
payload. -/
theorem define_checks_initializer (fuel : Nat) (type init : Node) (names : List String)
    (l c env : Nat) (st st1 st2 : State) (initval typeval : Meta) (it T : Ty)
    (hinit : Node.eval fuel init env st = Result.ok initval st1)
    (hit : initval.type = some it)
    (htype : Node.eval fuel type env st1 = Result.ok typeval st2)
    (hisType : typeval.isType = true) (hasType : typeval.asType = some T) :
    (it.implicitly T = false →
      ∃ il ic, init.line = some il ∧ init.column = some ic ∧
        Node.eval (fuel + 1) (Node.define type names init l c) env st =
          Result.ok Meta.absent
            (st2.err Phase.PHASE_TYPE il ic
              ("Could not convert initial value of type '" ++ it.format ++
                "' to definition type '" ++ T.format ++ "'.")) ∧
        (st2.err Phase.PHASE_TYPE il ic
              ("Could not convert initial value of type '" ++ it.format ++
                "' to definition type '" ++ T.format ++ "'.")).envs = st2.envs ∧
        ∀ name, (st2.err Phase.PHASE_TYPE il ic
              ("Could not convert initial value of type '" ++ it.format ++
                "' to definition type '" ++ T.format ++ "'.")).lookup env name =
            st2.lookup env name) ∧
    (it.implicitly T = true →
      (∀ st3, st2.enterAll env names initval = some st3 →
        Node.eval (fuel + 1) (Node.define type names init l c) env st = Result.ok initval st3 ∧
        ∀ name ∈ names, ∃ stored, st3.lookup env name = some stored ∧
          stored.type = initval.type ∧ (initval.carried = true → stored = initval)) ∧
      (st2.enterAll env names initval = none →
        Node.eval (fuel + 1) (Node.define type names init l c) env st = Result.crash) ∧
      (∀ e, st2.env env = some e → initval.carried = true →
        (initval.counted = true → initval.value.releasable = true ∧
          ∀ name ∈ names, ∀ old, mapFind e.entries name = some old → old.present = true →
            old.value.releasable = true) →
        ∃ st3, Node.eval (fuel + 1) (Node.define type names init l c) env st =
            Result.ok initval st3 ∧
          ∀ name ∈ names, st3.lookup env name = some initval)) ∧
    (Node.eval 1 (Node.char 97 1 8) globalEnv State.start).val? =
      some (Meta.mk (some CHAR) (Value.c 97)) ∧
    (Node.eval 2 (Node.define (Node.constant (Meta.mk (some TYPE) (Value.t CHAR)) 1 2) ["c"]
        (Node.char 97 1 8) 1 1) globalEnv State.start).state?.bind
        (fun s => s.lookup globalEnv "c") =
      some (Meta.mk (some CHAR) Value.none) := by
  have hnn := Node.eval_ok_not_null fuel init env st st1 initval hinit
  have htn := Node.eval_ok_not_null fuel type env st1 st2 typeval htype
  have henvs : ∀ (s : State) (ph : Phase) (a b : Nat) (text : String),
      (s.err ph a b text).envs = s.envs := by
    intro s ph a b text
    unfold State.err State.reportError
    split <;> split <;> first | rfl | (split <;> rfl)
  refine ⟨?_, ?_, rfl, rfl⟩
  · intro himp
    obtain ⟨il, ic, hil, hic⟩ := Node.position_of_not_null init hnn
    refine ⟨il, ic, hil, hic, ?_, henvs _ _ _ _ _, ?_⟩
    · simp [Node.eval, hnn, htn, hinit, htype, Result.bind, hisType, hasType, hit, himp, hil, hic]
    · intro name
      exact State.lookup_congr _ _ (henvs _ _ _ _ _) env name
  · intro himp
    refine ⟨?_, ?_, ?_⟩
    · intro st3 h3
      refine ⟨?_, ?_⟩
      · simp [Node.eval, hnn, htn, hinit, htype, Result.bind, hisType, hasType, hit, himp, h3]
      · intro name hmem
        obtain ⟨e3, stored, h3e, hs, ht, hcar⟩ :=
          State.enterAll_stored names initval st2 st3 env h3 name hmem
        exact ⟨stored, State.lookup_local st3 env name e3 _ h3e hs, ht, hcar⟩
    · intro h3
      simp [Node.eval, hnn, htn, hinit, htype, Result.bind, hisType, hasType, hit, himp, h3]
    · intro e he hcar hrel
      obtain ⟨st3, e3, h3, h3e, _, hall⟩ :=
        State.enterAll_spec names initval hcar (fun hc => (hrel hc).1) st2 env e he
          (fun hc => (hrel hc).2)
      refine ⟨st3, ?_, ?_⟩
      · simp [Node.eval, hnn, htn, hinit, htype, Result.bind, hisType, hasType, hit, himp, h3]
      · intro name hmem
        exact State.lookup_local st3 env name e3 _ h3e (hall name hmem)

/-- Witness of C23: the nodes of `(int y "a")` and of `(int y 5)` in the global
environment. -/
theorem define_checks_initializer_witness :
    (∃ il ic, (Node.string "a" 1 8).line = some il ∧ (Node.string "a" 1 8).column = some ic ∧
      Node.eval 2 (Node.define (Node.variable "int" 1 2) ["y"] (Node.string "a" 1 8) 1 1)
          globalEnv State.start =
        Result.ok Meta.absent
          (State.start.err Phase.PHASE_TYPE il ic
            ("Could not convert initial value of type '" ++ STRING.format ++
              "' to definition type '" ++ INT.format ++ "'."))) ∧
    (∃ st3, Node.eval 2 (Node.define (Node.variable "int" 1 2) ["y"] (Node.int 5 1 8) 1 1)
          globalEnv State.start =
        Result.ok (Meta.mk (some INT) (Value.i 5)) st3 ∧
      ∀ name ∈ ["y"], st3.lookup globalEnv name = some (Meta.mk (some INT) (Value.i 5))) :=
  ⟨by
    obtain ⟨il, ic, h1, h2, h3, _⟩ :=
      (define_checks_initializer 1 (Node.variable "int" 1 2) (Node.string "a" 1 8) ["y"] 1 1
        globalEnv State.start State.start State.start (Meta.mk (some STRING) (Value.s "a"))
        (Meta.mk (some TYPE) (Value.t INT)) STRING INT rfl rfl rfl (by decide) rfl).1 (by decide)
    exact ⟨il, ic, h1, h2, h3⟩,
   ((define_checks_initializer 1 (Node.variable "int" 1 2) (Node.int 5 1 8) ["y"] 1 1
      globalEnv State.start State.start State.start (Meta.mk (some INT) (Value.i 5))
      (Meta.mk (some TYPE) (Value.t INT)) INT INT rfl rfl rfl (by decide) rfl).2.1
      (by decide)).2.2 { entries := [], entryOrder := [], parent := some 0 } rfl rfl
      (fun hc => by cases hc)⟩

/-! ## Blocks whose head is neither a type nor a function -/

/-- C24. When the head of a block elaborates to a node that evaluates to a meta
that is neither a type value nor a function, `BlockTerm::eval` returns the null
node and hands the error `First term in block is not a type or function.` of
the TYPE phase at the position of the head term to `reportError`; for `(1 2)`
from the root environment this is the one error of the run, at line 1,
column 2. -/
theorem block_head_not_callable (fuel : Nat) (head : Term) (rest : List Term) (l c env : Nat)
    (st st1 st2 : State) (n : Node) (m : Meta)
    (hhead : Term.eval fuel head env st = Result.ok n st1)
    (hnode : Node.eval fuel n env st1 = Result.ok m st2)
    (hty : m.isType = false) (hfn : m.isFunction = false) :
    Term.eval (fuel + 1) (Term.block (head :: rest) l c) env st =
      Result.ok Node.null
        (st2.err Phase.PHASE_TYPE head.line head.column
          "First term in block is not a type or function.") ∧
    (Term.eval 10 oneTwo globalEnv State.start).val?.map Node.isNull = some true ∧
    (Term.eval 10 oneTwo globalEnv State.start).state?.map State.errors =
      some [{ line := 1, column := 2,
              message := "[TYPE ERROR] First term in block is not a type or function." }] := by
  refine ⟨?_, by decide, by decide⟩
  have h1 : Term.eval (fuel + 1) (Term.block (head :: rest) l c) env st =
      (Term.eval fuel head env st).bind (fun n st1 =>
        (Node.eval fuel n env st1).bind (fun m st2 =>
          if m.isType then declare (Term.eval fuel) (Node.eval fuel) env n (head :: rest) l c st2
          else if m.isFunction && m.builtin.isSome then
            match m.builtin with
            | some Builtin.define => define (Term.eval fuel) env (head :: rest) l c st2
            | some Builtin.lambda => Basil.lambda (Term.eval fuel) env (head :: rest) l c st2
            | some Builtin.add => arithBuiltin (Term.eval fuel) Node.add "+" env (head :: rest) l c st2
            | some Builtin.subtract =>
                arithBuiltin (Term.eval fuel) Node.subtract "-" env (head :: rest) l c st2
            | some Builtin.multiply =>
                arithBuiltin (Term.eval fuel) Node.multiply "*" env (head :: rest) l c st2
            | some Builtin.divide =>
                arithBuiltin (Term.eval fuel) Node.divide "/" env (head :: rest) l c st2
            | some Builtin.quote => quoteBuiltin (head :: rest) l c st2
            | some Builtin.doBlock => doBlock (Term.eval fuel) env (head :: rest) l c st2
            | none => Result.crash
          else if m.isFunction then call (Term.eval fuel) env n (head :: rest) l c st2
          else
            Result.ok Node.null
              (st2.err Phase.PHASE_TYPE head.line head.column
                "First term in block is not a type or function."))) := rfl
  rw [h1, hhead, Result.bind, hnode, Result.bind]
  simp only [hty, hfn, Bool.false_and, Bool.false_eq_true, if_false]

/-- Witness of C24: the block `(1 2)` in the global environment. -/
theorem block_head_not_callable_witness :
    Term.eval 2 (Term.block (Term.int 1 1 2 :: [Term.int 2 1 4]) 1 1) globalEnv State.start =
      Result.ok Node.null
        (State.start.err Phase.PHASE_TYPE (Term.int 1 1 2).line (Term.int 1 1 2).column
          "First term in block is not a type or function.") :=
  (block_head_not_callable 1 (Term.int 1 1 2) [Term.int 2 1 4] 1 1 globalEnv State.start
    State.start State.start (Node.int 1 1 2) (Meta.mk (some INT) (Value.i 1)) rfl rfl
    (by decide) (by decide)).1

/-! ## Misuse of `let` in the variable form -/

theorem Term.quoteAll_append_snd (b : List Term) :
    ∀ (a : List Term) (s : SymbolTable),
      (Term.quoteAll (a ++ b) s).2 = (Term.quoteAll b (Term.quoteAll a s).2).2
  | [], s => by simp [Term.quoteAll]
  | t :: ts, s => by
      simp only [List.cons_append, Term.quoteAll]
      exact Term.quoteAll_append_snd b ts _

theorem Term.quoteAll_single_snd (t : Term) (s : SymbolTable) :
    (Term.quoteAll [t] s).2 = (t.quote s).2 := by
  simp [Term.quoteAll]

theorem Term.quote_isArray (t : Term) (s : SymbolTable) : (t.quote s).1.isArray = t.isBlock := by
  cases t <;> simp [Term.quote, Meta.isArray, Meta.type, kind, Term.isBlock, INT, FLOAT, CHAR,
    STRING, SYMBOL]

theorem Term.quote_isSymbol : ∀ (t : Term) (s : SymbolTable),
    (∀ name l c, t ≠ Term.variable name l c) → (t.quote s).1.isSymbol = false
  | Term.variable name l c, _, h => absurd rfl (h name l c)
  | Term.int _ _ _, _, _ => by simp [Term.quote, Meta.isSymbol, Meta.type, INT, SYMBOL]
  | Term.float _ _ _, _, _ => by simp [Term.quote, Meta.isSymbol, Meta.type, FLOAT, SYMBOL]
  | Term.char _ _ _, _, _ => by simp [Term.quote, Meta.isSymbol, Meta.type, CHAR, SYMBOL]
  | Term.string _ _ _, _, _ => by simp [Term.quote, Meta.isSymbol, Meta.type, STRING, SYMBOL]
  | Term.block _ _ _, _, _ => by simp [Term.quote, Meta.isSymbol, Meta.type, SYMBOL]

theorem varTerms_symbols_wellFormed :
    ∀ (vars : List (String × Nat × Nat)) (s : SymbolTable), WellFormedSymbols s →
      WellFormedSymbols (Term.quoteAll (varTerms vars) s).2
  | [], s, h => by simpa [varTerms, Term.quoteAll] using h
  | v :: vs, s, h => by
      simp only [varTerms, List.map_cons, Term.quoteAll, Term.quote_variable]
      exact varTerms_symbols_wellFormed vs _ (findSymbol_wellFormed v.1 s h)

theorem collectNames_fresh (env : Nat) (rest : List Term) :
    ∀ (vars : List (String × Nat × Nat)) (i : Nat) (acc : List String) (st : State),
      WellFormedSymbols st.symbols → (∀ v ∈ vars, st.lookup env v.1 = none) →
      collectNames env (varTerms vars ++ rest) i acc st =
        collectNames env rest (i + vars.length) (acc ++ vars.map Prod.fst)
          { st with symbols := (Term.quoteAll (varTerms vars) st.symbols).2 }
  | [], i, acc, st, _, _ => by simp [varTerms, Term.quoteAll]
  | v :: vs, i, acc, st, hw, hf => by
      have hround := findSymbol_round_trip st.symbols hw v.1
      have hlook : ({ st with symbols := (findSymbol v.1 st.symbols).2 } : State).lookup env v.1 =
          none :=
        (State.lookup_congr st { st with symbols := (findSymbol v.1 st.symbols).2 } rfl env
          v.1).trans (hf v (by simp))
      have ih := collectNames_fresh env rest vs (i + 1) (acc ++ [v.1])
        { st with symbols := (findSymbol v.1 st.symbols).2 }
        (findSymbol_wellFormed v.1 st.symbols hw)
        (fun w hw2 =>
          (State.lookup_congr st { st with symbols := (findSymbol v.1 st.symbols).2 } rfl env
            w.1).trans (hf w (by simp [hw2])))
      simp only [varTerms] at ih
      simp only [varTerms, List.map_cons, List.cons_append, collectNames, Term.quote_variable,
        Meta.symbol_isArray, Meta.symbol_isSymbol, Meta.symbol_asInt, hround, hlook,
        Bool.false_and, Bool.not_true, Option.isSome_none, Bool.or_self, Bool.false_eq_true,
        if_false, Term.quoteAll, List.length_cons, List.append_eq]
      rw [ih]
      have h1 : i + 1 + vs.length = i + (vs.length + 1) := by omega
      have h2 : acc ++ [v.1] ++ List.map Prod.fst vs = acc ++ v.1 :: List.map Prod.fst vs := by
        simp
      rw [h1, h2]

theorem collectNames_stop_variable (env i : Nat) (acc : List String) (st : State)
    (name : String) (l c : Nat) (more : List Term) (hw : WellFormedSymbols st.symbols)
    (hsome : (st.lookup env name).isSome = true) :
    collectNames env (Term.variable name l c :: more) i acc st =
      ({ names := acc, fnargs := none, i := i },
       { st with symbols := ((Term.variable name l c).quote st.symbols).2 }) := by
  have hround := findSymbol_round_trip st.symbols hw name
  have hlook : (({ st with symbols := (findSymbol name st.symbols).2 } : State).lookup env
      name).isSome = true := by
    rw [State.lookup_congr st { st with symbols := (findSymbol name st.symbols).2 } rfl env
      name]
    exact hsome
  simp only [collectNames, Term.quote_variable, Meta.symbol_isArray, Meta.symbol_isSymbol,
    Meta.symbol_asInt, hround, hlook, Bool.false_and, Bool.false_eq_true,
    if_false, Bool.not_true, Bool.or_true, if_true]

theorem collectNames_stop_other (env i : Nat) (acc : List String) (st : State) (t : Term)
    (more : List Term) (hv : ∀ name l c, t ≠ Term.variable name l c) :
    collectNames env (t :: more) i acc st =
      (if t.isBlock && !more.isEmpty then { names := acc, fnargs := some t, i := i + 1 }
       else { names := acc, fnargs := none, i := i },
       { st with symbols := (t.quote st.symbols).2 }) := by
  have ha := Term.quote_isArray t st.symbols
  have hs := Term.quote_isSymbol t st.symbols hv
  simp only [collectNames, ha, hs, Bool.not_false, Bool.true_or, if_true]
  split <;> rfl

theorem collectNames_stop : ∀ (t : Term) (env i : Nat) (acc : List String) (st : State)
    (more : List Term), WellFormedSymbols st.symbols → isFreshSymbol st env t = false →
    collectNames env (t :: more) i acc st =
      (if t.isBlock && !more.isEmpty then { names := acc, fnargs := some t, i := i + 1 }
       else { names := acc, fnargs := none, i := i },
       { st with symbols := (t.quote st.symbols).2 })
  | Term.variable name l c, env, i, acc, st, more, hw, hns => by
      have hsome : (st.lookup env name).isSome = true := by
        simp only [isFreshSymbol] at hns
        cases hlk : st.lookup env name with
        | none => simp [hlk] at hns
        | some m => rfl
      rw [collectNames_stop_variable env i acc st name l c more hw hsome]
      simp [Term.isBlock]
  | Term.int v l c, env, i, acc, st, more, _, _ =>
      collectNames_stop_other env i acc st _ more (by intro _ _ _ h; cases h)
  | Term.float v l c, env, i, acc, st, more, _, _ =>
      collectNames_stop_other env i acc st _ more (by intro _ _ _ h; cases h)
  | Term.char v l c, env, i, acc, st, more, _, _ =>
      collectNames_stop_other env i acc st _ more (by intro _ _ _ h; cases h)
  | Term.string v l c, env, i, acc, st, more, _, _ =>
      collectNames_stop_other env i acc st _ more (by intro _ _ _ h; cases h)
  | Term.block ts l c, env, i, acc, st, more, _, _ =>
      collectNames_stop_other env i acc st _ more (by intro _ _ _ h; cases h)

theorem isFreshSymbol_congr (st st2 : State) (h : st2.envs = st.envs) (env : Nat) (t : Term) :
    isFreshSymbol st2 env t = isFreshSymbol st env t := by
  cases t <;> simp [isFreshSymbol, State.lookup_congr st st2 h]

theorem collectNames_shape (env : Nat) (st : State) (vars : List (String × Nat × Nat))
    (rest : List Term) (hsym : WellFormedSymbols st.symbols)
    (hfresh : ∀ v ∈ vars, st.lookup env v.1 = none)
    (hstop : ∀ t ∈ rest.head?, isFreshSymbol st env t = false) :
    collectNames env (varTerms vars ++ rest) 1 [] st =
      ((match rest with
        | [] => { names := vars.map Prod.fst, fnargs := none, i := 1 + vars.length }
        | t :: more =>
            if t.isBlock && !more.isEmpty then
              { names := vars.map Prod.fst, fnargs := some t, i := 1 + vars.length + 1 }
            else { names := vars.map Prod.fst, fnargs := none, i := 1 + vars.length }),
       { st with symbols := (Term.quoteAll (varTerms vars ++ rest.take 1) st.symbols).2 }) := by
  rw [collectNames_fresh env rest vars 1 [] st hsym hfresh]
  cases rest with
  | nil => simp [collectNames]
  | cons t more =>
      have hw := varTerms_symbols_wellFormed vars st.symbols hsym
      have hns : isFreshSymbol
          ({ st with symbols := (Term.quoteAll (varTerms vars) st.symbols).2 } : State) env t =
          false := by
        exact (isFreshSymbol_congr st
          { st with symbols := (Term.quoteAll (varTerms vars) st.symbols).2 } rfl env t).trans
          (hstop t (by simp))
      rw [collectNames_stop t env _ _ _ more hw hns]
      simp only [List.nil_append, List.take_succ_cons, List.take_zero,
        Term.quoteAll_append_snd, Term.quoteAll_single_snd]

theorem wrapU32_pred (n : Nat) (h1 : 0 < n) (h2 : n < 4294967296) :
    wrapU32 (n + 4294967295) = n - 1 := by
  unfold wrapU32
  omega

/-- C25. The terms after the head of a `let` block being the variables `vars`,
none bound in scope, followed by `rest`, whose first term (if any) is not such
a fresh symbol: `define` returns the null node with `No variable names provided
in definition.` at the block when `vars` is empty (as for `(let)`); with
`No initial value provided in variable declaration.` at the last name when
there are names and `rest` is empty; with `More than one initial value provided
in variable declaration.` at the first remaining term when there are names,
more than one term remains and the first is not a block (the variable form);
and with names and exactly one remaining term it elaborates that term and
returns the `Define` node of the names and the elaborated initializer. -/
theorem let_misuse (ev : Term → Nat → State → Result Node) (env : Nat) (st : State)
    (head : Term) (vars : List (String × Nat × Nat)) (rest : List Term) (l c : Nat)
    (hsym : WellFormedSymbols st.symbols)
    (hfresh : ∀ v ∈ vars, st.lookup env v.1 = none)
    (hstop : ∀ t ∈ rest.head?, isFreshSymbol st env t = false)
    (hlen : (head :: (varTerms vars ++ rest)).length < 4294967296) :
    (vars = [] →
      define ev env (head :: (varTerms vars ++ rest)) l c st =
        Result.ok Node.null
          (({ st with symbols := (Term.quoteAll (varTerms vars ++ rest.take 1) st.symbols).2 } :
              State).err Phase.PHASE_TYPE l c "No variable names provided in definition.")) ∧
    (∀ v, vars.getLast? = some v → rest = [] →
      define ev env (head :: (varTerms vars ++ rest)) l c st =
        Result.ok Node.null
          (({ st with symbols := (Term.quoteAll (varTerms vars ++ rest.take 1) st.symbols).2 } :
              State).err Phase.PHASE_TYPE v.2.1 v.2.2
            "No initial value provided in variable declaration.")) ∧
    (vars ≠ [] → ∀ t t2 more, rest = t :: t2 :: more → t.isBlock = false →
      define ev env (head :: (varTerms vars ++ rest)) l c st =
        Result.ok Node.null
          (({ st with symbols := (Term.quoteAll (varTerms vars ++ rest.take 1) st.symbols).2 } :
              State).err Phase.PHASE_TYPE t.line t.column
            "More than one initial value provided in variable declaration.")) ∧
    (vars ≠ [] → ∀ t, rest = [t] →
      define ev env (head :: (varTerms vars ++ rest)) l c st =
        (ev t env
          ({ st with symbols := (Term.quoteAll (varTerms vars ++ rest.take 1) st.symbols).2 } :
              State)).bind
          (fun init st2 =>
            Result.ok (Node.define Node.null (vars.map Prod.fst) init l c) st2)) ∧
    (runTerm 10 letAlone State.start).val?.map Meta.present = some false ∧
    (runTerm 10 letAlone State.start).state?.map State.errors =
      some [{ line := 1, column := 1,
              message := "[TYPE ERROR] No variable names provided in definition." }] := by
  have hshape := collectNames_shape env st vars rest hsym hfresh hstop
  have hdrop : (head :: (varTerms vars ++ rest)).drop 1 = varTerms vars ++ rest := rfl
  have hvl : (varTerms vars).length = vars.length := by simp [varTerms]
  refine ⟨?_, ?_, ?_, ?_, by decide, by decide⟩
  · intro hv
    subst hv
    unfold define
    simp only [hdrop, hshape]
    cases rest with
    | nil => simp
    | cons t more => by_cases hb : (t.isBlock && !more.isEmpty) = true <;> simp [hb]
  · intro v hv hrest
    subst hrest
    have hne : vars ≠ [] := by
      intro h; subst h; simp at hv
    have hlen0 : ¬ ((vars.map Prod.fst).length = 0) := by
      simpa using hne
    have hget : (head :: (varTerms vars ++ []))[1 + vars.length - 1]? =
        some (Term.variable v.1 v.2.1 v.2.2) := by
      have h1 : 1 + vars.length - 1 = (vars.length - 1) + 1 := by
        have : 0 < vars.length := List.length_pos.mpr hne
        omega
      rw [h1, List.getElem?_cons_succ, List.append_nil]
      have h2 : (varTerms vars).getLast? = some (Term.variable v.1 v.2.1 v.2.2) := by
        simp [varTerms, List.getLast?_map, hv]
      rw [List.getLast?_eq_getElem?, hvl] at h2
      exact h2
    unfold define
    simp only [hdrop, hshape, if_neg hlen0]
    have hi : (1 + vars.length = (head :: (varTerms vars ++ [])).length) := by
      simp [hvl]; omega
    simp only [if_pos hi, hget, Term.line, Term.column]
  · intro hne t t2 more hrest hblock
    subst hrest
    have hlen0 : ¬ ((vars.map Prod.fst).length = 0) := by
      simpa using hne
    have hb : ¬ ((t.isBlock && !(t2 :: more).isEmpty) = true) := by simp [hblock]
    have hL : (head :: (varTerms vars ++ t :: t2 :: more)).length = vars.length + more.length + 3 := by
      simp [hvl]; omega
    have hw := wrapU32_pred _ (by rw [hL]; omega) hlen
    have hi : ¬ (1 + vars.length = (head :: (varTerms vars ++ t :: t2 :: more)).length) := by
      rw [hL]; omega
    have hlt : 1 + vars.length <
        wrapU32 ((head :: (varTerms vars ++ t :: t2 :: more)).length + 4294967295) := by
      rw [hw, hL]; omega
    have hget : (head :: (varTerms vars ++ t :: t2 :: more))[1 + vars.length]? = some t := by
      have h1 : 1 + vars.length = vars.length + 1 := by omega
      rw [h1, List.getElem?_cons_succ, List.getElem?_append_right (by rw [hvl]), hvl]
      simp
    unfold define
    simp only [hdrop, hshape, if_neg hb, if_neg hlen0, if_neg hi, if_pos hlt, hget]
  · intro hne t hrest
    subst hrest
    have hlen0 : ¬ ((vars.map Prod.fst).length = 0) := by
      simpa using hne
    have hb : ¬ ((t.isBlock && !([] : List Term).isEmpty) = true) := by simp
    have hL : (head :: (varTerms vars ++ [t])).length = vars.length + 2 := by
      simp [hvl]
    have hw := wrapU32_pred _ (by rw [hL]; omega) hlen
    have hi : ¬ (1 + vars.length = (head :: (varTerms vars ++ [t])).length) := by
      rw [hL]; omega
    have hlt : ¬ (1 + vars.length <
        wrapU32 ((head :: (varTerms vars ++ [t])).length + 4294967295)) := by
      rw [hw, hL]; omega
    have hget : (head :: (varTerms vars ++ [t]))[1 + vars.length]? = some t := by
      have h1 : 1 + vars.length = vars.length + 1 := by omega
      rw [h1, List.getElem?_cons_succ, List.getElem?_append_right (by rw [hvl]), hvl]
      simp
    unfold define
    simp only [hdrop, hshape, if_neg hb, if_neg hlen0, if_neg hi, if_neg hlt, hget]

/-- Witness of C25: `(let)`, `(let x)`, `(let x 1 2)` and `(let x 5)` in the
global environment of the driver. -/
theorem let_misuse_witness :
    define (Term.eval 1) globalEnv (Term.variable "let" 1 2 :: (varTerms [] ++ [])) 1 1
        State.start =
      Result.ok Node.null
        (({ State.start with
            symbols := (Term.quoteAll (varTerms [] ++ ([] : List Term).take 1)
              State.start.symbols).2 } : State).err
          Phase.PHASE_TYPE 1 1 "No variable names provided in definition.") ∧
    define (Term.eval 1) globalEnv (Term.variable "let" 1 2 :: (varTerms [("x", 1, 6)] ++ [])) 1 1
        State.start =
      Result.ok Node.null
        (({ State.start with
            symbols := (Term.quoteAll (varTerms [("x", 1, 6)] ++ ([] : List Term).take 1)
              State.start.symbols).2 } : State).err
          Phase.PHASE_TYPE 1 6 "No initial value provided in variable declaration.") ∧
    define (Term.eval 1) globalEnv
        (Term.variable "let" 1 2 :: (varTerms [("x", 1, 6)] ++ [Term.int 1 1 8, Term.int 2 1 10]))
        1 1 State.start =
      Result.ok Node.null
        (({ State.start with
            symbols := (Term.quoteAll
              (varTerms [("x", 1, 6)] ++ [Term.int 1 1 8, Term.int 2 1 10].take 1)
              State.start.symbols).2 } : State).err
          Phase.PHASE_TYPE (Term.int 1 1 8).line (Term.int 1 1 8).column
          "More than one initial value provided in variable declaration.") ∧
    define (Term.eval 1) globalEnv
        (Term.variable "let" 1 2 :: (varTerms [("x", 1, 6)] ++ [Term.int 5 1 8])) 1 1
        State.start =
      (Term.eval 1 (Term.int 5 1 8) globalEnv
        ({ State.start with
            symbols := (Term.quoteAll (varTerms [("x", 1, 6)] ++ [Term.int 5 1 8].take 1)
              State.start.symbols).2 } : State)).bind
        (fun init st2 =>
          Result.ok (Node.define Node.null ([("x", 1, 6)].map Prod.fst) init 1 1) st2) :=
  ⟨(let_misuse (Term.eval 1) globalEnv State.start (Term.variable "let" 1 2) [] [] 1 1
      (by intro name id h; simp [State.start, State.initial, mapFind] at h)
      (by intro v hv; simp at hv) (by intro t ht; simp at ht) (by decide)).1 rfl,
   (let_misuse (Term.eval 1) globalEnv State.start (Term.variable "let" 1 2) [("x", 1, 6)] [] 1 1
      (by intro name id h; simp [State.start, State.initial, mapFind] at h)
      (by intro v hv; simp at hv; subst hv; rfl) (by intro t ht; simp at ht)
      (by decide)).2.1 ("x", 1, 6) rfl rfl,
   (let_misuse (Term.eval 1) globalEnv State.start (Term.variable "let" 1 2) [("x", 1, 6)]
      [Term.int 1 1 8, Term.int 2 1 10] 1 1
      (by intro name id h; simp [State.start, State.initial, mapFind] at h)
      (by intro v hv; simp at hv; subst hv; rfl)
      (by intro t ht; simp at ht; subst ht; rfl)
      (by decide)).2.2.1 (by simp) (Term.int 1 1 8) (Term.int 2 1 10) [] rfl rfl,
   (let_misuse (Term.eval 1) globalEnv State.start (Term.variable "let" 1 2) [("x", 1, 6)]
      [Term.int 5 1 8] 1 1
      (by intro name id h; simp [State.start, State.initial, mapFind] at h)
      (by intro v hv; simp at hv; subst hv; rfl)
      (by intro t ht; simp at ht; subst ht; rfl)
      (by decide)).2.2.2.1 (by simp) (Term.int 5 1 8) rfl⟩

/-! ## The size of an intersection value -/

/-- C33. `MetaIntersect::size()` calls itself before it subtracts: for the
vector of an intersection built from any list of values, no number of calls
lets `size()` return, although the vector holds the given values and the one
sentinel, so that the number asked for is its length less one. -/
theorem metaIntersect_size_diverges (fuel : Nat) (values : List Meta) :
    metaIntersectSize fuel (metaIntersectVals values) = none ∧
    (metaIntersectVals values).length - 1 = values.length ∧
    (metaIntersectVals values).getLast? = some Meta.absent := by
  refine ⟨?_, by simp [metaIntersectVals], by simp [metaIntersectVals]⟩
  induction fuel with
  | zero => rfl
  | succ n ih => simp [metaIntersectSize, ih]

/-! ## Mangles of function types -/

theorem Ty.mangleArgs_separated (whole : List Ty) :
    ∀ (ts : List Ty), ts ≠ [] → whole.getLast? = ts.getLast? →
      (∀ t ∈ ts.dropLast, some t ≠ ts.getLast?) →
      mangleArgs whole ts = commaSeparated (ts.map mangle)
  | [], h, _, _ => absurd rfl h
  | [t], _, hl, _ => by
      have hl2 : whole.getLast? = some t := by simpa using hl
      simp [mangleArgs, hl2, commaSeparated]
  | t :: t2 :: rest, _, hl, hd => by
      have hl2 : whole.getLast? = (t2 :: rest).getLast? := by
        rw [hl]; simp [List.getLast?_cons_cons]
      have hne : some t ≠ whole.getLast? := by
        rw [hl]
        exact hd t (by simp [List.dropLast])
      have ih := Ty.mangleArgs_separated whole (t2 :: rest) (by simp) hl2
        (by
          intro x hx
          have := hd x (by simp [List.dropLast]; right; simpa [List.dropLast] using hx)
          simpa [List.getLast?_cons_cons] using this)
      rw [mangleArgs, if_pos hne, ih]
      simp [commaSeparated]

/-- C34. `FunctionType::mangle` writes a comma after every argument whose handle
differs from that of the last argument, not after every argument but the last:
the function type of two `INT` arguments mangles to `LI64(I64I64)`, with no
comma between the arguments.  When no argument before the last one is the type
of the last one, the mangle is `L`, the mangle of the return type, `(`, the
argument mangles separated by single commas, and `)`. -/
theorem function_mangle_commas :
    (Ty.function [INT, INT] INT).mangle = "LI64(I64I64)" ∧
    "L" ++ INT.mangle ++ "(" ++ commaSeparated [INT.mangle, INT.mangle] ++ ")" = "LI64(I64,I64)" ∧
    (Ty.function [INT, FLOAT, INT] INT).mangle = "LI64(I64F64,I64)" ∧
    (∀ (args : List Ty) (r : Ty), (∀ t ∈ args.dropLast, some t ≠ args.getLast?) →
      (Ty.function args r).mangle =
        "L" ++ r.mangle ++ "(" ++ commaSeparated (args.map mangle) ++ ")") := by
  refine ⟨by decide, by decide, by decide, ?_⟩
  intro args r h
  cases args with
  | nil => simp [mangle, mangleArgs, commaSeparated]
  | cons t ts =>
      rw [mangle, Ty.mangleArgs_separated (t :: ts) (t :: ts) (by simp) rfl h]

/-! ## Mangles that coincide -/

/-- C40. Mangling is not injective.  `NamedType::mangle` writes the name and the
mangle of the child with nothing between them, so the named type `x` of the
named type `y` of `Type(8)` and the named type `xNy` of `Type(8)` both mangle to
`NxNy@64`; together with the missing commas of `FunctionType::mangle` a function
type of two equal arguments and a function type of one argument share a mangle;
and `ArrayType::mangle` writes no count for any negative count.  Interning the
second type of such a pair returns the handle of the first, the address of an
object that is the first type, and stores no object for the second. -/
theorem mangle_collisions :
    (named (named (base 8) "y") "x").mangle = "NxNy@64" ∧
    (named (base 8) "xNy").mangle = "NxNy@64" ∧
    named (named (base 8) "y") "x" ≠ named (base 8) "xNy" ∧
    (Ty.function [named (base 8) "a", named (base 8) "a"] INT).mangle =
      (Ty.function [named (named (base 8) "a") "a@64"] INT).mangle ∧
    Ty.function [named (base 8) "a", named (base 8) "a"] INT ≠
      Ty.function [named (named (base 8) "a") "a@64"] INT ∧
    (array INT (-1)).mangle = (array INT (-2)).mangle ∧
    array INT (-1) ≠ array INT (-2) ∧
    (find (named (base 8) "xNy") (find (named (named (base 8) "y") "x") TypeMap.empty).2).1 =
      (find (named (named (base 8) "y") "x") TypeMap.empty).1 ∧
    (find (named (base 8) "xNy") (find (named (named (base 8) "y") "x") TypeMap.empty).2).2.object
        (find (named (base 8) "xNy")
          (find (named (named (base 8) "y") "x") TypeMap.empty).2).1 =
      some (named (named (base 8) "y") "x") ∧
    (find (named (base 8) "xNy") (find (named (named (base 8) "y") "x") TypeMap.empty).2).2 =
      (find (named (named (base 8) "y") "x") TypeMap.empty).2 := by
  decide

/-! ## The range of integer results -/

theorem wrapSigned_8_range (n : Int) : -128 ≤ wrapSigned 8 n ∧ wrapSigned 8 n < 128 := by
  unfold wrapSigned
  constructor <;> omega

theorem wrapSigned_16_range (n : Int) : -32768 ≤ wrapSigned 16 n ∧ wrapSigned 16 n < 32768 := by
  unfold wrapSigned
  constructor <;> omega

theorem wrapSigned_32_range (n : Int) :
    -2147483648 ≤ wrapSigned 32 n ∧ wrapSigned 32 n < 2147483648 := by
  unfold wrapSigned
  constructor <;> omega

theorem trunc_range (n : Int) (s : Nat) (hs : s = 1 ∨ s = 2 ∨ s = 4) :
    -(2 ^ (8 * s - 1) : Int) ≤ trunc n (number s false) ∧
    trunc n (number s false) < (2 ^ (8 * s - 1) : Int) := by
  rcases hs with h | h | h <;> subst h
  · simpa [trunc, Ty.size] using wrapSigned_8_range n
  · simpa [trunc, Ty.size] using wrapSigned_16_range n
  · simpa [trunc, Ty.size] using wrapSigned_32_range n

theorem intOp_form (op : Int → Int → Int) (l r m : Meta) (dst : Ty)
    (h : intOp op l r dst = some m) :
    ∃ q, m = Meta.mk (some dst) (Value.i (trunc q dst)) := by
  unfold intOp at h
  cases hl : toInt l with
  | none => simp [hl] at h
  | some a =>
      cases hr : toInt r with
      | none => simp [hl, hr] at h
      | some b =>
          simp only [hl, hr, Option.some.injEq] at h
          exact ⟨_, h.symm⟩

theorem add_number_form (l r m : Meta) (s : Nat) (hd : add l r = some m)
    (h : m.type = some (number s false)) :
    ∃ q, m = Meta.mk (some (number s false)) (Value.i (trunc q (number s false))) := by
  obtain ⟨lt, lv⟩ := l
  obtain ⟨rt, rv⟩ := r
  cases lt with
  | none =>
      simp [add, Meta.present, Meta.type] at hd
      subst hd
      simp [Meta.absent, Meta.type] at h
  | some lt =>
      cases rt with
      | none =>
          simp [add, Meta.present, Meta.type] at hd
          subst hd
          simp [Meta.absent, Meta.type] at h
      | some rt =>
          cases hj : join lt rt with
          | none =>
              simp [add, Meta.present, Meta.type, hj] at hd
              subst hd
              simp [Meta.absent, Meta.type] at h
          | some dst =>
              simp only [add, Meta.present, Meta.type, Option.isSome_some, Bool.not_true,
                Bool.or_self, Bool.false_eq_true, if_false, hj] at hd
              by_cases h1 : (isRuntime dst && (null (Meta.mk (some lt) lv) ||
                  null (Meta.mk (some rt) rv))) = true
              · simp only [h1, if_true, Option.some.injEq] at hd
                subst hd
                simp only [Meta.type, Option.some.injEq] at h
                subst h
                simp [isRuntime, kind] at h1
              simp only [h1, Bool.false_eq_true, if_false] at hd
              by_cases h2 : isFloat dst = true
              · simp only [h2, if_true, Option.some.injEq] at hd
                subst hd
                simp only [Meta.type, Option.some.injEq] at h
                subst h
                simp [isFloat] at h2
              simp only [h2, Bool.false_eq_true, if_false] at hd
              by_cases h3 : isNumber dst = true
              · simp only [h3, if_true] at hd
                obtain ⟨q, hq⟩ := intOp_form _ _ _ _ _ hd
                subst hq
                simp only [Meta.type, Option.some.injEq] at h
                subst h
                exact ⟨q, rfl⟩
              simp only [h3, Bool.false_eq_true, if_false] at hd
              by_cases h4 : dst = STRING
              · simp only [h4, if_true, Option.some.injEq] at hd
                subst hd
                simp [Meta.type, STRING] at h
              simp only [h4, Bool.false_eq_true, if_false, Option.some.injEq] at hd
              subst hd
              simp [Meta.absent, Meta.type] at h

theorem sub_number_form (l r m : Meta) (s : Nat) (hd : sub l r = some m)
    (h : m.type = some (number s false)) :
    ∃ q, m = Meta.mk (some (number s false)) (Value.i (trunc q (number s false))) := by
  obtain ⟨lt, lv⟩ := l
  obtain ⟨rt, rv⟩ := r
  cases lt with
  | none =>
      simp [sub, Meta.present, Meta.type] at hd
      subst hd
      simp [Meta.absent, Meta.type] at h
  | some lt =>
      cases rt with
      | none =>
          simp [sub, Meta.present, Meta.type] at hd
          subst hd
          simp [Meta.absent, Meta.type] at h
      | some rt =>
          cases hj : join lt rt with
          | none =>
              simp [sub, Meta.present, Meta.type, hj] at hd
              subst hd
              simp [Meta.absent, Meta.type] at h
          | some dst =>
              simp only [sub, Meta.present, Meta.type, Option.isSome_some, Bool.not_true,
                Bool.or_self, Bool.false_eq_true, if_false, hj] at hd
              by_cases h2 : isFloat dst = true
              · simp only [h2, if_true, Option.some.injEq] at hd
                subst hd
                simp only [Meta.type, Option.some.injEq] at h
                subst h
                simp [isFloat] at h2
              simp only [h2, Bool.false_eq_true, if_false] at hd
              by_cases h3 : isNumber dst = true
              · simp only [h3, if_true] at hd
                obtain ⟨q, hq⟩ := intOp_form _ _ _ _ _ hd
                subst hq
                simp only [Meta.type, Option.some.injEq] at h
                subst h
                exact ⟨q, rfl⟩
              simp only [h3, Bool.false_eq_true, if_false, Option.some.injEq] at hd
              subst hd
              simp [Meta.absent, Meta.type] at h

theorem mul_number_form (l r m : Meta) (s : Nat) (hd : mul l r = some m)
    (h : m.type = some (number s false)) :
    ∃ q, m = Meta.mk (some (number s false)) (Value.i (trunc q (number s false))) := by
  obtain ⟨lt, lv⟩ := l
  obtain ⟨rt, rv⟩ := r
  cases lt with
  | none =>
      simp [mul, Meta.present, Meta.type] at hd
      subst hd
      simp [Meta.absent, Meta.type] at h
  | some lt =>
      cases rt with
      | none =>
          simp [mul, Meta.present, Meta.type] at hd
          subst hd
          simp [Meta.absent, Meta.type] at h
      | some rt =>
          cases hj : join lt rt with
          | none =>
              simp [mul, Meta.present, Meta.type, hj] at hd
              subst hd
              simp [Meta.absent, Meta.type] at h
          | some dst =>
              simp only [mul, Meta.present, Meta.type, Option.isSome_some, Bool.not_true,
                Bool.or_self, Bool.false_eq_true, if_false, hj] at hd
              by_cases h2 : isFloat dst = true
              · simp only [h2, if_true, Option.some.injEq] at hd
                subst hd
                simp only [Meta.type, Option.some.injEq] at h
                subst h
                simp [isFloat] at h2
              simp only [h2, Bool.false_eq_true, if_false] at hd
              by_cases h3 : isNumber dst = true
              · simp only [h3, if_true] at hd
                obtain ⟨q, hq⟩ := intOp_form _ _ _ _ _ hd
                subst hq
                simp only [Meta.type, Option.some.injEq] at h
                subst h
                exact ⟨q, rfl⟩
              simp only [h3, Bool.false_eq_true, if_false, Option.some.injEq] at hd
              subst hd
              simp [Meta.absent, Meta.type] at h

theorem div_number_form (l r m : Meta) (s : Nat) (hd : div l r = some m)
    (h : m.type = some (number s false)) :
    ∃ q, m = Meta.mk (some (number s false)) (Value.i (trunc q (number s false))) := by
  obtain ⟨lt, lv⟩ := l
  obtain ⟨rt, rv⟩ := r
  cases lt with
  | none =>
      simp [div, Meta.present, Meta.type] at hd
      subst hd
      simp [Meta.absent, Meta.type] at h
  | some lt =>
      cases rt with
      | none =>
          simp [div, Meta.present, Meta.type] at hd
          subst hd
          simp [Meta.absent, Meta.type] at h
      | some rt =>
          cases hj : join lt rt with
          | none =>
              simp [div, Meta.present, Meta.type, hj] at hd
              subst hd
              simp [Meta.absent, Meta.type] at h
          | some dst =>
              simp only [div, Meta.present, Meta.type, Option.isSome_some, Bool.not_true,
                Bool.or_self, Bool.false_eq_true, if_false, hj] at hd
              by_cases h2 : isFloat dst = true
              · simp only [h2, if_true, Option.some.injEq] at hd
                subst hd
                simp only [Meta.type, Option.some.injEq] at h
                subst h
                simp [isFloat] at h2
              simp only [h2, Bool.false_eq_true, if_false] at hd
              by_cases h3 : isNumber dst = true
              · simp only [h3, if_true] at hd
                cases ha : toInt (Meta.mk (some lt) lv) with
                | none => simp [ha] at hd
                | some a =>
                    cases hb : toInt (Meta.mk (some rt) rv) with
                    | none => simp [ha, hb] at hd
                    | some b =>
                        simp only [ha, hb] at hd
                        cases hq : divI64 a b with
                        | none => simp [hq] at hd
                        | some q =>
                            simp only [hq, Option.map_some', Option.some.injEq] at hd
                            subst hd
                            simp only [Meta.type, Option.some.injEq] at h
                            subst h
                            exact ⟨q, rfl⟩
              simp only [h3, Bool.false_eq_true, if_false, Option.some.injEq] at hd
              subst hd
              simp [Meta.absent, Meta.type] at h

theorem mod_number_form (l r m : Meta) (s : Nat) (hd : mod l r = some m)
    (h : m.type = some (number s false)) :
    ∃ q, m = Meta.mk (some (number s false)) (Value.i (trunc q (number s false))) := by
  obtain ⟨lt, lv⟩ := l
  obtain ⟨rt, rv⟩ := r
  cases lt with
  | none =>
      simp [mod, Meta.present, Meta.type] at hd
      subst hd
      simp [Meta.absent, Meta.type] at h
  | some lt =>
      cases rt with
      | none =>
          simp [mod, Meta.present, Meta.type] at hd
          subst hd
          simp [Meta.absent, Meta.type] at h
      | some rt =>
          cases hj : join lt rt with
          | none =>
              simp [mod, Meta.present, Meta.type, hj] at hd
              subst hd
              simp [Meta.absent, Meta.type] at h
          | some dst =>
              simp only [mod, Meta.present, Meta.type, Option.isSome_some, Bool.not_true,
                Bool.or_self, Bool.false_eq_true, if_false, hj] at hd
              by_cases h2 : isFloat dst = true
              · simp only [h2, if_true] at hd
                cases hf : fmod (toFloat (Meta.mk (some lt) lv)) (toFloat (Meta.mk (some rt) rv)) with
                | none => simp [hf] at hd
                | some x =>
                    simp only [hf, Option.map_some', Option.some.injEq] at hd
                    subst hd
                    simp only [Meta.type, Option.some.injEq] at h
                    subst h
                    simp [isFloat] at h2
              simp only [h2, Bool.false_eq_true, if_false] at hd
              by_cases h3 : isNumber dst = true
              · simp only [h3, if_true] at hd
                cases ha : toInt (Meta.mk (some lt) lv) with
                | none => simp [ha] at hd
                | some a =>
                    cases hb : toInt (Meta.mk (some rt) rv) with
                    | none => simp [ha, hb] at hd
                    | some b =>
                        simp only [ha, hb] at hd
                        cases hq : modI64 a b with
                        | none => simp [hq] at hd
                        | some q =>
                            simp only [hq, Option.map_some', Option.some.injEq] at hd
                            subst hd
                            simp only [Meta.type, Option.some.injEq] at h
                            subst h
                            exact ⟨q, rfl⟩
              simp only [h3, Bool.false_eq_true, if_false, Option.some.injEq] at hd
              subst hd
              simp [Meta.absent, Meta.type] at h

theorem asInt_trunc_range (q : Int) (s : Nat) (hs : s = 1 ∨ s = 2 ∨ s = 4) :
    -(2 ^ (8 * s - 1) : Int) ≤
        (Meta.mk (some (number s false)) (Value.i (trunc q (number s false)))).asInt ∧
      (Meta.mk (some (number s false)) (Value.i (trunc q (number s false)))).asInt <
        (2 ^ (8 * s - 1) : Int) := by
  simpa [Meta.asInt, Meta.value] using trunc_range q s hs

/-- C39. `cast` stores `toInt(lhs)` without `trunc`: the cast of `Meta(INT, 300)`
to the one-byte integer type is a meta of that type holding 300, outside the
signed range of 8 bits.  The results of `add`, `sub`, `mul`, `div` and `mod` do
go through `trunc`: whenever one of them returns a meta whose type is the
integer type of 1, 2 or 4 bytes, its value lies in the signed range of that
many bits. -/
theorem cast_skips_trunc :
    cast (Meta.mk (some INT) (Value.i 300)) (some (number 1 false)) =
      some (Meta.mk (some (number 1 false)) (Value.i 300)) ∧
    ¬ ((300 : Int) < 2 ^ (8 * 1 - 1)) ∧
    (Meta.mk (some INT) (Value.i 300)).present = true ∧
    trunc 300 (number 1 false) = 44 ∧
    (∀ (l r : Meta) (s : Nat), s = 1 ∨ s = 2 ∨ s = 4 →
      (∀ m, add l r = some m → m.type = some (number s false) →
        -(2 ^ (8 * s - 1) : Int) ≤ m.asInt ∧ m.asInt < (2 ^ (8 * s - 1) : Int)) ∧
      (∀ m, sub l r = some m → m.type = some (number s false) →
        -(2 ^ (8 * s - 1) : Int) ≤ m.asInt ∧ m.asInt < (2 ^ (8 * s - 1) : Int)) ∧
      (∀ m, mul l r = some m → m.type = some (number s false) →
        -(2 ^ (8 * s - 1) : Int) ≤ m.asInt ∧ m.asInt < (2 ^ (8 * s - 1) : Int)) ∧
      (∀ m, div l r = some m → m.type = some (number s false) →
        -(2 ^ (8 * s - 1) : Int) ≤ m.asInt ∧ m.asInt < (2 ^ (8 * s - 1) : Int)) ∧
      (∀ m, mod l r = some m → m.type = some (number s false) →
        -(2 ^ (8 * s - 1) : Int) ≤ m.asInt ∧ m.asInt < (2 ^ (8 * s - 1) : Int))) ∧
    (add (Meta.mk (some (number 1 false)) (Value.i 100))
        (Meta.mk (some (number 1 false)) (Value.i 100))).map Meta.asInt = some (-56) := by
  refine ⟨rfl, by decide, by decide, by decide, ?_, by decide⟩
  intro l r s hs
  refine ⟨?_, ?_, ?_, ?_, ?_⟩
  · intro m hd h
    obtain ⟨q, hq⟩ := add_number_form l r m s hd h
    rw [hq]
    exact asInt_trunc_range q s hs
  · intro m hd h
    obtain ⟨q, hq⟩ := sub_number_form l r m s hd h
    rw [hq]
    exact asInt_trunc_range q s hs
  · intro m hd h
    obtain ⟨q, hq⟩ := mul_number_form l r m s hd h
    rw [hq]
    exact asInt_trunc_range q s hs
  · intro m hd h
    obtain ⟨q, hq⟩ := div_number_form l r m s hd h
    rw [hq]
    exact asInt_trunc_range q s hs
  · intro m hd h
    obtain ⟨q, hq⟩ := mod_number_form l r m s hd h
    rw [hq]
    exact asInt_trunc_range q s hs

/-! ## Division by zero -/

theorem toInt_int (v : Int) : toInt (Meta.mk (some INT) (Value.i v)) = some v := by
  simp [toInt, Meta.isInt, Meta.type, INT, Meta.asInt, Meta.value]

theorem div_int_zero (l : Int) :
    div (Meta.mk (some INT) (Value.i l)) (Meta.mk (some INT) (Value.i 0)) = none := by
  have hj : join INT INT = some INT := by decide
  have hf : isFloat INT = false := by decide
  have hn : isNumber INT = true := by decide
  simp only [div, Meta.present, Meta.type, Option.isSome_some, Bool.not_true, Bool.or_self,
    Bool.false_eq_true, if_false, hj, hf, hn, if_true, toInt_int, divI64, Option.map_none']

theorem mod_int_zero (l : Int) :
    mod (Meta.mk (some INT) (Value.i l)) (Meta.mk (some INT) (Value.i 0)) = none := by
  have hj : join INT INT = some INT := by decide
  have hf : isFloat INT = false := by decide
  have hn : isNumber INT = true := by decide
  simp only [mod, Meta.present, Meta.type, Option.isSome_some, Bool.not_true, Bool.or_self,
    Bool.false_eq_true, if_false, hj, hf, hn, if_true, toInt_int, modI64, Option.map_none']

/-- C36. `div` and `mod` divide without a test of the divisor: on two `INT`
metas of which the right one is 0 the integer division and the integer
remainder are undefined, for every left value; so is the unary form, which
divides 1 by its operand, and `(/ 0)` and `(/ 1 0)` elaborate from the root
environment without error and end in that division when evaluated. -/
theorem div_by_zero_unguarded (l : Int) :
    div (Meta.mk (some INT) (Value.i l)) (Meta.mk (some INT) (Value.i 0)) = none ∧
    mod (Meta.mk (some INT) (Value.i l)) (Meta.mk (some INT) (Value.i 0)) = none ∧
    (∀ (fuel env lc cc pl pc : Nat) (st : State),
      Node.eval (fuel + 2) (Node.divide [Node.int 0 pl pc] lc cc) env st = Result.crash) ∧
    (Term.eval 10 divZero globalEnv State.start).crashed = false ∧
    (Term.eval 10 divZero globalEnv State.start).state?.map State.countErrors = some 0 ∧
    (runTerm 10 divZero State.start).crashed = true ∧
    (runTerm 10 divOneZero State.start).crashed = true := by
  refine ⟨div_int_zero l, mod_int_zero l, ?_, by decide, by decide, by decide, by decide⟩
  intro fuel env lc cc pl pc st
  have h1 : Node.eval (fuel + 2) (Node.divide [Node.int 0 pl pc] lc cc) env st =
      (Node.eval (fuel + 1) (Node.int 0 pl pc) env st).bind (fun m st1 =>
        if m.isInt then
          match div (Meta.mk (some INT) (Value.i 1)) m with
          | some r => Result.ok r st1
          | none => Result.crash
        else
          match div (Meta.mk (some FLOAT) (Value.d 1.0)) m with
          | some r => Result.ok r st1
          | none => Result.crash) := rfl
  have h3 : (Meta.mk (some INT) (Value.i 0)).isInt = true := by decide
  rw [h1, Node.eval_int]
  simp only [Result.bind, h3, if_true, div_int_zero]

/-! ## Speculative frames of diagnostics -/

theorem State.reportError_in_frame (st : State) (e : Error) (es : List Error) (ms : List String)
    (frames : List (List Error)) (fms : List (List String))
    (hf : st.errorFrames = es :: frames) (hm : st.frameMessages = ms :: fms) :
    ∃ es2 ms2,
      st.reportError e =
        { st with errorFrames := es2 :: frames, frameMessages := ms2 :: fms } := by
  unfold State.reportError
  simp only [hf, hm]
  by_cases h : e.message ∈ ms
  · refine ⟨es, ms, ?_⟩
    simp only [h, if_true]
    cases st
    simp_all
  · exact ⟨es ++ [e], ms ++ [e.message], by simp only [h, if_false]⟩

theorem State.reportAll_in_frame (reported : List Error) :
    ∀ (st : State) (es : List Error) (ms : List String) (frames : List (List Error))
      (fms : List (List String)),
      st.errorFrames = es :: frames → st.frameMessages = ms :: fms →
      ∃ es2 ms2,
        st.reportAll reported =
          { st with errorFrames := es2 :: frames, frameMessages := ms2 :: fms } := by
  induction reported with
  | nil =>
      intro st es ms frames fms hf hm
      refine ⟨es, ms, ?_⟩
      cases st
      simp_all [State.reportAll]
  | cons e rest ih =>
      intro st es ms frames fms hf hm
      obtain ⟨es1, ms1, h1⟩ := State.reportError_in_frame st e es ms frames fms hf hm
      obtain ⟨es2, ms2, h2⟩ := ih (st.reportError e) es1 ms1 frames fms (by rw [h1]) (by rw [h1])
      refine ⟨es2, ms2, ?_⟩
      have : st.reportAll (e :: rest) = (st.reportError e).reportAll rest := rfl
      rw [this, h2, h1]

/-- C35. For every state of the diagnostic buffers and every sequence of
errors: right after `catchErrors` the count of errors is 0, and `catchErrors`
followed by `reportError` of each error of the sequence and by `discardErrors`
leaves the buffers, hence the error list of the enclosing frame, its message
set and `countErrors`, exactly as they were before `catchErrors`. -/
theorem discard_restores (st : State) (reported : List Error) :
    st.catchErrors.countErrors = 0 ∧
    (st.catchErrors.reportAll reported).discardErrors = st ∧
    (st.catchErrors.reportAll reported).discardErrors.countErrors = st.countErrors ∧
    (st.catchErrors.reportAll reported).discardErrors.errors = st.errors ∧
    (st.catchErrors.reportAll reported).discardErrors.errorFrames = st.errorFrames ∧
    (st.catchErrors.reportAll reported).discardErrors.lastError = st.lastError := by
  obtain ⟨es2, ms2, h⟩ := State.reportAll_in_frame reported st.catchErrors [] [] st.errorFrames
    st.frameMessages rfl rfl
  have hback : (st.catchErrors.reportAll reported).discardErrors = st := by
    rw [h]
    cases st
    rfl
  refine ⟨rfl, hback, ?_, ?_, ?_, ?_⟩ <;> rw [hback]

/-! ## Blocks without a head node -/

theorem Term.eval_empty_block (fuel : Nat) (l c env : Nat) (st : State) :
    Term.eval (fuel + 1) (Term.block [] l c) env st = Result.crash := rfl

theorem Term.eval_null_head (fuel : Nat) (head : Term) (rest : List Term) (l c env : Nat)
    (st st1 : State) (h : Term.eval (fuel + 1) head env st = Result.ok Node.null st1) :
    Term.eval (fuel + 2) (Term.block (head :: rest) l c) env st = Result.crash := by
  have h1 : Term.eval (fuel + 2) (Term.block (head :: rest) l c) env st =
      (Term.eval (fuel + 1) head env st).bind (fun n st1 =>
        (Node.eval (fuel + 1) n env st1).bind (fun m st2 =>
          if m.isType then
            declare (Term.eval (fuel + 1)) (Node.eval (fuel + 1)) env n (head :: rest) l c st2
          else if m.isFunction && m.builtin.isSome then
            match m.builtin with
            | some Builtin.define => define (Term.eval (fuel + 1)) env (head :: rest) l c st2
            | some Builtin.lambda => Basil.lambda (Term.eval (fuel + 1)) env (head :: rest) l c st2
            | some Builtin.add =>
                arithBuiltin (Term.eval (fuel + 1)) Node.add "+" env (head :: rest) l c st2
            | some Builtin.subtract =>
                arithBuiltin (Term.eval (fuel + 1)) Node.subtract "-" env (head :: rest) l c st2
            | some Builtin.multiply =>
                arithBuiltin (Term.eval (fuel + 1)) Node.multiply "*" env (head :: rest) l c st2
            | some Builtin.divide =>
                arithBuiltin (Term.eval (fuel + 1)) Node.divide "/" env (head :: rest) l c st2
            | some Builtin.quote => quoteBuiltin (head :: rest) l c st2
            | some Builtin.doBlock => doBlock (Term.eval (fuel + 1)) env (head :: rest) l c st2
            | none => Result.crash
          else if m.isFunction then call (Term.eval (fuel + 1)) env n (head :: rest) l c st2
          else
            Result.ok Node.null
              (st2.err Phase.PHASE_TYPE head.line head.column
                "First term in block is not a type or function."))) := rfl
  rw [h1, h]
  rfl

/-- C37. `BlockTerm::eval` reads `_terms[0]` and calls `eval` on the node it
elaborates to without a test: elaborating the empty block reads the first
element of an empty vector, and elaborating a block whose head elaborates to
the null node calls `eval` through the null pointer; neither returns a node nor
reports an error and returns null.  `()` parses, without error, to the empty
block, and `((1 2) 3)`, whose head `(1 2)` elaborates to the null node with
`First term in block is not a type or function.`, ends this way from the root
environment. -/
theorem block_head_unguarded (fuel : Nat) (head : Term) (rest : List Term) (l c env : Nat)
    (st st1 : State) :
    Term.eval (fuel + 1) (Term.block [] l c) env st = Result.crash ∧
    (Term.eval (fuel + 1) head env st = Result.ok Node.null st1 →
      Term.eval (fuel + 2) (Term.block (head :: rest) l c) env st = Result.crash) ∧
    (parse 2 { cache := tokensEmptyBlock, index := 0 } State.start).val?.bind
        (fun r => r.1.toTerm) = some emptyBlock ∧
    (parse 2 { cache := tokensEmptyBlock, index := 0 } State.start).state?.map
        State.countErrors = some 0 ∧
    (Term.eval 10 emptyBlock globalEnv State.start).crashed = true ∧
    (Term.eval 9 (Term.block [Term.int 1 1 3, Term.int 2 1 5] 1 2) globalEnv
        State.start).val?.map Node.isNull = some true ∧
    (Term.eval 10 oneTwoThree globalEnv State.start).crashed = true :=
  ⟨Term.eval_empty_block fuel l c env st, Term.eval_null_head fuel head rest l c env st st1,
    rfl, by decide, by decide, by decide, by decide⟩

/-! ## Stray closing delimiters -/

theorem parseLoop_stray (g : Nat) :
    ∀ (f : Nat) (contents : List TermPtr) (st : State),
      parseLoop (parse g) T_RPAREN f contents { cache := tokensStrayBracket, index := 1 } st =
        Result.timeout := by
  intro f
  induction f with
  | zero => intro contents st; rfl
  | succ k ih =>
      intro contents st
      have hp : (TokenView.peek { cache := tokensStrayBracket, index := 1 }) =
          { name := "]", id := T_RBRACK, line := 1, column := 3 } := rfl
      have h1 : ¬ (T_RBRACK = T_RPAREN) := by decide
      have h2 : ¬ (T_RBRACK = T_NONE) := by decide
      simp only [parseLoop, hp, if_neg h1, if_neg h2]
      cases g with
      | zero => rfl
      | succ j =>
          have hq : parse (j + 1) { cache := tokensStrayBracket, index := 1 } st =
              Result.ok (TermPtr.null, { cache := tokensStrayBracket, index := 1 })
                (st.err Phase.PHASE_PARSE 1 3 ("Unexpected token '" ++ "]" ++ "'.")) := rfl
          rw [hq]
          simp only [Result.bind, TermPtr.isNull, if_true]
          exact ih contents _

/-- C38. `parse` does not end on every token sequence: its `default` case
reports `Unexpected token` and returns without reading the token, so that the
loop of `parseBlock`, which ends only at `)` or at the end of the tokens, calls
it on the same token again.  On the tokens of `( ]` no amount of fuel lets
`parse` return, while the tokens of `(1 2)` parse to the block of the two
literals. -/
theorem parse_stray_bracket_diverges (fuel : Nat) (st : State) :
    parse fuel { cache := tokensStrayBracket, index := 0 } st = Result.timeout ∧
    (parse 4 { cache := tokensOneTwo, index := 0 } State.start).val?.bind
        (fun r => r.1.toTerm) = some oneTwo ∧
    (parse 4 { cache := tokensOneTwo, index := 0 } State.start).val?.map
        (fun r => r.2.index) = some 4 := by
  refine ⟨?_, rfl, by decide⟩
  cases fuel with
  | zero => rfl
  | succ f =>
      have h : parse (f + 1) { cache := tokensStrayBracket, index := 0 } st =
          (parseLoop (parse f) T_RPAREN f []
            (TokenView.read { cache := tokensStrayBracket, index := 0 }) st).bind (fun r st1 =>
            match r.1 with
            | none => Result.ok (TermPtr.null, r.2) st1
            | some contents =>
                Result.ok (TermPtr.block contents
                  (TokenView.peek { cache := tokensStrayBracket, index := 0 }).line
                  (TokenView.peek { cache := tokensStrayBracket, index := 0 }).column,
                  r.2.read) st1) := rfl
      have hr : TokenView.read { cache := tokensStrayBracket, index := 0 } =
          { cache := tokensStrayBracket, index := 1 } := rfl
      rw [h, hr, parseLoop_stray f f [] st]
      rfl

/-! ## Names that are bound already -/

theorem State.err_envs (st : State) (phase : Phase) (l c : Nat) (text : String) :
    (st.err phase l c text).envs = st.envs := by
  unfold State.err State.reportError
  split <;> split <;> first | rfl | (split <;> rfl)

theorem define_bound_name (ev : Term → Nat → State → Result Node) (env : Nat) (st : State)
    (head : Term) (name : String) (nl nc : Nat) (more : List Term) (l c : Nat)
    (hsym : WellFormedSymbols st.symbols) (hb : (st.lookup env name).isSome = true) :
    define ev env (head :: Term.variable name nl nc :: more) l c st =
      Result.ok Node.null
        (({ st with symbols := (findSymbol name st.symbols).2 } : State).err Phase.PHASE_TYPE l c
          "No variable names provided in definition.") := by
  have hcol := collectNames_stop_variable env 1 [] st name nl nc more hsym hb
  rw [Term.quote_variable] at hcol
  unfold define
  simp only [List.drop_succ_cons, List.drop_zero, hcol, List.length_nil, if_true]

theorem declare_bound_name (ev : Term → Nat → State → Result Node)
    (nev : Node → Nat → State → Result Meta) (env : Nat) (st st0 : State) (type : Node)
    (tm : Meta) (head : Term) (name : String) (nl nc : Nat) (more : List Term) (l c : Nat)
    (hnev : nev type env st = Result.ok tm st0) (hty : tm.isType = true)
    (hsym : WellFormedSymbols st0.symbols) (hb : (st0.lookup env name).isSome = true) :
    declare ev nev env type (head :: Term.variable name nl nc :: more) l c st =
      Result.ok Node.null
        (({ st0 with symbols := (findSymbol name st0.symbols).2 } : State).err Phase.PHASE_TYPE
          l c "No variable names provided in definition.") := by
  have hcol := collectNames_stop_variable env 1 [] st0 name nl nc more hsym hb
  rw [Term.quote_variable] at hcol
  unfold declare
  simp only [hnev, Result.bind, hty, Bool.true_eq_false, if_false, List.drop_succ_cons,
    List.drop_zero, hcol, List.length_nil, if_true]

/-- Counterexample to C32: a bound name can be bound again through `let`.
`(do (let x 1) (let x 2))` elaborates from the root environment, without
error, to a `Do` node of two `Define` nodes, for `x` is bound only when a
`Define` node is evaluated; evaluating the first of them binds `x` to 1, and
evaluating the `Do` node reports no error and leaves `x` bound to 2. -/
theorem let_rebinds_in_do :
    (Term.eval 10 doLetTwice globalEnv State.start).val? =
      some (Node.doNode
        [Node.define Node.null ["x"] (Node.int 1 1 12) 1 5,
         Node.define Node.null ["x"] (Node.int 2 1 22) 1 15] 1 5) ∧
    (Term.eval 10 doLetTwice globalEnv State.start).state?.map State.countErrors = some 0 ∧
    ((Node.eval 9 (Node.define Node.null ["x"] (Node.int 1 1 12) 1 5) globalEnv
        State.start).state?.bind (fun s => s.lookup globalEnv "x")).map
        (fun m => (m.type, m.asInt)) = some (some INT, 1) ∧
    (runTerm 10 doLetTwice State.start).val?.map (fun m => (m.type, m.asInt)) =
      some (some INT, 2) ∧
    (runTerm 10 doLetTwice State.start).state?.map State.countErrors = some 0 ∧
    ((runTerm 10 doLetTwice State.start).state?.bind (fun s => s.lookup globalEnv "x")).map
        (fun m => (m.type, m.asInt)) = some (some INT, 2) :=
  ⟨rfl, by decide, by decide, by decide, by decide, by decide⟩

/-- C32, amended. When the first term after the head of a `let` block is a
symbol that `lookup` finds from `env` (in `env` itself or in a parent) at the
time the block is elaborated, `define` collects no name and returns the null
node with `No variable names provided in definition.` at the block; so does
`declare` when the head is a type and the first term after it is such a
symbol.  No environment is changed, so the name keeps its binding: from the
root environment `(let int y)` and `(int int 5)` report this error and `int`
stays bound to the type `INT`, and of the two top-level terms `(let x 1)` and
`(let x 2)`, each evaluated before the next is elaborated, the second reports
it and `x` stays bound to 1.  A name is entered only when the `Define` node is
evaluated: in `(do (let x 1) (let x 2))` both blocks are elaborated first, no
error is reported and `x` ends bound to 2. -/
theorem let_of_bound_name (ev : Term → Nat → State → Result Node)
    (nev : Node → Nat → State → Result Meta) (env : Nat) (st st0 : State) (type : Node)
    (tm : Meta) (head : Term) (name : String) (nl nc : Nat) (more : List Term) (l c : Nat) :
    (WellFormedSymbols st.symbols → (st.lookup env name).isSome = true →
      define ev env (head :: Term.variable name nl nc :: more) l c st =
        Result.ok Node.null
          (({ st with symbols := (findSymbol name st.symbols).2 } : State).err Phase.PHASE_TYPE
            l c "No variable names provided in definition.") ∧
      (({ st with symbols := (findSymbol name st.symbols).2 } : State).err Phase.PHASE_TYPE l c
            "No variable names provided in definition.").envs = st.envs) ∧
    (nev type env st = Result.ok tm st0 → tm.isType = true → WellFormedSymbols st0.symbols →
      (st0.lookup env name).isSome = true →
      declare ev nev env type (head :: Term.variable name nl nc :: more) l c st =
        Result.ok Node.null
          (({ st0 with symbols := (findSymbol name st0.symbols).2 } : State).err
            Phase.PHASE_TYPE l c "No variable names provided in definition.") ∧
      (({ st0 with symbols := (findSymbol name st0.symbols).2 } : State).err Phase.PHASE_TYPE
            l c "No variable names provided in definition.").envs = st0.envs) ∧
    (runTerm 10 letIntY State.start).state?.map State.errors =
      some [{ line := 1, column := 1,
              message := "[TYPE ERROR] No variable names provided in definition." }] ∧
    ((runTerm 10 letIntY State.start).state?.bind (fun s => s.lookup globalEnv "int")).map
        Meta.asType = some (some INT) ∧
    (runTerm 10 intIntFive State.start).state?.map State.errors =
      some [{ line := 1, column := 1,
              message := "[TYPE ERROR] No variable names provided in definition." }] ∧
    ((runTerm 10 intIntFive State.start).state?.bind (fun s => s.lookup globalEnv "int")).map
        Meta.asType = some (some INT) ∧
    (runTerms 10 [letX 1, letX 2] State.start).state?.map
        (fun s => s.errors.map Error.message) =
      some ["[TYPE ERROR] No variable names provided in definition."] ∧
    ((runTerms 10 [letX 1, letX 2] State.start).state?.bind
        (fun s => s.lookup globalEnv "x")).map (fun m => (m.type, m.asInt)) =
      some (some INT, 1) ∧
    (runTerm 10 doLetTwice State.start).state?.map State.countErrors = some 0 ∧
    ((runTerm 10 doLetTwice State.start).state?.bind (fun s => s.lookup globalEnv "x")).map
        (fun m => (m.type, m.asInt)) = some (some INT, 2) :=
  ⟨fun hsym hb =>
     ⟨define_bound_name ev env st head name nl nc more l c hsym hb, State.err_envs _ _ _ _ _⟩,
   fun hnev hty hsym0 hb0 =>
     ⟨declare_bound_name ev nev env st st0 type tm head name nl nc more l c hnev hty hsym0 hb0,
      State.err_envs _ _ _ _ _⟩,
   by decide, by decide, by decide, by decide, by decide, by decide, by decide, by decide⟩

/-- Witness of C32: `(let int y)` and `(int int 5)` in the global environment
of the driver, where `int` is bound in the root environment. -/
theorem let_of_bound_name_witness :
    (State.start.lookup globalEnv "int").isSome = true ∧
    define (Term.eval 1) globalEnv
        (Term.variable "let" 1 2 :: Term.variable "int" 1 6 :: [Term.variable "y" 1 10]) 1 1
        State.start =
      Result.ok Node.null
        (({ State.start with symbols := (findSymbol "int" State.start.symbols).2 } : State).err
          Phase.PHASE_TYPE 1 1 "No variable names provided in definition.") ∧
    declare (Term.eval 1) (Node.eval 1) globalEnv (Node.variable "int" 1 2)
        (Term.variable "let" 1 2 :: Term.variable "int" 1 6 :: [Term.variable "y" 1 10]) 1 1
        State.start =
      Result.ok Node.null
        (({ State.start with symbols := (findSymbol "int" State.start.symbols).2 } : State).err
          Phase.PHASE_TYPE 1 1 "No variable names provided in definition.") :=
  ⟨by decide,
   ((let_of_bound_name (Term.eval 1) (Node.eval 1) globalEnv State.start State.start
      (Node.variable "int" 1 2) (Meta.mk (some TYPE) (Value.t INT)) (Term.variable "let" 1 2)
      "int" 1 6 [Term.variable "y" 1 10] 1 1).1
      (by intro name id h; simp [State.start, State.initial, mapFind] at h) (by decide)).1,
   ((let_of_bound_name (Term.eval 1) (Node.eval 1) globalEnv State.start State.start
      (Node.variable "int" 1 2) (Meta.mk (some TYPE) (Value.t INT)) (Term.variable "let" 1 2)
      "int" 1 6 [Term.variable "y" 1 10] 1 1).2.1 rfl (by decide)
      (by intro name id h; simp [State.start, State.initial, mapFind] at h) (by decide)).1⟩

/-! ## Numeric literals -/

theorem isdigit_ne_newline (c : Char) (h : isdigit c = true) : c ≠ chNewline := by
  intro hc
  rw [hc] at h
  exact absurd h (by decide)

theorem isdigit_of_isdelim (x : Char) (h : isdelim x = true) : isdigit x = false := by
  cases hd : isdigit x with
  | false => rfl
  | true =>
      exfalso
      simp only [isdelim, Bool.or_eq_true, decide_eq_true_eq] at h
      rcases h with (((h | h) | h) | h) | h
      · simp only [isspace, isdigit, Bool.or_eq_true, Bool.and_eq_true, decide_eq_true_eq] at h hd
        omega
      · rw [h] at hd; exact absurd hd (by decide)
      · rw [h] at hd; exact absurd hd (by decide)
      · rw [h] at hd; exact absurd hd (by decide)
      · rw [h] at hd; exact absurd hd (by decide)

theorem readWhile_digits (rest : List Char)
    (hrest : isdigit (View.peek { data := rest, lineIdx := 0, columnIdx := 0 }) = false) :
    ∀ (ds : List Char) (l k : Nat) (acc : List Char), (∀ c ∈ ds, isdigit c = true) →
      readWhile isdigit (ds ++ rest) l k acc =
        some (acc ++ ds, { data := rest, lineIdx := l, columnIdx := k + ds.length })
  | [], l, k, acc, _ => by
      cases rest with
      | nil => simp [readWhile, show isdigit chNul = false from by decide]
      | cons c cs =>
          have hc : isdigit c = false := hrest
          simp [readWhile, hc]
  | d :: ds, l, k, acc, h => by
      have hd : isdigit d = true := h d (by simp)
      have hn : ¬ (d = chNewline) := isdigit_ne_newline d hd
      have ih := readWhile_digits rest hrest ds l (k + 1) (acc ++ [d])
        (fun c hc => h c (by simp [hc]))
      have hk : k + 1 + ds.length = k + (ds.length + 1) := by omega
      rw [hk] at ih
      simp only [List.cons_append, readWhile, hd, if_true, if_neg hn, List.append_eq, ih,
        List.append_assoc, List.singleton_append, List.length_cons, List.nil_append]

/-- C31. After the digits and the dot of a numeric literal `lex` takes digits
while there are any, and there need be none: on one or more digits, a dot and
then a delimiter it returns a token of id `T_FLOAT` whose name ends in the dot,
reports nothing and leaves the view at the delimiter.  On the text `1. ` the
token is the `FLOAT` token `1.` at line 1, column 1. -/
theorem lex_float_without_fraction (d : Char) (ds : List Char) (x : Char) (rest : List Char)
    (l k : Nat) (st : State)
    (hd : isdigit d = true) (hds : ∀ c ∈ ds, isdigit c = true) (hx : isdelim x = true) :
    lex { data := (d :: ds) ++ chDot :: x :: rest, lineIdx := l, columnIdx := k } st =
      Result.ok
        ({ name := String.mk ((d :: ds) ++ [chDot]), id := T_FLOAT, line := l + 1,
           column := k + 1 },
         { data := x :: rest, lineIdx := l, columnIdx := k + (d :: ds).length + 1 }) st ∧
    (lex (sourceView textOneDot) State.start).val? =
      some ({ name := "1.", id := T_FLOAT, line := 1, column := 1 },
            { data := [chSpace], lineIdx := 0, columnIdx := 2 }) ∧
    (lex (sourceView textOneDot) State.start).state?.map State.countErrors = some 0 := by
  refine ⟨?_, by decide, by decide⟩
  have hne : ∀ c0, isdigit c0 = false → ¬ (d = c0) := by
    intro c0 hc h
    rw [h] at hd
    rw [hd] at hc
    cases hc
  have hsp : isspace d = false := by
    cases hs : isspace d with
    | false => rfl
    | true =>
        exfalso
        simp only [isspace, isdigit, Bool.or_eq_true, Bool.and_eq_true, decide_eq_true_eq] at hs hd
        omega
  have hxd : isdigit x = false := isdigit_of_isdelim x hx
  have hdot : isdigit chDot = false := by decide
  have h1 := readWhile_digits (chDot :: x :: rest) hdot (d :: ds) l k []
    (by
      intro c hc
      rcases List.mem_cons.mp hc with h | h
      · rw [h]; exact hd
      · exact hds c h)
  have h2 := readWhile_digits (x :: rest) hxd [] l (k + (d :: ds).length + 1)
    ([] ++ (d :: ds) ++ [chDot]) (by simp)
  simp only [List.nil_append, List.append_nil, Nat.add_zero, List.length_nil] at h1 h2
  have hdotn : ¬ (chDot = chNewline) := by decide
  simp only [List.cons_append] at h1 h2 ⊢
  unfold lex
  simp only [View.peek, if_neg (hne chNul (by decide)), if_neg (hne chHash (by decide)), hsp,
    Bool.false_eq_true, if_false, if_neg (hne chColon (by decide)),
    if_neg (hne chLParen (by decide)), if_neg (hne chRParen (by decide)),
    if_neg (hne chLBrack (by decide)), if_neg (hne chRBrack (by decide)),
    if_neg (hne chQuote (by decide)), if_neg (hne chApostrophe (by decide)), hd, if_true, h1,
    View.read, View.after, if_neg hdotn, List.cons_append, h2, endNumber, hx, View.line, View.column]

/-- Witness of C31: the text `1. ` with a digit, no further digits and a space
after the dot. -/
theorem lex_float_without_fraction_witness :
    isdigit (Char.ofNat 49) = true ∧ isdelim chSpace = true ∧
    lex { data := [Char.ofNat 49] ++ chDot :: chSpace :: [], lineIdx := 0, columnIdx := 0 }
        State.start =
      Result.ok
        ({ name := String.mk ([Char.ofNat 49] ++ [chDot]), id := T_FLOAT, line := 0 + 1,
           column := 0 + 1 },
         { data := chSpace :: [], lineIdx := 0,
           columnIdx := 0 + ([Char.ofNat 49] : List Char).length + 1 }) State.start :=
  ⟨by decide, by decide,
   (lex_float_without_fraction (Char.ofNat 49) [] chSpace [] 0 0 State.start (by decide)
      (by simp) (by decide)).1⟩

end Basil
